import Mathlib

/-!
Verification of the fast-marching-method header (include/thinks/fastMarchingMethod.hpp).

The C++ code is templated over a floating-point type T.  We model T values by
the type FV below: FV.fin x is an ordinary value (a real number), FV.nan is a
quiet NaN (produced by the quadratic solver on degenerate input), and FV.top is
std::numeric_limits<T>::max(), the sentinel used to initialise distance buffers
and as the start value of the frozen-neighbor minimum in EikonalSolver::solve.
Comparisons follow IEEE semantics: every comparison with NaN is false, and the
sentinel compares greater than every ordinary value.

Grids are modelled as row-major flat lists indexed by linearIndex, exactly as
the C++ Grid class wraps a flat buffer.  While-loops (marchNarrowBand) and the
recursive heap sifts are modelled with an explicit fuel argument; fuel
exhaustion is a distinct error that the original cannot produce, and all
call sites pass enough fuel.
-/

namespace FMM

/-- Model of the C++ floating-point distance values: NaN, an ordinary (real)
value, or the numeric_limits<T>::max() sentinel. -/
inductive FV where
  | nan : FV
  | fin : ℝ → FV
  | top : FV

instance : Inhabited FV := ⟨FV.top⟩

/-- IEEE strict less-than on modelled values: any comparison involving NaN is
false; the max() sentinel is above every ordinary value. -/
def FV.lt : FV → FV → Prop
  | .fin x, .fin y => x < y
  | .fin _, .top => True
  | _, _ => False

/-- IEEE less-or-equal on modelled values (false whenever NaN is involved). -/
def FV.le : FV → FV → Prop
  | .fin x, .fin y => x ≤ y
  | .fin _, .top => True
  | .top, .top => True
  | _, _ => False

noncomputable instance : (a b : FV) → Decidable (FV.lt a b)
  | .fin x, .fin y => inferInstanceAs (Decidable (x < y))
  | .fin _, .top => isTrue trivial
  | .fin _, .nan => isFalse (fun h => h)
  | .nan, .nan => isFalse (fun h => h)
  | .nan, .fin _ => isFalse (fun h => h)
  | .nan, .top => isFalse (fun h => h)
  | .top, .nan => isFalse (fun h => h)
  | .top, .fin _ => isFalse (fun h => h)
  | .top, .top => isFalse (fun h => h)

noncomputable instance : (a b : FV) → Decidable (FV.le a b)
  | .fin x, .fin y => inferInstanceAs (Decidable (x ≤ y))
  | .fin _, .top => isTrue trivial
  | .top, .top => isTrue trivial
  | .fin _, .nan => isFalse (fun h => h)
  | .nan, .nan => isFalse (fun h => h)
  | .nan, .fin _ => isFalse (fun h => h)
  | .nan, .top => isFalse (fun h => h)
  | .top, .nan => isFalse (fun h => h)
  | .top, .fin _ => isFalse (fun h => h)

/-- std::min(a, b), which returns b exactly when b < a.  This is how
EikonalSolver::solve accumulates the minimum frozen-neighbor distance. -/
noncomputable def FV.minStd (a b : FV) : FV := if FV.lt b a then b else a

/-- Underlying real number of an ordinary value (junk 0 on nan/top; only used
where the code has already established the value is ordinary). -/
def FV.toReal : FV → ℝ
  | .fin x => x
  | _ => 0

/-- An N-dimensional integer grid index (std::array<std::int32_t, N>). -/
abbrev Idx := List ℤ

/-- An N-dimensional grid size (std::array<std::size_t, N>). -/
abbrev Size := List ℕ

/-- Product of the size components (detail::linearSize). -/
def linearSize (s : Size) : ℕ := s.prod

/-- detail::inside - componentwise 0 <= index[i] < size[i] (and the arrays
have the same arity, which the C++ template enforces by type). -/
def insideIdx (index : Idx) (size : Size) : Prop :=
  index.length = size.length ∧ ∀ p ∈ index.zip size, 0 ≤ p.1 ∧ p.1 < (p.2 : ℤ)

instance (index : Idx) (size : Size) : Decidable (insideIdx index size) := by
  unfold insideIdx; infer_instance

/-- Row-major linear index k = i0 + i1*s0 + i2*s0*s1 + ...  (Grid::linearIndex_).
The source precomputes stride[j] = s0*...*sj and sums index[i]*stride[i-1];
this recursion computes the same mixed-radix value. -/
def linearIndex : Size → Idx → ℕ
  | s :: ss, i :: is => i.toNat + s * linearIndex ss is
  | _, _ => 0

/-- Unit offset vector with v at axis i (row 2*i+j of Neighborhood::offsets). -/
def unitOffset (N i : ℕ) (v : ℤ) : Idx :=
  (List.range N).map (fun j => if j = i then v else 0)

/-- Neighborhood<N>::offsets - the 2N axis offsets +e0, -e0, +e1, -e1, ... . -/
def neighborhoodOffsets (N : ℕ) : List Idx :=
  (List.range N).flatMap (fun i => [unitOffset N i 1, unitOffset N i (-1)])

/-- Componentwise index + offset (the neighbor_index accumulation loops). -/
def idxAdd (index offset : Idx) : Idx :=
  (index.zip offset).map (fun p => p.1 + p.2)

/-- Cell states (detail::CellState). -/
inductive CellState where
  | Far : CellState
  | NarrowBand : CellState
  | Frozen : CellState
deriving DecidableEq

/-- Read a grid cell through the row-major linear index (Grid::cell, const). -/
def cellRead {α : Type} (dflt : α) (size : Size) (buf : List α) (index : Idx) : α :=
  buf.getD (linearIndex size index) dflt

/-- Write a grid cell through the row-major linear index (Grid::cell, mutable). -/
def cellWrite {α : Type} (size : Size) (buf : List α) (index : Idx) (v : α) : List α :=
  buf.set (linearIndex size index) v

/-- Failure kinds raised by the library (std::runtime_error messages, plus the
fuel sentinel that marks exhaustion of the explicit while-loop fuel and which
the original code cannot produce). -/
inductive Err where
  | invalidSize : Err
  | invalidSpacing : Err
  | invalidSpeed : Err
  | sizeMismatch : Err
  | invalidIndex : Err
  | invalidDistance : Err
  | invalidNormal : Err
  | emptyNarrowBand : Err
  | heapEmpty : Err
  | heapDuplicate : Err
  | heapNotFound : Err
  | heapNotIncreasing : Err
  | heapNotDecreasing : Err
  | outOfFuel : Err
deriving DecidableEq

/- Association-list model of the std::unordered_map<index_type, size_type>
owned by NarrowBandStore.  Keys are unique by construction of the operations,
mirroring the uniqueness of unordered_map keys. -/
namespace IdxMap

/-- unordered_map::find. -/
def lookup : List (Idx × ℕ) → Idx → Option ℕ
  | [], _ => none
  | e :: es, k => if e.1 = k then some e.2 else lookup es k

/-- Assignment iter->second = v through a found iterator (no-op when absent,
which the call sites never rely on: the C++ asserts the key is present). -/
def update : List (Idx × ℕ) → Idx → ℕ → List (Idx × ℕ)
  | [], _, _ => []
  | e :: es, k, v => if e.1 = k then (k, v) :: es else e :: update es k v

/-- unordered_map::erase by key. -/
def erase : List (Idx × ℕ) → Idx → List (Idx × ℕ)
  | [], _ => []
  | e :: es, k => if e.1 = k then es else e :: erase es k

end IdxMap

/-- detail::NarrowBandStore<T, N>: a flat binary min-heap of (distance, index)
pairs plus the index-to-heap-position map. -/
structure NarrowBandStore (D : Type) where
  values : List (D × Idx)
  index_to_pos : List (Idx × ℕ)

/-- Result of a heap operation: the C++ methods mutate the store in place and
may throw; err carries the store as it is at the moment of the throw. -/
inductive HRes (D : Type) (β : Type) where
  | ok : β → NarrowBandStore D → HRes D β
  | err : Err → NarrowBandStore D → HRes D β

namespace NarrowBandStore

variable {D : Type} [Inhabited D] (dlt dle : D → D → Prop)
variable [DecidableRel dlt] [DecidableRel dle]

/-- NarrowBandStore::swap_: updates both mapping entries, then swaps the two
array slots. -/
def swap_ (s : NarrowBandStore D) (pos0 pos1 : ℕ) : NarrowBandStore D :=
  let v0 := s.values.getD pos0 default
  let v1 := s.values.getD pos1 default
  { values := (s.values.set pos0 v1).set pos1 v0
    index_to_pos := IdxMap.update (IdxMap.update s.index_to_pos v0.2 pos1) v1.2 pos0 }

/-- Recursion body of sift_up_ with explicit fuel; the recursion depth is at
most pos since the parent position (pos-1)/2 strictly decreases. -/
def siftUpGo : ℕ → NarrowBandStore D → ℕ → NarrowBandStore D
  | 0, s, _ => s
  | fuel + 1, s, pos =>
    if pos = 0 then s
    else
      let parent_pos := (pos - 1) / 2
      if dlt (s.values.getD pos default).1 (s.values.getD parent_pos default).1 then
        siftUpGo fuel (swap_ s pos parent_pos) parent_pos
      else s

/-- NarrowBandStore::sift_up_. -/
def sift_up_ (s : NarrowBandStore D) (pos : ℕ) : NarrowBandStore D :=
  siftUpGo dlt (pos + 1) s pos

/-- Recursion body of sift_down_ with explicit fuel; each recursive call moves
to a child position, so values_.size() steps always suffice. -/
def siftDownGo : ℕ → NarrowBandStore D → ℕ → NarrowBandStore D
  | 0, s, _ => s
  | fuel + 1, s, pos =>
    let left_pos := 2 * pos + 1
    let right_pos := 2 * pos + 2
    let max_pos := s.values.length - 1
    if left_pos > max_pos then s
    else
      let vpos := (s.values.getD pos default).1
      let vleft := (s.values.getD left_pos default).1
      let m1 : ℕ × D := if dlt vleft vpos then (left_pos, vleft) else (pos, vpos)
      let min_pos :=
        if right_pos ≤ max_pos ∧ dlt (s.values.getD right_pos default).1 m1.2 then
          right_pos
        else m1.1
      if min_pos ≠ pos then siftDownGo fuel (swap_ s min_pos pos) min_pos else s

/-- NarrowBandStore::sift_down_. -/
def sift_down_ (s : NarrowBandStore D) (pos : ℕ) : NarrowBandStore D :=
  siftDownGo dlt (s.values.length + 1) s pos

/-- NarrowBandStore::pop: take the root, move the last leaf on top, erase the
mapping entry, shrink, and sift the new root down. -/
def pop (s : NarrowBandStore D) : HRes D (D × Idx) :=
  if s.values.isEmpty then .err .heapEmpty s
  else
    let value := s.values.getD 0 default
    let s1 := swap_ s 0 (s.values.length - 1)
    let s2 : NarrowBandStore D :=
      { values := s1.values.dropLast
        index_to_pos := IdxMap.erase s1.index_to_pos value.2 }
    if s2.values.isEmpty then .ok value s2 else .ok value (sift_down_ dlt s2 0)

/-- NarrowBandStore::insert: reject a duplicate index, append at leaf level,
record the mapping entry, and sift up. -/
def insert (s : NarrowBandStore D) (value : D × Idx) : HRes D Unit :=
  if (IdxMap.lookup s.index_to_pos value.2).isSome then .err .heapDuplicate s
  else
    let pos := s.values.length
    let s1 : NarrowBandStore D :=
      { values := s.values ++ [value]
        index_to_pos := s.index_to_pos ++ [(value.2, pos)] }
    .ok () (sift_up_ dlt s1 pos)

/-- NarrowBandStore::increase_distance: requires the new distance to be
strictly greater (IEEE: the check new <= current is false on NaN), then
updates in place and sifts down. -/
def increase_distance (s : NarrowBandStore D) (index : Idx) (new_distance : D) :
    HRes D Unit :=
  match IdxMap.lookup s.index_to_pos index with
  | none => .err .heapNotFound s
  | some pos =>
    let value := s.values.getD pos default
    if dle new_distance value.1 then .err .heapNotIncreasing s
    else
      let s1 : NarrowBandStore D :=
        { values := s.values.set pos (new_distance, value.2)
          index_to_pos := s.index_to_pos }
      .ok () (sift_down_ dlt s1 pos)

/-- NarrowBandStore::decrease_distance: requires the new distance to be
strictly smaller (the check new >= current, i.e. current <= new, is false on
NaN), then updates in place and sifts up. -/
def decrease_distance (s : NarrowBandStore D) (index : Idx) (new_distance : D) :
    HRes D Unit :=
  match IdxMap.lookup s.index_to_pos index with
  | none => .err .heapNotFound s
  | some pos =>
    let value := s.values.getD pos default
    if dle value.1 new_distance then .err .heapNotDecreasing s
    else
      let s1 : NarrowBandStore D :=
        { values := s.values.set pos (new_distance, value.2)
          index_to_pos := s.index_to_pos }
      .ok () (sift_up_ dlt s1 pos)

end NarrowBandStore

/-- detail::squared. -/
def squared (x : ℝ) : ℝ := x * x

/-- detail::inverseSquared on scalars. -/
noncomputable def inverseSquared (x : ℝ) : ℝ := 1 / squared x

/-- detail::inverseSquared on arrays (componentwise). -/
noncomputable def inverseSquaredList (a : List ℝ) : List ℝ :=
  a.map inverseSquared

/-- detail::squaredMagnitude. -/
def squaredMagnitude (v : List ℝ) : ℝ :=
  (v.map (fun x => x * x)).sum

/-- std::sqrt with IEEE semantics: NaN on negative input. -/
noncomputable def sqrtF (x : ℝ) : FV :=
  if x < 0 then .nan else .fin (Real.sqrt x)

/-- EikonalSolver::solveQuadratic_: returns the pair of roots of
c + b*x + a*x^2 = 0, larger first, with the exact branch structure of the
source (eps = 1e-9). -/
noncomputable def solveQuadratic_ (coefficients : ℝ × ℝ × ℝ) : FV × FV :=
  let eps : ℝ := 1e-9
  let c := coefficients.1
  let b := coefficients.2.1
  let a := coefficients.2.2
  if |a| < eps then
    if |b| < eps then (.nan, .nan)
    else (.fin (-c / b), .nan)
  else if |b| < eps then
    match sqrtF (-c / a) with
    | .fin r => (.fin r, .fin (-r))
    | _ => (.nan, .nan)
  else
    let discriminant_squared := b * b - 4 * a * c
    if discriminant_squared ≤ eps then (.nan, .nan)
    else
      let discriminant := Real.sqrt discriminant_squared
      let r0 :=
        if b < 0 then (-b + discriminant) / (2 * a)
        else (-b - discriminant) / (2 * a)
      let r1 := c / (a * r0)
      (.fin (max r0 r1), .fin (min r0 r1))

/-- The inner j-loop of EikonalSolver::solve: the running std::min over the
distances of the inside, Frozen axis-neighbors offsets[2i+0] and
offsets[2i+1], started from numeric_limits<T>::max(). -/
noncomputable def minFrozenNeighborDistance (size : Size) (distance_buf : List FV)
    (state_buf : List CellState) (index : Idx) (neighbor_offsets : List Idx)
    (i : ℕ) : FV :=
  (List.range 2).foldl
    (fun acc j =>
      let neighbor_index := idxAdd index (neighbor_offsets.getD (2 * i + j) [])
      if insideIdx neighbor_index size ∧
          cellRead CellState.Far size state_buf neighbor_index = CellState.Frozen then
        FV.minStd acc (cellRead FV.top size distance_buf neighbor_index)
      else acc)
    FV.top

/-- The coefficient-assembly loop of EikonalSolver::solve: starting from
q = (-1/F^2, 0, 0), each axis whose frozen-neighbor minimum is below the
sentinel contributes (u^2, -2u, 1) * inv_dx_squared[i]. -/
noncomputable def solveCoeffs (dx : List ℝ) (speed : ℝ) (size : Size)
    (distance_buf : List FV) (state_buf : List CellState) (index : Idx)
    (neighbor_offsets : List Idx) : ℝ × ℝ × ℝ :=
  let inv_dx_squared := inverseSquaredList dx
  (List.range size.length).foldl
    (fun q i =>
      let m := minFrozenNeighborDistance size distance_buf state_buf index
        neighbor_offsets i
      if FV.lt m FV.top then
        let u := m.toReal
        let s := inv_dx_squared.getD i 0
        (q.1 + squared u * s, q.2.1 + (-2) * u * s, q.2.2 + s)
      else q)
    (-(inverseSquared speed), 0, 0)

/-- EikonalSolver::solve: assemble the quadratic and return its first (larger)
root.  The asserts on the result are release-mode no-ops and are not modelled. -/
noncomputable def eikonalSolve (dx : List ℝ) (speed : ℝ) (size : Size)
    (distance_buf : List FV) (state_buf : List CellState) (index : Idx)
    (neighbor_offsets : List Idx) : FV :=
  (solveQuadratic_ (solveCoeffs dx speed size distance_buf state_buf index
    neighbor_offsets)).1

/-- The mutable state of one sweep: distance buffer, state buffer, narrow band. -/
structure Config where
  dist : List FV
  state : List CellState
  band : NarrowBandStore FV

/-- detail::initializeFrozenCells: write multiplier * distance and set state
Frozen for every seed. -/
noncomputable def initFrozenCells (size : Size) (frozen_indices : List Idx)
    (frozen_distances : List ℝ) (multiplier : ℝ) (dist : List FV)
    (state : List CellState) : List FV × List CellState :=
  (frozen_indices.zip frozen_distances).foldl
    (fun bufs p =>
      (cellWrite size bufs.1 p.1 (FV.fin (multiplier * p.2)),
       cellWrite size bufs.2 p.1 CellState.Frozen))
    (dist, state)

/-- Loop body of detail::updateNeighbors for a single neighbor offset: if the
direction predicate admits the offset and the neighbor is inside, solve and
insert when Far, solve and decrease when NarrowBand, skip when Frozen. -/
noncomputable def visitNeighbor (dx : List ℝ) (speed : ℝ) (size : Size)
    (neighbor_offsets : List Idx) (normal : List ℝ)
    (pred : List ℝ → Idx → Prop) [∀ n o, Decidable (pred n o)]
    (index : Idx) (acc : Except Err Config) (neighbor_offset : Idx) :
    Except Err Config := do
      let cfg ← acc
      if pred normal neighbor_offset then
        let neighbor_index := idxAdd index neighbor_offset
        if insideIdx neighbor_index size then
          match cellRead CellState.Far size cfg.state neighbor_index with
          | CellState.Far =>
            let distance := eikonalSolve dx speed size cfg.dist cfg.state
              neighbor_index neighbor_offsets
            let dist' := cellWrite size cfg.dist neighbor_index distance
            let state' := cellWrite size cfg.state neighbor_index CellState.NarrowBand
            match NarrowBandStore.insert FV.lt cfg.band (distance, neighbor_index) with
            | .ok _ band' => pure ⟨dist', state', band'⟩
            | .err e _ => throw e
          | CellState.NarrowBand =>
            let neighbor_distance := cellRead FV.top size cfg.dist neighbor_index
            let new_neighbor_distance := eikonalSolve dx speed size cfg.dist
              cfg.state neighbor_index neighbor_offsets
            if FV.lt new_neighbor_distance neighbor_distance then
              match NarrowBandStore.decrease_distance FV.lt FV.le cfg.band
                  neighbor_index new_neighbor_distance with
              | .ok _ band' =>
                pure ⟨cellWrite size cfg.dist neighbor_index new_neighbor_distance,
                  cfg.state, band'⟩
              | .err e _ => throw e
            else pure cfg
          | CellState.Frozen => pure cfg
        else pure cfg
      else pure cfg

/-- detail::updateNeighbors: fold the single-offset body over the 2N offsets. -/
noncomputable def updateNeighbors (dx : List ℝ) (speed : ℝ) (size : Size)
    (neighbor_offsets : List Idx) (normal : List ℝ)
    (pred : List ℝ → Idx → Prop) [∀ n o, Decidable (pred n o)]
    (index : Idx) (c : Config) : Except Err Config :=
  neighbor_offsets.foldl
    (visitNeighbor dx speed size neighbor_offsets normal pred index)
    (Except.ok c)

/-- detail::initializeNarrowBand: expand every seed through the predicate into
a fresh narrow band, and fail with emptyNarrowBand if nothing was inserted. -/
noncomputable def initNarrowBand (dx : List ℝ) (speed : ℝ) (size : Size)
    (neighbor_offsets : List Idx) (frozen_indices : List Idx)
    (normals : List (List ℝ)) (pred : List ℝ → Idx → Prop)
    [∀ n o, Decidable (pred n o)] (dist : List FV) (state : List CellState) :
    Except Err Config := do
  let c ← (frozen_indices.zip normals).foldl
    (fun acc p => do
      let cfg ← acc
      updateNeighbors dx speed size neighbor_offsets p.2 pred p.1 cfg)
    (Except.ok ⟨dist, state, ⟨[], []⟩⟩)
  if c.band.values.isEmpty then throw Err.emptyNarrowBand else pure c

/-- One iteration of the marchNarrowBand while-loop: pop the minimum, freeze
it, relax its neighbors with the always-true predicate.  Returns none when the
band is empty (loop exit). -/
noncomputable def marchStep (dx : List ℝ) (speed : ℝ) (size : Size)
    (neighbor_offsets : List Idx) (c : Config) :
    Except Err (Option ((FV × Idx) × Config)) :=
  if c.band.values.isEmpty then pure none
  else
    match NarrowBandStore.pop FV.lt c.band with
    | .err e _ => throw e
    | .ok value band' =>
      let dist' := cellWrite size c.dist value.2 value.1
      let state' := cellWrite size c.state value.2 CellState.Frozen
      -- the dummy normal (quiet NaN in the source) is never read by the
      -- always-true predicate; its value is immaterial
      (updateNeighbors dx speed size neighbor_offsets
        (List.replicate size.length 0) (fun _ _ => True) value.2
        ⟨dist', state', band'⟩).map (fun cfg => some (value, cfg))

/-- detail::marchNarrowBand with explicit fuel, also returning the list of
popped (distance, index) pairs in extraction order. -/
noncomputable def marchGo (dx : List ℝ) (speed : ℝ) (size : Size)
    (neighbor_offsets : List Idx) : ℕ → Config → Except Err (List (FV × Idx) × Config)
  | 0, c => if c.band.values.isEmpty then pure ([], c) else throw Err.outOfFuel
  | fuel + 1, c => do
    match ← marchStep dx speed size neighbor_offsets c with
    | none => pure ([], c)
    | some (v, c') => do
      let r ← marchGo dx speed size neighbor_offsets fuel c'
      pure (v :: r.1, r.2)

/-- detail::marchNarrowBand: drain the narrow band (the fuel linearSize+1
always suffices for the loop, which freezes one cell per iteration). -/
noncomputable def marchNarrowBand (dx : List ℝ) (speed : ℝ) (size : Size)
    (neighbor_offsets : List Idx) (c : Config) :
    Except Err (List (FV × Idx) × Config) :=
  marchGo dx speed size neighbor_offsets (linearSize size + 1) c

/-- detail::throwIfInvalidSize. -/
def throwIfInvalidSize (size : Size) : Option Err :=
  if ∃ x ∈ size, x < 1 then some .invalidSize else none

/-- detail::throwIfInvalidSpacing. -/
noncomputable def throwIfInvalidSpacing (dx : List ℝ) : Option Err :=
  if ∃ x ∈ dx, x ≤ 0 then some .invalidSpacing else none

/-- detail::throwIfInvalidSpeed. -/
noncomputable def throwIfInvalidSpeed (speed : ℝ) : Option Err :=
  if speed ≤ 0 then some .invalidSpeed else none

/-- detail::throwIfSizeNotEqual on three containers (u vs v, then u vs w). -/
def throwIfSizeNotEqual {α β γ : Type} (u : List α) (v : List β) (w : List γ) :
    Option Err :=
  if u.length ≠ v.length then some .sizeMismatch
  else if u.length ≠ w.length then some .sizeMismatch
  else none

/-- detail::throwIfInvalidIndex. -/
def throwIfInvalidIndex (indices : List Idx) (size : Size) : Option Err :=
  if ∃ i ∈ indices, ¬ insideIdx i size then some .invalidIndex else none

/-- detail::throwIfInvalidDistance with the not-NaN predicate: a seed distance
is an Option ℝ, none standing for NaN. -/
noncomputable def throwIfInvalidDistance (distances : List (Option ℝ)) : Option Err :=
  if ∃ d ∈ distances, d = none then some .invalidDistance else none

/-- detail::throwIfInvalidNormal: squared magnitude below 0.25. -/
noncomputable def throwIfInvalidNormal (normals : List (List ℝ)) : Option Err :=
  if ∃ n ∈ normals, squaredMagnitude n < 0.25 then some .invalidNormal else none

/-- The validation sequence shared by unsignedDistance and signedDistance, in
source order. -/
noncomputable def validateCommon (size : Size) (dx : List ℝ) (speed : ℝ)
    (frozen_indices : List Idx) (frozen_distances : List (Option ℝ))
    (normals : List (List ℝ)) : Option Err :=
  (throwIfInvalidSize size).orElse fun _ =>
  (throwIfInvalidSpacing dx).orElse fun _ =>
  (throwIfInvalidSpeed speed).orElse fun _ =>
  (throwIfSizeNotEqual frozen_indices frozen_distances normals).orElse fun _ =>
  (throwIfInvalidIndex frozen_indices size).orElse fun _ =>
  throwIfInvalidDistance frozen_distances

/-- The inside-sweep direction predicate: sum over i of (-normal[i]) * offset[i]
is nonnegative (the lambda passed for the inside narrow band). -/
def insidePred (normal : List ℝ) (offset : Idx) : Prop :=
  ((normal.zip offset).map (fun p => -1 * p.1 * (p.2 : ℝ))).sum ≥ 0

/-- The outside-sweep direction predicate: sum over i of normal[i] * offset[i]
is nonnegative. -/
def outsidePred (normal : List ℝ) (offset : Idx) : Prop :=
  ((normal.zip offset).map (fun p => p.1 * (p.2 : ℝ))).sum ≥ 0

noncomputable instance (n : List ℝ) (o : Idx) : Decidable (insidePred n o) := by
  unfold insidePred; infer_instance

noncomputable instance (n : List ℝ) (o : Idx) : Decidable (outsidePred n o) := by
  unfold outsidePred; infer_instance

/-- Scalar multiplication on modelled values (NaN propagates; the sentinel is
never scaled in the modelled runs). -/
def FV.scale (m : ℝ) : FV → FV
  | .fin x => .fin (m * x)
  | .nan => .nan
  | .top => .top

/-- thinks::fmm::unsignedDistance.  Seed distances are Option ℝ with none
standing for NaN; both grids are shared between the inside and the outside
sweeps exactly as in the source. -/
noncomputable def unsignedDistance (size : Size) (dx : List ℝ) (speed : ℝ)
    (frozen_indices : List Idx) (frozen_distances : List (Option ℝ))
    (normals : List (List ℝ)) : Except Err (List FV) := do
  match validateCommon size dx speed frozen_indices frozen_distances normals with
  | some e => throw e
  | none =>
    let dists : List ℝ := frozen_distances.map (fun d => d.getD 0)
    let offsets := neighborhoodOffsets size.length
    let state0 : List CellState := List.replicate (linearSize size) CellState.Far
    let dist0 : List FV := List.replicate (linearSize size) FV.top
    -- solve inside
    let bufs1 := initFrozenCells size frozen_indices dists (-1) dist0 state0
    let c1 ← initNarrowBand dx speed size offsets frozen_indices normals
      insidePred bufs1.1 bufs1.2
    let r1 ← marchNarrowBand dx speed size offsets c1
    -- solve outside
    let bufs2 := initFrozenCells size frozen_indices dists 1 r1.2.dist r1.2.state
    let c2 ← initNarrowBand dx speed size offsets frozen_indices normals
      outsidePred bufs2.1 bufs2.2
    let r2 ← marchNarrowBand dx speed size offsets c2
    -- set unsigned frozen cell values
    pure ((frozen_indices.zip dists).foldl
      (fun buf p => cellWrite size buf p.1 (FV.fin |p.2|)) r2.2.dist)

/-- thinks::fmm::signedDistance: two fresh distance buffers, one shared state
buffer, merge negative-inside and positive-outside, overwrite seeds with the
original signed distances. -/
noncomputable def signedDistance (size : Size) (dx : List ℝ) (speed : ℝ)
    (frozen_indices : List Idx) (frozen_distances : List (Option ℝ))
    (normals : List (List ℝ)) : Except Err (List FV) := do
  match validateCommon size dx speed frozen_indices frozen_distances normals with
  | some e => throw e
  | none =>
    match throwIfInvalidNormal normals with
    | some e => throw e
    | none =>
      let dists : List ℝ := frozen_distances.map (fun d => d.getD 0)
      let offsets := neighborhoodOffsets size.length
      let state0 : List CellState := List.replicate (linearSize size) CellState.Far
      -- solve inside
      let inside0 : List FV := List.replicate (linearSize size) FV.top
      let ibufs := initFrozenCells size frozen_indices dists (-1) inside0 state0
      let ic1 ← initNarrowBand dx speed size offsets frozen_indices normals
        insidePred ibufs.1 ibufs.2
      let ir ← marchNarrowBand dx speed size offsets ic1
      -- solve outside
      let outside0 : List FV := List.replicate (linearSize size) FV.top
      let obufs := initFrozenCells size frozen_indices dists 1 outside0 ir.2.state
      let oc1 ← initNarrowBand dx speed size offsets frozen_indices normals
        outsidePred obufs.1 obufs.2
      let orr ← marchNarrowBand dx speed size offsets oc1
      -- merge: negative inside, positive outside
      let n := linearSize size
      let merged0 := (List.range n).foldl
        (fun buf i =>
          if FV.lt (ir.2.dist.getD i FV.top) FV.top then
            buf.set i (FV.scale (-1) (ir.2.dist.getD i FV.top))
          else buf)
        (List.replicate n FV.top)
      let merged := (List.range n).foldl
        (fun buf i =>
          if FV.lt (orr.2.dist.getD i FV.top) FV.top then
            buf.set i (orr.2.dist.getD i FV.top)
          else buf)
        merged0
      pure ((frozen_indices.zip dists).foldl
        (fun buf p => cellWrite size buf p.1 (FV.fin p.2)) merged)

/-! ### Spec-side definitions

These definitions follow the wording of the specification (for refinement
claims); they are compared against the definitions above, which are
translated from the source. -/

/-- Spec-side wording of the quadratic policy (claim C2): with eps = 1e-9,
NaN when both |a| and |b| are below eps; the single root -c/b when only |a|
is; sqrt(-c/a) (the larger of the pair) when only |b| is; NaN when the
discriminant is at most eps; otherwise the larger real root
max(r0, c/(a*r0)), r0 the sign-stable root chosen by the sign of b. -/
noncomputable def specQuadRoot (c b a : ℝ) : FV :=
  if |a| < 1e-9 ∧ |b| < 1e-9 then .nan
  else if |a| < 1e-9 then .fin (-c / b)
  else if |b| < 1e-9 then sqrtF (-c / a)
  else if b * b - 4 * a * c ≤ 1e-9 then .nan
  else
    let r0 :=
      if b < 0 then (-b + Real.sqrt (b * b - 4 * a * c)) / (2 * a)
      else (-b - Real.sqrt (b * b - 4 * a * c)) / (2 * a)
    .fin (max r0 (c / (a * r0)))

/-- C2: for every coefficient triple (c, b, a) and eps = 1e-9 the quadratic
solver yields, by cases: NaN when both |a| and |b| are below eps; -c/b when
only |a| is; sqrt(-c/a) when only |b| is; NaN when the discriminant
b^2 - 4ac is at most eps; otherwise the larger real root computed as
max(r0, c/(a*r0)) with r0 sign-stable in b - and EikonalSolver::solve
returns exactly this first root of the quadratic of its assembled
coefficients. -/
theorem quadratic_policy_matches_spec (c b a : ℝ) :
    (solveQuadratic_ (c, b, a)).1 = specQuadRoot c b a ∧
    ∀ (dx : List ℝ) (speed : ℝ) (size : Size) (distance_buf : List FV)
      (state_buf : List CellState) (index : Idx) (neighbor_offsets : List Idx),
      eikonalSolve dx speed size distance_buf state_buf index neighbor_offsets =
        (solveQuadratic_ (solveCoeffs dx speed size distance_buf state_buf index
          neighbor_offsets)).1 := by
  refine ⟨?_, fun _ _ _ _ _ _ _ => rfl⟩
  unfold solveQuadratic_ specQuadRoot sqrtF
  by_cases ha : |a| < (1e-9 : ℝ)
  · by_cases hb : |b| < (1e-9 : ℝ) <;> simp [ha, hb]
  · by_cases hb : |b| < (1e-9 : ℝ)
    · by_cases hc : -c / a < 0 <;> simp [ha, hb, hc]
    · by_cases hd : b * b - 4 * a * c ≤ (1e-9 : ℝ) <;> simp [ha, hb, hd]

/-- Positions 2k and 2k+1 of a flatMap of two-element blocks. -/
theorem flatMapPairs_getD {α : Type} (f g : ℕ → α) (dflt : α) :
    ∀ (l : List ℕ) (k : ℕ), k < l.length →
      ((l.flatMap fun i => [f i, g i]).getD (2 * k) dflt = f (l.getD k 0) ∧
        (l.flatMap fun i => [f i, g i]).getD (2 * k + 1) dflt = g (l.getD k 0)) := by
  intro l
  induction l with
  | nil => intro k hk; simp at hk
  | cons x xs ih =>
    intro k hk
    cases k with
    | zero => simp
    | succ k =>
      have h2 : 2 * (k + 1) = 2 * k + 1 + 1 := by ring
      have h3 : 2 * (k + 1) + 1 = (2 * k + 1) + 1 + 1 := by ring
      simp only [List.flatMap_cons, List.cons_append, List.nil_append, h2, h3,
        List.getD_cons_succ, List.getD_cons_zero]
      exact ih k (by simpa using Nat.lt_of_succ_lt_succ hk)

/-- Rows 2k and 2k+1 of Neighborhood::offsets are the axis-k unit offsets. -/
theorem neighborhoodOffsets_getD (N k : ℕ) (h : k < N) :
    (neighborhoodOffsets N).getD (2 * k) [] = unitOffset N k 1 ∧
      (neighborhoodOffsets N).getD (2 * k + 1) [] = unitOffset N k (-1) := by
  have := flatMapPairs_getD (fun i => unitOffset N i 1)
    (fun i => unitOffset N i (-1)) [] (List.range N) k (by simpa using h)
  simpa [neighborhoodOffsets, List.getD_eq_getElem?_getD, List.getElem?_range h]
    using this

/-- Spec-side qualification of an axis neighbor (claim C1): its stored
distance when the neighbor index + v*e_i is inside the grid and Frozen. -/
noncomputable def specAxisNeighbor (size : Size) (distance_buf : List FV)
    (state_buf : List CellState) (index : Idx) (N i : ℕ) (v : ℤ) : Option FV :=
  let nbr := idxAdd index (unitOffset N i v)
  if insideIdx nbr size ∧
      cellRead CellState.Far size state_buf nbr = CellState.Frozen then
    some (cellRead FV.top size distance_buf nbr)
  else none

/-- Spec-side per-axis contribution of claim C1: with u the smaller qualifying
neighbor distance (or the only one), add (u^2*s, -2u*s, s); contribute nothing
when no neighbor qualifies. -/
noncomputable def specAxisTerm (dx : List ℝ) (size : Size) (distance_buf : List FV)
    (state_buf : List CellState) (index : Idx) (N i : ℕ) : ℝ × ℝ × ℝ :=
  let s := (inverseSquaredList dx).getD i 0
  match specAxisNeighbor size distance_buf state_buf index N i 1,
      specAxisNeighbor size distance_buf state_buf index N i (-1) with
  | some d1, some d2 =>
    (min d1.toReal d2.toReal ^ 2 * s, -2 * min d1.toReal d2.toReal * s, s)
  | some d1, none => (d1.toReal ^ 2 * s, -2 * d1.toReal * s, s)
  | none, some d2 => (d2.toReal ^ 2 * s, -2 * d2.toReal * s, s)
  | none, none => (0, 0, 0)

/-- Spec-side coefficient assembly of claim C1: start from
(c, b, a) = (-1/F^2, 0, 0) and accumulate the per-axis contributions. -/
noncomputable def specCoeffs (dx : List ℝ) (speed : ℝ) (size : Size)
    (distance_buf : List FV) (state_buf : List CellState) (index : Idx) :
    ℝ × ℝ × ℝ :=
  (List.range size.length).foldl
    (fun q i =>
      let t := specAxisTerm dx size distance_buf state_buf index size.length i
      (q.1 + t.1, q.2.1 + t.2.1, q.2.2 + t.2.2))
    (-(1 / speed ^ 2), 0, 0)

/-- Every ordinary value is strictly below the sentinel. -/
theorem FV.lt_fin_top (x : ℝ) : FV.lt (FV.fin x) FV.top := trivial

/-- std::min(max(), fin x) keeps the new finite value. -/
theorem FV.minStd_top_fin (x : ℝ) : FV.minStd FV.top (FV.fin x) = FV.fin x := by
  unfold FV.minStd
  rw [if_pos]
  exact trivial

/-- std::min on two ordinary values is the real minimum. -/
theorem FV.minStd_fin_fin (x y : ℝ) :
    FV.minStd (FV.fin x) (FV.fin y) = FV.fin (min x y) := by
  unfold FV.minStd
  by_cases hlt : FV.lt (FV.fin y) (FV.fin x)
  · rw [if_pos hlt]
    have hyx : y < x := hlt
    rw [min_eq_right hyx.le]
  · rw [if_neg hlt]
    have hyx : ¬ y < x := hlt
    rw [min_eq_left (not_lt.1 hyx)]

/-- The running-minimum loop agrees with the spec-side description of the two
qualifying axis neighbors, provided every Frozen cell stores an ordinary
value (as in every run: seeds and marched cells store fin values). -/
theorem minFrozen_eq_spec (size : Size) (distance_buf : List FV)
    (state_buf : List CellState) (index : Idx) (i : ℕ) (h : i < size.length)
    (hfin : ∀ p, state_buf.getD p CellState.Far = CellState.Frozen →
      ∃ x : ℝ, distance_buf.getD p FV.top = FV.fin x) :
    minFrozenNeighborDistance size distance_buf state_buf index
        (neighborhoodOffsets size.length) i =
      (match specAxisNeighbor size distance_buf state_buf index size.length i 1,
          specAxisNeighbor size distance_buf state_buf index size.length i (-1) with
        | some d1, some d2 => FV.fin (min d1.toReal d2.toReal)
        | some d1, none => d1
        | none, some d2 => d2
        | none, none => FV.top) := by
  obtain ⟨ho1, ho2⟩ := neighborhoodOffsets_getD size.length i h
  unfold minFrozenNeighborDistance specAxisNeighbor
  rw [show List.range 2 = [0, 1] from rfl]
  simp only [List.foldl_cons, List.foldl_nil]
  rw [show (2 : ℕ) * i + 0 = 2 * i by ring, ho1, ho2]
  by_cases c1 : insideIdx (idxAdd index (unitOffset size.length i 1)) size ∧
      cellRead CellState.Far size state_buf
        (idxAdd index (unitOffset size.length i 1)) = CellState.Frozen
  · obtain ⟨x, hx⟩ := hfin (linearIndex size (idxAdd index (unitOffset size.length i 1))) c1.2
    have hx1 : cellRead FV.top size distance_buf
        (idxAdd index (unitOffset size.length i 1)) = FV.fin x := hx
    by_cases c2 : insideIdx (idxAdd index (unitOffset size.length i (-1))) size ∧
        cellRead CellState.Far size state_buf
          (idxAdd index (unitOffset size.length i (-1))) = CellState.Frozen
    · obtain ⟨y, hy⟩ := hfin (linearIndex size (idxAdd index (unitOffset size.length i (-1)))) c2.2
      have hy1 : cellRead FV.top size distance_buf
          (idxAdd index (unitOffset size.length i (-1))) = FV.fin y := hy
      rw [if_pos c1, if_pos c2, if_pos c1, if_pos c2, hx1, hy1,
        FV.minStd_top_fin, FV.minStd_fin_fin]
      simp [FV.toReal]
    · rw [if_pos c1, if_neg c2, if_pos c1, if_neg c2, hx1, FV.minStd_top_fin]
  · by_cases c2 : insideIdx (idxAdd index (unitOffset size.length i (-1))) size ∧
        cellRead CellState.Far size state_buf
          (idxAdd index (unitOffset size.length i (-1))) = CellState.Frozen
    · obtain ⟨y, hy⟩ := hfin (linearIndex size (idxAdd index (unitOffset size.length i (-1)))) c2.2
      have hy1 : cellRead FV.top size distance_buf
          (idxAdd index (unitOffset size.length i (-1))) = FV.fin y := hy
      rw [if_neg c1, if_pos c2, if_neg c1, if_pos c2, hy1, FV.minStd_top_fin]
    · rw [if_neg c1, if_neg c2, if_neg c1, if_neg c2]

/-- A qualifying neighbor holds an ordinary value whenever frozen cells do. -/
theorem specAxisNeighbor_fin (size : Size) (distance_buf : List FV)
    (state_buf : List CellState) (index : Idx) (N i : ℕ) (v : ℤ) (d : FV)
    (hfin : ∀ p, state_buf.getD p CellState.Far = CellState.Frozen →
      ∃ x : ℝ, distance_buf.getD p FV.top = FV.fin x)
    (h : specAxisNeighbor size distance_buf state_buf index N i v = some d) :
    ∃ x : ℝ, d = FV.fin x := by
  unfold specAxisNeighbor at h
  by_cases c : insideIdx (idxAdd index (unitOffset N i v)) size ∧
      cellRead CellState.Far size state_buf (idxAdd index (unitOffset N i v)) =
        CellState.Frozen
  · rw [if_pos c] at h
    obtain ⟨x, hx⟩ := hfin (linearIndex size (idxAdd index (unitOffset N i v))) c.2
    refine ⟨x, ?_⟩
    have hx1 : cellRead FV.top size distance_buf (idxAdd index (unitOffset N i v)) =
        FV.fin x := hx
    rw [← Option.some_inj.1 h, hx1]
  · rw [if_neg c] at h
    cases h

/-- C1: for every call to EikonalSolver::solve on a cell index inside the grid
(in a state where frozen cells hold ordinary values, as in every run), the
quadratic coefficients are assembled exactly as specified: starting from
(c, b, a) = (-1/F^2, 0, 0), each axis contributes nothing when no inside
Frozen axis-neighbor exists, and otherwise, with u the smaller qualifying
neighbor distance, accumulates c += u^2 * inv_dx_squared[i],
b += -2u * inv_dx_squared[i], a += inv_dx_squared[i]. -/
theorem solve_coefficients_match_spec (dx : List ℝ) (speed : ℝ) (size : Size)
    (distance_buf : List FV) (state_buf : List CellState) (index : Idx)
    (hin : insideIdx index size)
    (hfin : ∀ p, state_buf.getD p CellState.Far = CellState.Frozen →
      ∃ x : ℝ, distance_buf.getD p FV.top = FV.fin x) :
    solveCoeffs dx speed size distance_buf state_buf index
      (neighborhoodOffsets size.length) =
      specCoeffs dx speed size distance_buf state_buf index := by
  unfold solveCoeffs specCoeffs
  have hinit : -(inverseSquared speed) = -(1 / speed ^ 2) := by
    unfold inverseSquared squared
    rw [pow_two]
  rw [hinit]
  apply List.foldl_ext
  intro q i hi
  have hiN : i < size.length := List.mem_range.1 hi
  rw [minFrozen_eq_spec size distance_buf state_buf index i hiN hfin]
  unfold specAxisTerm
  cases h1 : specAxisNeighbor size distance_buf state_buf index size.length i 1 with
  | none =>
    cases h2 : specAxisNeighbor size distance_buf state_buf index size.length i (-1) with
    | none =>
      have hnl : ¬ FV.lt FV.top FV.top := fun hc => hc
      dsimp only
      rw [if_neg hnl]
      show q = (q.1 + 0, q.2.1 + 0, q.2.2 + 0)
      simp
    | some d2 =>
      obtain ⟨y, hy⟩ := specAxisNeighbor_fin size distance_buf state_buf index
        size.length i (-1) d2 hfin h2
      subst hy
      dsimp only
      rw [if_pos (FV.lt_fin_top _)]
      simp only [FV.toReal]
      refine congrArg₂ Prod.mk ?_ (congrArg₂ Prod.mk ?_ ?_)
      · unfold squared
        rw [pow_two]
      · ring
      · ring
  | some d1 =>
    obtain ⟨x, hx⟩ := specAxisNeighbor_fin size distance_buf state_buf index
      size.length i 1 d1 hfin h1
    subst hx
    cases h2 : specAxisNeighbor size distance_buf state_buf index size.length i (-1) with
    | none =>
      dsimp only
      rw [if_pos (FV.lt_fin_top _)]
      simp only [FV.toReal]
      refine congrArg₂ Prod.mk ?_ (congrArg₂ Prod.mk ?_ ?_)
      · unfold squared
        rw [pow_two]
      · ring
      · ring
    | some d2 =>
      obtain ⟨y, hy⟩ := specAxisNeighbor_fin size distance_buf state_buf index
        size.length i (-1) d2 hfin h2
      subst hy
      dsimp only
      rw [if_pos (FV.lt_fin_top _)]
      simp only [FV.toReal]
      refine congrArg₂ Prod.mk ?_ (congrArg₂ Prod.mk ?_ ?_)
      · unfold squared
        rw [pow_two]
      · ring
      · ring

/-- Witness for C1 at a concrete 1-D call (the relaxation of cell 1 between
the two frozen seeds of the counterexample run). -/
theorem solve_coefficients_match_spec_witness :
    insideIdx [(1 : ℤ)] [4] ∧
    solveCoeffs [1] 1 [4] [FV.fin (-3), FV.top, FV.fin (-3), FV.top]
        [CellState.Frozen, CellState.Far, CellState.Frozen, CellState.Far]
        [(1 : ℤ)] (neighborhoodOffsets (List.length [4])) =
      specCoeffs [1] 1 [4] [FV.fin (-3), FV.top, FV.fin (-3), FV.top]
        [CellState.Frozen, CellState.Far, CellState.Frozen, CellState.Far]
        [(1 : ℤ)] := by
  refine ⟨by decide, solve_coefficients_match_spec _ _ _ _ _ _ (by decide) ?_⟩
  intro p hp
  match p with
  | 0 => exact ⟨-3, rfl⟩
  | 1 => exact absurd hp (by decide)
  | 2 => exact ⟨-3, rfl⟩
  | 3 => exact absurd hp (by decide)
  | (n + 4) => exact absurd hp (by simp [List.getD])

/-- Computable strict order on ℚ used to instantiate the heap. -/
def qlt (a b : ℚ) : Prop := a < b

/-- Computable weak order on ℚ used to instantiate the heap. -/
def qle (a b : ℚ) : Prop := a ≤ b

instance (a b : ℚ) : Decidable (qlt a b) := inferInstanceAs (Decidable (a < b))

instance (a b : ℚ) : Decidable (qle a b) := inferInstanceAs (Decidable (a ≤ b))

/-- C10: every narrow-band heap operation is atomic on error - each throwing
path (duplicate index on insert, empty heap on pop, index not found or
non-decreasing new distance on decrease_distance, index not found or
non-increasing new distance on increase_distance) leaves both the heap array
and the index-to-position map exactly as they were, and those are exactly the
failing cases. -/
theorem heap_error_atomicity {D : Type} [Inhabited D]
    (dlt dle : D → D → Prop) [DecidableRel dlt] [DecidableRel dle]
    (s : NarrowBandStore D) :
    (∀ v e s', NarrowBandStore.insert dlt s v = .err e s' → s' = s) ∧
    (∀ e s', NarrowBandStore.pop dlt s = .err e s' → s' = s) ∧
    (∀ idx d e s',
      NarrowBandStore.decrease_distance dlt dle s idx d = .err e s' → s' = s) ∧
    (∀ idx d e s',
      NarrowBandStore.increase_distance dlt dle s idx d = .err e s' → s' = s) ∧
    (∀ v, (∃ e s', NarrowBandStore.insert dlt s v = .err e s') ↔
      (IdxMap.lookup s.index_to_pos v.2).isSome = true) ∧
    ((∃ e s', NarrowBandStore.pop dlt s = .err e s') ↔ s.values = []) ∧
    (∀ idx d,
      (∃ e s', NarrowBandStore.decrease_distance dlt dle s idx d = .err e s') ↔
      (IdxMap.lookup s.index_to_pos idx = none ∨
        ∃ pos, IdxMap.lookup s.index_to_pos idx = some pos ∧
          dle (s.values.getD pos default).1 d)) ∧
    (∀ idx d,
      (∃ e s', NarrowBandStore.increase_distance dlt dle s idx d = .err e s') ↔
      (IdxMap.lookup s.index_to_pos idx = none ∨
        ∃ pos, IdxMap.lookup s.index_to_pos idx = some pos ∧
          dle d (s.values.getD pos default).1)) := by
  refine ⟨?_, ?_, ?_, ?_, ?_, ?_, ?_, ?_⟩
  · intro v e s' h
    unfold NarrowBandStore.insert at h
    split at h
    · injection h with h1 h2
      exact h2.symm
    · cases h
  · intro e s' h
    unfold NarrowBandStore.pop at h
    split at h
    · injection h with h1 h2
      exact h2.symm
    · dsimp only at h
      split at h <;> cases h
  · intro idx d e s' h
    unfold NarrowBandStore.decrease_distance at h
    split at h
    · injection h with h1 h2
      exact h2.symm
    · dsimp only at h
      split at h
      · injection h with h1 h2
        exact h2.symm
      · cases h
  · intro idx d e s' h
    unfold NarrowBandStore.increase_distance at h
    split at h
    · injection h with h1 h2
      exact h2.symm
    · dsimp only at h
      split at h
      · injection h with h1 h2
        exact h2.symm
      · cases h
  · intro v
    unfold NarrowBandStore.insert
    constructor
    · rintro ⟨e, s', h⟩
      by_contra hc
      rw [if_neg (by simpa using hc)] at h
      cases h
    · intro hc
      exact ⟨Err.heapDuplicate, s, by rw [if_pos hc]⟩
  · unfold NarrowBandStore.pop
    constructor
    · rintro ⟨e, s', h⟩
      by_cases hc : s.values.isEmpty
      · exact List.isEmpty_iff.1 hc
      · rw [if_neg (by simpa using hc)] at h
        dsimp only at h
        split at h <;> cases h
    · intro hc
      exact ⟨Err.heapEmpty, s, by rw [if_pos (List.isEmpty_iff.2 hc)]⟩
  · intro idx d
    unfold NarrowBandStore.decrease_distance
    constructor
    · rintro ⟨e, s', h⟩
      split at h
      · exact Or.inl (by assumption)
      · rename_i pos hpos
        dsimp only at h
        split at h
        · exact Or.inr ⟨pos, hpos, by assumption⟩
        · cases h
    · rintro (hnone | ⟨pos, hpos, hle⟩)
      · refine ⟨Err.heapNotFound, s, ?_⟩
        rw [hnone]
      · refine ⟨Err.heapNotDecreasing, s, ?_⟩
        rw [hpos]
        dsimp only
        rw [if_pos hle]
  · intro idx d
    unfold NarrowBandStore.increase_distance
    constructor
    · rintro ⟨e, s', h⟩
      split at h
      · exact Or.inl (by assumption)
      · rename_i pos hpos
        dsimp only at h
        split at h
        · exact Or.inr ⟨pos, hpos, by assumption⟩
        · cases h
    · rintro (hnone | ⟨pos, hpos, hle⟩)
      · refine ⟨Err.heapNotFound, s, ?_⟩
        rw [hnone]
      · refine ⟨Err.heapNotIncreasing, s, ?_⟩
        rw [hpos]
        dsimp only
        rw [if_pos hle]

/-- Witness for C10: a concrete failing decrease_distance on a one-element
rational heap leaves the store untouched. -/
theorem heap_error_atomicity_witness :
    NarrowBandStore.decrease_distance qlt qle
        (⟨[((3 : ℚ), [0])], [([0], 0)]⟩ : NarrowBandStore ℚ) [0] 5 =
      .err Err.heapNotDecreasing ⟨[((3 : ℚ), [0])], [([0], 0)]⟩ ∧
    (⟨[((3 : ℚ), [0])], [([0], 0)]⟩ : NarrowBandStore ℚ) =
      ⟨[((3 : ℚ), [0])], [([0], 0)]⟩ :=
  ⟨rfl, (heap_error_atomicity qlt qle _).2.2.1 [0] 5 Err.heapNotDecreasing _ rfl⟩

/-! ### Execution lemmas for concrete runs -/

@[simp] theorem bind_ok {ε α β : Type} (a : α) (f : α → Except ε β) :
    (Bind.bind (Except.ok a) f : Except ε β) = f a := rfl

@[simp] theorem bind_error {ε α β : Type} (e : ε) (f : α → Except ε β) :
    (Bind.bind (Except.error e) f : Except ε β) = Except.error e := rfl

@[simp] theorem pure_eq_ok {ε α : Type} (a : α) :
    (pure a : Except ε α) = Except.ok a := rfl

/-- Branch lemma: both |a| and |b| below eps yields the NaN pair. -/
theorem solveQuadratic_nan_small (c b a : ℝ) (ha : |a| < 1e-9) (hb : |b| < 1e-9) :
    solveQuadratic_ (c, b, a) = (FV.nan, FV.nan) := by
  unfold solveQuadratic_
  dsimp only
  rw [if_pos ha, if_pos hb]

/-- Branch lemma: |b| below eps with nonnegative -c/a yields the sqrt pair. -/
theorem solveQuadratic_sqrt_branch (c b a : ℝ) (ha : ¬ |a| < 1e-9) (hb : |b| < 1e-9)
    (hc : ¬ (-c / a < 0)) :
    solveQuadratic_ (c, b, a) =
      (.fin (Real.sqrt (-c / a)), .fin (-Real.sqrt (-c / a))) := by
  unfold solveQuadratic_ sqrtF
  dsimp only
  rw [if_neg ha, if_pos hb, if_neg hc]

/-- Branch lemma: the general case with b < 0. -/
theorem solveQuadratic_main_neg (c b a : ℝ) (ha : ¬ |a| < 1e-9) (hb : ¬ |b| < 1e-9)
    (hd : ¬ (b * b - 4 * a * c ≤ 1e-9)) (hbn : b < 0) :
    solveQuadratic_ (c, b, a) =
      (.fin (max ((-b + Real.sqrt (b * b - 4 * a * c)) / (2 * a))
          (c / (a * ((-b + Real.sqrt (b * b - 4 * a * c)) / (2 * a))))),
        .fin (min ((-b + Real.sqrt (b * b - 4 * a * c)) / (2 * a))
          (c / (a * ((-b + Real.sqrt (b * b - 4 * a * c)) / (2 * a)))))) := by
  unfold solveQuadratic_
  dsimp only
  rw [if_neg ha, if_neg hb, if_neg hd, if_pos hbn]

/-- Branch lemma: the general case with b >= 0. -/
theorem solveQuadratic_main_pos (c b a : ℝ) (ha : ¬ |a| < 1e-9) (hb : ¬ |b| < 1e-9)
    (hd : ¬ (b * b - 4 * a * c ≤ 1e-9)) (hbn : ¬ b < 0) :
    solveQuadratic_ (c, b, a) =
      (.fin (max ((-b - Real.sqrt (b * b - 4 * a * c)) / (2 * a))
          (c / (a * ((-b - Real.sqrt (b * b - 4 * a * c)) / (2 * a))))),
        .fin (min ((-b - Real.sqrt (b * b - 4 * a * c)) / (2 * a))
          (c / (a * ((-b - Real.sqrt (b * b - 4 * a * c)) / (2 * a)))))) := by
  unfold solveQuadratic_
  dsimp only
  rw [if_neg ha, if_neg hb, if_neg hd, if_neg hbn]

/-- sqrt 4 = 2, used by the concrete runs. -/
theorem sqrt_four : Real.sqrt 4 = 2 := by
  rw [show (4 : ℝ) = 2 ^ 2 by norm_num, Real.sqrt_sq (by norm_num : (0:ℝ) ≤ 2)]

/- Run "nanRun": unsignedDistance on size [3], dx [1000000], speed 1, a single
seed at [1] with distance 0 and normal [1].  The huge spacing makes
inv_dx_squared = 1e-12 < eps, so the quadratic solver hits its
both-coefficients-near-zero branch and returns NaN for both relaxed cells,
although each of them has a frozen inside axis-neighbor. -/

/-- The inside-sweep relaxation of cell [0] in nanRun returns NaN. -/
theorem nanRun_solve0 : eikonalSolve [1000000] 1 [3] [FV.top, FV.fin 0, FV.top]
    [CellState.Far, CellState.Frozen, CellState.Far] [0] [[1], [-1]] = FV.nan := by
  have hc : solveCoeffs [1000000] 1 [3] [FV.top, FV.fin 0, FV.top]
      [CellState.Far, CellState.Frozen, CellState.Far] [0] [[1], [-1]] =
      ((-1 : ℝ), 0, 1/1000000000000) := by
    norm_num [show solveCoeffs [1000000] 1 [3] [FV.top, FV.fin 0, FV.top]
      [CellState.Far, CellState.Frozen, CellState.Far] [0] [[1], [-1]] =
      (-(1/(1*1)) + squared ((FV.fin (0:ℝ)).toReal) * (1/(1000000*1000000)),
       0 + (-2) * ((FV.fin (0:ℝ)).toReal) * (1/(1000000*1000000)),
       0 + (1/(1000000*1000000))) from rfl, squared, FV.toReal]
  show (solveQuadratic_ (solveCoeffs [1000000] 1 [3] [FV.top, FV.fin 0, FV.top]
      [CellState.Far, CellState.Frozen, CellState.Far] [0] [[1], [-1]])).1 = FV.nan
  rw [hc, solveQuadratic_nan_small _ _ _ (by rw [abs_of_pos] <;> norm_num) (by norm_num)]

/-- The outside-sweep relaxation of cell [2] in nanRun returns NaN. -/
theorem nanRun_solve2 : eikonalSolve [1000000] 1 [3] [FV.nan, FV.fin 0, FV.top]
    [CellState.Frozen, CellState.Frozen, CellState.Far] [2] [[1], [-1]] = FV.nan := by
  have hc : solveCoeffs [1000000] 1 [3] [FV.nan, FV.fin 0, FV.top]
      [CellState.Frozen, CellState.Frozen, CellState.Far] [2] [[1], [-1]] =
      ((-1 : ℝ), 0, 1/1000000000000) := by
    norm_num [show solveCoeffs [1000000] 1 [3] [FV.nan, FV.fin 0, FV.top]
      [CellState.Frozen, CellState.Frozen, CellState.Far] [2] [[1], [-1]] =
      (-(1/(1*1)) + squared ((FV.fin (0:ℝ)).toReal) * (1/(1000000*1000000)),
       0 + (-2) * ((FV.fin (0:ℝ)).toReal) * (1/(1000000*1000000)),
       0 + (1/(1000000*1000000))) from rfl, squared, FV.toReal]
  show (solveQuadratic_ (solveCoeffs [1000000] 1 [3] [FV.nan, FV.fin 0, FV.top]
      [CellState.Frozen, CellState.Frozen, CellState.Far] [2] [[1], [-1]])).1 = FV.nan
  rw [hc, solveQuadratic_nan_small _ _ _ (by rw [abs_of_pos] <;> norm_num) (by norm_num)]

/-- The full nanRun: both relaxed cells end up holding NaN in the returned
buffer (neither a finite value nor the infinity sentinel). -/
theorem nanRun_eval : unsignedDistance [3] [1000000] 1 [[1]] [some 0] [[1]] =
    Except.ok [FV.nan, FV.fin 0, FV.nan] := by
  have hval : validateCommon [3] [1000000] 1 [[1]] [some 0] [[1]] = none := by
    have hnn : ¬ ∃ d ∈ [some (0:ℝ)], d = none := by simp
    norm_num [validateCommon, throwIfInvalidSize, throwIfInvalidSpacing,
      throwIfInvalidSpeed, throwIfSizeNotEqual, throwIfInvalidIndex,
      throwIfInvalidDistance, Option.orElse, hnn, (by decide : insideIdx [1] [3])]
    exact fun h => nomatch h
  have h2 : initFrozenCells [3] [[1]] [0] (-1) [FV.top, FV.top, FV.top]
      [CellState.Far, CellState.Far, CellState.Far] =
      ([FV.top, FV.fin 0, FV.top],
       [CellState.Far, CellState.Frozen, CellState.Far]) := by
    norm_num [show initFrozenCells [3] [[1]] [0] (-1) [FV.top, FV.top, FV.top]
      [CellState.Far, CellState.Far, CellState.Far] =
      ([FV.top, FV.fin (-1 * 0), FV.top],
       [CellState.Far, CellState.Frozen, CellState.Far]) from rfl]
  have h3 : initNarrowBand [1000000] 1 [3] [[1], [-1]] [[1]] [[1]]
      insidePred [FV.top, FV.fin 0, FV.top]
      [CellState.Far, CellState.Frozen, CellState.Far] =
      Except.ok ⟨[FV.nan, FV.fin 0, FV.top],
        [CellState.NarrowBand, CellState.Frozen, CellState.Far],
        ⟨[(FV.nan, [0])], [([0], 0)]⟩⟩ := by
    have hp1 : ¬ insidePred [1] [1] := by norm_num [insidePred]
    have hp2 : insidePred [1] [-1] := by norm_num [insidePred]
    simp only [initNarrowBand, updateNeighbors, visitNeighbor,
      show List.zip [[(1:ℤ)]] [[(1:ℝ)]] = [([1], [1])] from rfl,
      List.foldl_cons, List.foldl_nil, bind_ok, pure_eq_ok,
      show idxAdd [(1:ℤ)] [1] = [2] from rfl,
      show idxAdd [(1:ℤ)] [-1] = [0] from rfl,
      hp1, hp2, ite_true, ite_false, if_true, if_false,
      (by decide : insideIdx [0] [3]),
      show cellRead CellState.Far [3]
        [CellState.Far, CellState.Frozen, CellState.Far] [0] = CellState.Far from rfl,
      nanRun_solve0,
      show NarrowBandStore.insert FV.lt ⟨[], []⟩ (FV.nan, [0]) =
        HRes.ok () ⟨[(FV.nan, [0])], [([0], 0)]⟩ from rfl,
      show cellWrite [3] [FV.top, FV.fin 0, FV.top] [0] FV.nan =
        [FV.nan, FV.fin 0, FV.top] from rfl,
      show cellWrite [3] [CellState.Far, CellState.Frozen, CellState.Far] [0]
        CellState.NarrowBand =
        [CellState.NarrowBand, CellState.Frozen, CellState.Far] from rfl]
    rfl
  have h4 : marchNarrowBand [1000000] 1 [3] [[1], [-1]]
      ⟨[FV.nan, FV.fin 0, FV.top],
        [CellState.NarrowBand, CellState.Frozen, CellState.Far],
        ⟨[(FV.nan, [0])], [([0], 0)]⟩⟩ =
      Except.ok ([(FV.nan, [0])],
        ⟨[FV.nan, FV.fin 0, FV.top],
          [CellState.Frozen, CellState.Frozen, CellState.Far], ⟨[], []⟩⟩) := rfl
  have h5 : initFrozenCells [3] [[1]] [0] 1 [FV.nan, FV.fin 0, FV.top]
      [CellState.Frozen, CellState.Frozen, CellState.Far] =
      ([FV.nan, FV.fin 0, FV.top],
       [CellState.Frozen, CellState.Frozen, CellState.Far]) := by
    norm_num [show initFrozenCells [3] [[1]] [0] 1 [FV.nan, FV.fin 0, FV.top]
      [CellState.Frozen, CellState.Frozen, CellState.Far] =
      ([FV.nan, FV.fin (1 * 0), FV.top],
       [CellState.Frozen, CellState.Frozen, CellState.Far]) from rfl]
  have h6 : initNarrowBand [1000000] 1 [3] [[1], [-1]] [[1]] [[1]]
      outsidePred [FV.nan, FV.fin 0, FV.top]
      [CellState.Frozen, CellState.Frozen, CellState.Far] =
      Except.ok ⟨[FV.nan, FV.fin 0, FV.nan],
        [CellState.Frozen, CellState.Frozen, CellState.NarrowBand],
        ⟨[(FV.nan, [2])], [([2], 0)]⟩⟩ := by
    have hp1 : outsidePred [1] [1] := by norm_num [outsidePred]
    have hp2 : ¬ outsidePred [1] [-1] := by norm_num [outsidePred]
    simp only [initNarrowBand, updateNeighbors, visitNeighbor,
      show List.zip [[(1:ℤ)]] [[(1:ℝ)]] = [([1], [1])] from rfl,
      List.foldl_cons, List.foldl_nil, bind_ok, pure_eq_ok,
      show idxAdd [(1:ℤ)] [1] = [2] from rfl,
      show idxAdd [(1:ℤ)] [-1] = [0] from rfl,
      hp1, hp2, ite_true, ite_false, if_true, if_false,
      (by decide : insideIdx [2] [3]),
      show cellRead CellState.Far [3]
        [CellState.Frozen, CellState.Frozen, CellState.Far] [2] = CellState.Far from rfl,
      nanRun_solve2,
      show NarrowBandStore.insert FV.lt ⟨[], []⟩ (FV.nan, [2]) =
        HRes.ok () ⟨[(FV.nan, [2])], [([2], 0)]⟩ from rfl,
      show cellWrite [3] [FV.nan, FV.fin 0, FV.top] [2] FV.nan =
        [FV.nan, FV.fin 0, FV.nan] from rfl,
      show cellWrite [3] [CellState.Frozen, CellState.Frozen, CellState.Far] [2]
        CellState.NarrowBand =
        [CellState.Frozen, CellState.Frozen, CellState.NarrowBand] from rfl]
    rfl
  have h7 : marchNarrowBand [1000000] 1 [3] [[1], [-1]]
      ⟨[FV.nan, FV.fin 0, FV.nan],
        [CellState.Frozen, CellState.Frozen, CellState.NarrowBand],
        ⟨[(FV.nan, [2])], [([2], 0)]⟩⟩ =
      Except.ok ([(FV.nan, [2])],
        ⟨[FV.nan, FV.fin 0, FV.nan],
          [CellState.Frozen, CellState.Frozen, CellState.Frozen], ⟨[], []⟩⟩) := rfl
  unfold unsignedDistance
  rw [hval]
  simp only [bind_ok, pure_eq_ok,
    show List.map (fun d => Option.getD d 0) [some (0:ℝ)] = [0] from rfl,
    show neighborhoodOffsets (List.length [3]) = [[1], [-1]] from rfl,
    show List.replicate (linearSize [3]) FV.top = [FV.top, FV.top, FV.top] from rfl,
    show List.replicate (linearSize [3]) CellState.Far =
      [CellState.Far, CellState.Far, CellState.Far] from rfl,
    h2, h3, h4, h5, h6, h7]
  rw [show List.foldl (fun buf p => cellWrite [3] buf p.1 (FV.fin |p.2|))
        [FV.nan, FV.fin 0, FV.nan] ([[(1:ℤ)]].zip [(0:ℝ)]) =
      cellWrite [3] [FV.nan, FV.fin 0, FV.nan] [1] (FV.fin |(0:ℝ)|) from rfl,
    show |(0:ℝ)| = 0 from abs_zero,
    show cellWrite [3] [FV.nan, FV.fin 0, FV.nan] [1] (FV.fin 0) =
      [FV.nan, FV.fin 0, FV.nan] from rfl]

/-- C7 (code bug): on the valid input size [3], dx [1000000], speed 1, seed [1]
with distance 0 and normal [1], unsignedDistance returns normally but the
reachable cell [0] (an axis-neighbor of the seed) holds NaN in the returned
buffer - neither a finite distance nor the infinity sentinel - contradicting
the postcondition that reachable cells hold finite distances. -/
theorem reachable_cell_holds_nan :
    unsignedDistance [3] [1000000] 1 [[1]] [some 0] [[1]] =
      Except.ok [FV.nan, FV.fin 0, FV.nan] ∧
    insideIdx [0] [3] ∧
    [FV.nan, FV.fin 0, FV.nan].getD (linearIndex [3] [0]) FV.top = FV.nan ∧
    (∀ x : ℝ, FV.nan ≠ FV.fin x) ∧ FV.nan ≠ FV.top :=
  by
  refine ⟨nanRun_eval, by decide, rfl, ?_, ?_⟩
  · intro x h
    cases h
  · intro h
    cases h

/-- C9 (code bug): in the same run, the relaxation of cell [0] during
initializeNarrowBand has a frozen inside axis-neighbor (the seed [1]), yet
EikonalSolver::solve returns NaN there: with dx = 1e6 the coefficient
a = 1e-12 and b = 0 both fall below eps, so the both-near-zero NaN branch is
reached from a legitimate call site and the asserts !isnan(r) and r >= 0 are
violated. -/
theorem solve_assert_violated :
    insideIdx (idxAdd [0] [1]) [3] ∧
    cellRead CellState.Far [3] [CellState.Far, CellState.Frozen, CellState.Far]
      (idxAdd [0] [1]) = CellState.Frozen ∧
    eikonalSolve [1000000] 1 [3] [FV.top, FV.fin 0, FV.top]
      [CellState.Far, CellState.Frozen, CellState.Far] [0]
      (neighborhoodOffsets (List.length [3])) = FV.nan ∧
    (∀ x : ℝ, FV.nan ≠ FV.fin x) ∧
    unsignedDistance [3] [1000000] 1 [[1]] [some 0] [[1]] =
      Except.ok [FV.nan, FV.fin 0, FV.nan] :=
  by
  refine ⟨by decide, rfl, ?_, ?_, nanRun_eval⟩
  · rw [show neighborhoodOffsets (List.length [3]) = [[1], [-1]] from rfl]
    exact nanRun_solve0
  · intro x h
    cases h

theorem negRun_min1a : minFrozenNeighborDistance [4] [FV.fin (-3), FV.top, FV.fin (-3), FV.top]
    [CellState.Frozen, CellState.Far, CellState.Frozen, CellState.Far] [1] [[1], [-1]] 0 =
    FV.fin (-3) := by
  simp only [minFrozenNeighborDistance,
    show List.range 2 = [0, 1] from rfl, List.foldl_cons, List.foldl_nil,
    show ([[(1:ℤ)], [-1]]).getD (2*0+0) [] = [1] from rfl,
    show ([[(1:ℤ)], [-1]]).getD (2*0+1) [] = [-1] from rfl,
    show idxAdd [(1:ℤ)] [1] = [2] from rfl,
    show idxAdd [(1:ℤ)] [-1] = [0] from rfl,
    (by decide : insideIdx [2] [4] ∧ cellRead CellState.Far [4]
      [CellState.Frozen, CellState.Far, CellState.Frozen, CellState.Far] [2] =
      CellState.Frozen),
    (by decide : insideIdx [0] [4] ∧ cellRead CellState.Far [4]
      [CellState.Frozen, CellState.Far, CellState.Frozen, CellState.Far] [0] =
      CellState.Frozen),
    ite_true, if_true,
    show cellRead FV.top [4] [FV.fin (-3), FV.top, FV.fin (-3), FV.top] [2] =
      FV.fin (-3) from rfl,
    show cellRead FV.top [4] [FV.fin (-3), FV.top, FV.fin (-3), FV.top] [0] =
      FV.fin (-3) from rfl,
    FV.minStd_top_fin, FV.minStd_fin_fin]
  norm_num [FV.minStd_fin_fin]

theorem negRun_solve1a : eikonalSolve [1] 1 [4] [FV.fin (-3), FV.top, FV.fin (-3), FV.top]
    [CellState.Frozen, CellState.Far, CellState.Frozen, CellState.Far] [1] [[1], [-1]] =
    FV.fin (-2) := by
  have hc : solveCoeffs [1] 1 [4] [FV.fin (-3), FV.top, FV.fin (-3), FV.top]
      [CellState.Frozen, CellState.Far, CellState.Frozen, CellState.Far] [1] [[1], [-1]] =
      ((8 : ℝ), 6, 1) := by
    simp only [solveCoeffs, show List.range (List.length [4]) = [0] from rfl,
      List.foldl_cons, List.foldl_nil, negRun_min1a, FV.lt_fin_top, ite_true, if_true]
    norm_num [inverseSquaredList, inverseSquared, squared, FV.toReal]
  show (solveQuadratic_ (solveCoeffs [1] 1 [4] [FV.fin (-3), FV.top, FV.fin (-3), FV.top]
      [CellState.Frozen, CellState.Far, CellState.Frozen, CellState.Far] [1] [[1], [-1]])).1 =
    FV.fin (-2)
  rw [hc, solveQuadratic_main_pos 8 6 1 (by norm_num) (by norm_num) (by norm_num)
    (by norm_num)]
  norm_num [show (6:ℝ)*6 - 4*1*8 = 4 by norm_num, sqrt_four, max_def]



theorem negRun_min1b : minFrozenNeighborDistance [4]
    [FV.fin (-3), FV.fin (-2), FV.fin (-3), FV.top]
    [CellState.Frozen, CellState.NarrowBand, CellState.Frozen, CellState.Far]
    [1] [[1], [-1]] 0 = FV.fin (-3) := by
  simp only [minFrozenNeighborDistance,
    show List.range 2 = [0, 1] from rfl, List.foldl_cons, List.foldl_nil,
    show ([[(1:ℤ)], [-1]]).getD (2*0+0) [] = [1] from rfl,
    show ([[(1:ℤ)], [-1]]).getD (2*0+1) [] = [-1] from rfl,
    show idxAdd [(1:ℤ)] [1] = [2] from rfl,
    show idxAdd [(1:ℤ)] [-1] = [0] from rfl,
    (by decide : insideIdx [2] [4] ∧ cellRead CellState.Far [4]
      [CellState.Frozen, CellState.NarrowBand, CellState.Frozen, CellState.Far] [2] =
      CellState.Frozen),
    (by decide : insideIdx [0] [4] ∧ cellRead CellState.Far [4]
      [CellState.Frozen, CellState.NarrowBand, CellState.Frozen, CellState.Far] [0] =
      CellState.Frozen),
    ite_true, if_true,
    show cellRead FV.top [4] [FV.fin (-3), FV.fin (-2), FV.fin (-3), FV.top] [2] =
      FV.fin (-3) from rfl,
    show cellRead FV.top [4] [FV.fin (-3), FV.fin (-2), FV.fin (-3), FV.top] [0] =
      FV.fin (-3) from rfl,
    FV.minStd_top_fin, FV.minStd_fin_fin]
  norm_num [FV.minStd_fin_fin]

theorem negRun_solve1b : eikonalSolve [1] 1 [4]
    [FV.fin (-3), FV.fin (-2), FV.fin (-3), FV.top]
    [CellState.Frozen, CellState.NarrowBand, CellState.Frozen, CellState.Far]
    [1] [[1], [-1]] = FV.fin (-2) := by
  have hc : solveCoeffs [1] 1 [4] [FV.fin (-3), FV.fin (-2), FV.fin (-3), FV.top]
      [CellState.Frozen, CellState.NarrowBand, CellState.Frozen, CellState.Far]
      [1] [[1], [-1]] = ((8 : ℝ), 6, 1) := by
    simp only [solveCoeffs, show List.range (List.length [4]) = [0] from rfl,
      List.foldl_cons, List.foldl_nil, negRun_min1b, FV.lt_fin_top, ite_true, if_true]
    norm_num [inverseSquaredList, inverseSquared, squared, FV.toReal]
  show (solveQuadratic_ (solveCoeffs [1] 1 [4]
      [FV.fin (-3), FV.fin (-2), FV.fin (-3), FV.top]
      [CellState.Frozen, CellState.NarrowBand, CellState.Frozen, CellState.Far]
      [1] [[1], [-1]])).1 = FV.fin (-2)
  rw [hc, solveQuadratic_main_pos 8 6 1 (by norm_num) (by norm_num) (by norm_num)
    (by norm_num)]
  norm_num [show (6:ℝ)*6 - 4*1*8 = 4 by norm_num, sqrt_four, max_def]

theorem negRun_solve3 : eikonalSolve [1] 1 [4]
    [FV.fin 3, FV.fin (-2), FV.fin 3, FV.top]
    [CellState.Frozen, CellState.Frozen, CellState.Frozen, CellState.Far]
    [3] [[1], [-1]] = FV.fin 4 := by
  have hc : solveCoeffs [1] 1 [4] [FV.fin 3, FV.fin (-2), FV.fin 3, FV.top]
      [CellState.Frozen, CellState.Frozen, CellState.Frozen, CellState.Far]
      [3] [[1], [-1]] = ((8 : ℝ), -6, 1) := by
    norm_num [show solveCoeffs [1] 1 [4] [FV.fin 3, FV.fin (-2), FV.fin 3, FV.top]
      [CellState.Frozen, CellState.Frozen, CellState.Frozen, CellState.Far]
      [3] [[1], [-1]] =
      (-(1/(1*1)) + squared ((FV.fin (3:ℝ)).toReal) * (1/(1*1)),
       0 + (-2) * ((FV.fin (3:ℝ)).toReal) * (1/(1*1)),
       0 + (1/(1*1))) from rfl, squared, FV.toReal]
  show (solveQuadratic_ (solveCoeffs [1] 1 [4] [FV.fin 3, FV.fin (-2), FV.fin 3, FV.top]
      [CellState.Frozen, CellState.Frozen, CellState.Frozen, CellState.Far]
      [3] [[1], [-1]])).1 = FV.fin 4
  rw [hc, solveQuadratic_main_neg 8 (-6) 1 (by norm_num) (by norm_num) (by norm_num)
    (by norm_num)]
  norm_num [show (-6:ℝ)*(-6) - 4*1*8 = 4 by norm_num, sqrt_four, max_def]



theorem negRun_initInside : initNarrowBand [1] 1 [4] [[1], [-1]] [[0], [2]] [[-1], [1]]
    insidePred [FV.fin (-3), FV.top, FV.fin (-3), FV.top]
    [CellState.Frozen, CellState.Far, CellState.Frozen, CellState.Far] =
    Except.ok ⟨[FV.fin (-3), FV.fin (-2), FV.fin (-3), FV.top],
      [CellState.Frozen, CellState.NarrowBand, CellState.Frozen, CellState.Far],
      ⟨[(FV.fin (-2), [1])], [([1], 0)]⟩⟩ := by
  have hp1 : insidePred [-1] [1] := by norm_num [insidePred]
  have hp2 : ¬ insidePred [-1] [-1] := by norm_num [insidePred]
  have hp3 : ¬ insidePred [1] [1] := by norm_num [insidePred]
  have hp4 : insidePred [1] [-1] := by norm_num [insidePred]
  have hnd : ¬ FV.lt (FV.fin (-2)) (FV.fin (-2)) := by norm_num [FV.lt]
  simp only [initNarrowBand, updateNeighbors, visitNeighbor,
    show List.zip [[(0:ℤ)], [2]] [[(-1:ℝ)], [1]] = [([0], [-1]), ([2], [1])] from rfl,
    List.foldl_cons, List.foldl_nil, bind_ok, pure_eq_ok,
    show idxAdd [(0:ℤ)] [1] = [1] from rfl,
    show idxAdd [(0:ℤ)] [-1] = [-1] from rfl,
    show idxAdd [(2:ℤ)] [1] = [3] from rfl,
    show idxAdd [(2:ℤ)] [-1] = [1] from rfl,
    hp1, hp2, hp3, hp4, hnd, ite_true, ite_false, if_true, if_false,
    (by decide : insideIdx [1] [4]),
    (by decide : ¬ insideIdx [-1] [4]),
    show cellRead CellState.Far [4]
      [CellState.Frozen, CellState.Far, CellState.Frozen, CellState.Far] [1] =
      CellState.Far from rfl,
    negRun_solve1a,
    show NarrowBandStore.insert FV.lt ⟨[], []⟩ (FV.fin (-2), [1]) =
      HRes.ok () ⟨[(FV.fin (-2), [1])], [([1], 0)]⟩ from rfl,
    show cellWrite [4] [FV.fin (-3), FV.top, FV.fin (-3), FV.top] [1] (FV.fin (-2)) =
      [FV.fin (-3), FV.fin (-2), FV.fin (-3), FV.top] from rfl,
    show cellWrite [4]
      [CellState.Frozen, CellState.Far, CellState.Frozen, CellState.Far] [1]
      CellState.NarrowBand =
      [CellState.Frozen, CellState.NarrowBand, CellState.Frozen, CellState.Far] from rfl,
    show cellRead CellState.Far [4]
      [CellState.Frozen, CellState.NarrowBand, CellState.Frozen, CellState.Far] [1] =
      CellState.NarrowBand from rfl,
    negRun_solve1b,
    show cellRead FV.top [4] [FV.fin (-3), FV.fin (-2), FV.fin (-3), FV.top] [1] =
      FV.fin (-2) from rfl]
  rfl

theorem negRun_initOutside : initNarrowBand [1] 1 [4] [[1], [-1]] [[0], [2]] [[-1], [1]]
    outsidePred [FV.fin 3, FV.fin (-2), FV.fin 3, FV.top]
    [CellState.Frozen, CellState.Frozen, CellState.Frozen, CellState.Far] =
    Except.ok ⟨[FV.fin 3, FV.fin (-2), FV.fin 3, FV.fin 4],
      [CellState.Frozen, CellState.Frozen, CellState.Frozen, CellState.NarrowBand],
      ⟨[(FV.fin 4, [3])], [([3], 0)]⟩⟩ := by
  have hp1 : ¬ outsidePred [-1] [1] := by norm_num [outsidePred]
  have hp2 : outsidePred [-1] [-1] := by norm_num [outsidePred]
  have hp3 : outsidePred [1] [1] := by norm_num [outsidePred]
  have hp4 : ¬ outsidePred [1] [-1] := by norm_num [outsidePred]
  simp only [initNarrowBand, updateNeighbors, visitNeighbor,
    show List.zip [[(0:ℤ)], [2]] [[(-1:ℝ)], [1]] = [([0], [-1]), ([2], [1])] from rfl,
    List.foldl_cons, List.foldl_nil, bind_ok, pure_eq_ok,
    show idxAdd [(0:ℤ)] [1] = [1] from rfl,
    show idxAdd [(0:ℤ)] [-1] = [-1] from rfl,
    show idxAdd [(2:ℤ)] [1] = [3] from rfl,
    show idxAdd [(2:ℤ)] [-1] = [1] from rfl,
    hp1, hp2, hp3, hp4, ite_true, ite_false, if_true, if_false,
    (by decide : insideIdx [3] [4]),
    (by decide : ¬ insideIdx [-1] [4]),
    show cellRead CellState.Far [4]
      [CellState.Frozen, CellState.Frozen, CellState.Frozen, CellState.Far] [3] =
      CellState.Far from rfl,
    negRun_solve3,
    show NarrowBandStore.insert FV.lt ⟨[], []⟩ (FV.fin 4, [3]) =
      HRes.ok () ⟨[(FV.fin 4, [3])], [([3], 0)]⟩ from rfl,
    show cellWrite [4] [FV.fin 3, FV.fin (-2), FV.fin 3, FV.top] [3] (FV.fin 4) =
      [FV.fin 3, FV.fin (-2), FV.fin 3, FV.fin 4] from rfl,
    show cellWrite [4]
      [CellState.Frozen, CellState.Frozen, CellState.Frozen, CellState.Far] [3]
      CellState.NarrowBand =
      [CellState.Frozen, CellState.Frozen, CellState.Frozen, CellState.NarrowBand]
      from rfl]
  rfl



theorem negRun_eval : unsignedDistance [4] [1] 1 [[0], [2]] [some 3, some 3]
    [[-1], [1]] = Except.ok [FV.fin 3, FV.fin (-2), FV.fin 3, FV.fin 4] := by
  have hval : validateCommon [4] [1] 1 [[0], [2]] [some 3, some 3] [[-1], [1]] = none := by
    have hnn : ¬ ∃ d ∈ [some (3:ℝ), some 3], d = none := by simp
    norm_num [validateCommon, throwIfInvalidSize, throwIfInvalidSpacing,
      throwIfInvalidSpeed, throwIfSizeNotEqual, throwIfInvalidIndex,
      throwIfInvalidDistance, Option.orElse, hnn,
      (by decide : insideIdx [0] [4]), (by decide : insideIdx [2] [4])]
    exact fun h => nomatch h
  have h2 : initFrozenCells [4] [[0], [2]] [3, 3] (-1) [FV.top, FV.top, FV.top, FV.top]
      [CellState.Far, CellState.Far, CellState.Far, CellState.Far] =
      ([FV.fin (-3), FV.top, FV.fin (-3), FV.top],
       [CellState.Frozen, CellState.Far, CellState.Frozen, CellState.Far]) := by
    norm_num [show initFrozenCells [4] [[0], [2]] [3, 3] (-1)
      [FV.top, FV.top, FV.top, FV.top]
      [CellState.Far, CellState.Far, CellState.Far, CellState.Far] =
      ([FV.fin (-1 * 3), FV.top, FV.fin (-1 * 3), FV.top],
       [CellState.Frozen, CellState.Far, CellState.Frozen, CellState.Far]) from rfl]
  have h4 : marchNarrowBand [1] 1 [4] [[1], [-1]]
      ⟨[FV.fin (-3), FV.fin (-2), FV.fin (-3), FV.top],
        [CellState.Frozen, CellState.NarrowBand, CellState.Frozen, CellState.Far],
        ⟨[(FV.fin (-2), [1])], [([1], 0)]⟩⟩ =
      Except.ok ([(FV.fin (-2), [1])],
        ⟨[FV.fin (-3), FV.fin (-2), FV.fin (-3), FV.top],
          [CellState.Frozen, CellState.Frozen, CellState.Frozen, CellState.Far],
          ⟨[], []⟩⟩) := rfl
  have h5 : initFrozenCells [4] [[0], [2]] [3, 3] 1
      [FV.fin (-3), FV.fin (-2), FV.fin (-3), FV.top]
      [CellState.Frozen, CellState.Frozen, CellState.Frozen, CellState.Far] =
      ([FV.fin 3, FV.fin (-2), FV.fin 3, FV.top],
       [CellState.Frozen, CellState.Frozen, CellState.Frozen, CellState.Far]) := by
    norm_num [show initFrozenCells [4] [[0], [2]] [3, 3] 1
      [FV.fin (-3), FV.fin (-2), FV.fin (-3), FV.top]
      [CellState.Frozen, CellState.Frozen, CellState.Frozen, CellState.Far] =
      ([FV.fin (1 * 3), FV.fin (-2), FV.fin (1 * 3), FV.top],
       [CellState.Frozen, CellState.Frozen, CellState.Frozen, CellState.Far]) from rfl]
  have h7 : marchNarrowBand [1] 1 [4] [[1], [-1]]
      ⟨[FV.fin 3, FV.fin (-2), FV.fin 3, FV.fin 4],
        [CellState.Frozen, CellState.Frozen, CellState.Frozen, CellState.NarrowBand],
        ⟨[(FV.fin 4, [3])], [([3], 0)]⟩⟩ =
      Except.ok ([(FV.fin 4, [3])],
        ⟨[FV.fin 3, FV.fin (-2), FV.fin 3, FV.fin 4],
          [CellState.Frozen, CellState.Frozen, CellState.Frozen, CellState.Frozen],
          ⟨[], []⟩⟩) := rfl
  unfold unsignedDistance
  rw [hval]
  simp only [bind_ok, pure_eq_ok,
    show List.map (fun d => Option.getD d 0) [some (3:ℝ), some 3] = [3, 3] from rfl,
    show neighborhoodOffsets (List.length [4]) = [[1], [-1]] from rfl,
    show List.replicate (linearSize [4]) FV.top = [FV.top, FV.top, FV.top, FV.top]
      from rfl,
    show List.replicate (linearSize [4]) CellState.Far =
      [CellState.Far, CellState.Far, CellState.Far, CellState.Far] from rfl,
    h2, negRun_initInside, h4, h5, negRun_initOutside, h7]
  rw [show List.foldl (fun buf p => cellWrite [4] buf p.1 (FV.fin |p.2|))
        [FV.fin 3, FV.fin (-2), FV.fin 3, FV.fin 4] ([[(0:ℤ)], [2]].zip [(3:ℝ), 3]) =
      cellWrite [4] (cellWrite [4] [FV.fin 3, FV.fin (-2), FV.fin 3, FV.fin 4] [0]
        (FV.fin |(3:ℝ)|)) [2] (FV.fin |(3:ℝ)|) from rfl,
    show |(3:ℝ)| = 3 from abs_of_pos (by norm_num)]
  rfl



theorem negRun_solve3s : eikonalSolve [1] 1 [4]
    [FV.fin 3, FV.top, FV.fin 3, FV.top]
    [CellState.Frozen, CellState.Frozen, CellState.Frozen, CellState.Far]
    [3] [[1], [-1]] = FV.fin 4 := by
  have hc : solveCoeffs [1] 1 [4] [FV.fin 3, FV.top, FV.fin 3, FV.top]
      [CellState.Frozen, CellState.Frozen, CellState.Frozen, CellState.Far]
      [3] [[1], [-1]] = ((8 : ℝ), -6, 1) := by
    norm_num [show solveCoeffs [1] 1 [4] [FV.fin 3, FV.top, FV.fin 3, FV.top]
      [CellState.Frozen, CellState.Frozen, CellState.Frozen, CellState.Far]
      [3] [[1], [-1]] =
      (-(1/(1*1)) + squared ((FV.fin (3:ℝ)).toReal) * (1/(1*1)),
       0 + (-2) * ((FV.fin (3:ℝ)).toReal) * (1/(1*1)),
       0 + (1/(1*1))) from rfl, squared, FV.toReal]
  show (solveQuadratic_ (solveCoeffs [1] 1 [4] [FV.fin 3, FV.top, FV.fin 3, FV.top]
      [CellState.Frozen, CellState.Frozen, CellState.Frozen, CellState.Far]
      [3] [[1], [-1]])).1 = FV.fin 4
  rw [hc, solveQuadratic_main_neg 8 (-6) 1 (by norm_num) (by norm_num) (by norm_num)
    (by norm_num)]
  norm_num [show (-6:ℝ)*(-6) - 4*1*8 = 4 by norm_num, sqrt_four, max_def]

theorem negRun_initOutsideS : initNarrowBand [1] 1 [4] [[1], [-1]] [[0], [2]]
    [[-1], [1]] outsidePred [FV.fin 3, FV.top, FV.fin 3, FV.top]
    [CellState.Frozen, CellState.Frozen, CellState.Frozen, CellState.Far] =
    Except.ok ⟨[FV.fin 3, FV.top, FV.fin 3, FV.fin 4],
      [CellState.Frozen, CellState.Frozen, CellState.Frozen, CellState.NarrowBand],
      ⟨[(FV.fin 4, [3])], [([3], 0)]⟩⟩ := by
  have hp1 : ¬ outsidePred [-1] [1] := by norm_num [outsidePred]
  have hp2 : outsidePred [-1] [-1] := by norm_num [outsidePred]
  have hp3 : outsidePred [1] [1] := by norm_num [outsidePred]
  have hp4 : ¬ outsidePred [1] [-1] := by norm_num [outsidePred]
  simp only [initNarrowBand, updateNeighbors, visitNeighbor,
    show List.zip [[(0:ℤ)], [2]] [[(-1:ℝ)], [1]] = [([0], [-1]), ([2], [1])] from rfl,
    List.foldl_cons, List.foldl_nil, bind_ok, pure_eq_ok,
    show idxAdd [(0:ℤ)] [1] = [1] from rfl,
    show idxAdd [(0:ℤ)] [-1] = [-1] from rfl,
    show idxAdd [(2:ℤ)] [1] = [3] from rfl,
    show idxAdd [(2:ℤ)] [-1] = [1] from rfl,
    hp1, hp2, hp3, hp4, ite_true, ite_false, if_true, if_false,
    (by decide : insideIdx [3] [4]),
    (by decide : ¬ insideIdx [-1] [4]),
    show cellRead CellState.Far [4]
      [CellState.Frozen, CellState.Frozen, CellState.Frozen, CellState.Far] [3] =
      CellState.Far from rfl,
    negRun_solve3s,
    show NarrowBandStore.insert FV.lt ⟨[], []⟩ (FV.fin 4, [3]) =
      HRes.ok () ⟨[(FV.fin 4, [3])], [([3], 0)]⟩ from rfl,
    show cellWrite [4] [FV.fin 3, FV.top, FV.fin 3, FV.top] [3] (FV.fin 4) =
      [FV.fin 3, FV.top, FV.fin 3, FV.fin 4] from rfl,
    show cellWrite [4]
      [CellState.Frozen, CellState.Frozen, CellState.Frozen, CellState.Far] [3]
      CellState.NarrowBand =
      [CellState.Frozen, CellState.Frozen, CellState.Frozen, CellState.NarrowBand]
      from rfl]
  rfl

theorem negRunS_eval : signedDistance [4] [1] 1 [[0], [2]] [some 3, some 3]
    [[-1], [1]] = Except.ok [FV.fin 3, FV.fin 2, FV.fin 3, FV.fin 4] := by
  have hval : validateCommon [4] [1] 1 [[0], [2]] [some 3, some 3] [[-1], [1]] = none := by
    have hnn : ¬ ∃ d ∈ [some (3:ℝ), some 3], d = none := by simp
    norm_num [validateCommon, throwIfInvalidSize, throwIfInvalidSpacing,
      throwIfInvalidSpeed, throwIfSizeNotEqual, throwIfInvalidIndex,
      throwIfInvalidDistance, Option.orElse, hnn,
      (by decide : insideIdx [0] [4]), (by decide : insideIdx [2] [4])]
    exact fun h => nomatch h
  have hnorm : throwIfInvalidNormal [[-1], [1]] = none := by
    norm_num [throwIfInvalidNormal, squaredMagnitude]
  have h2 : initFrozenCells [4] [[0], [2]] [3, 3] (-1) [FV.top, FV.top, FV.top, FV.top]
      [CellState.Far, CellState.Far, CellState.Far, CellState.Far] =
      ([FV.fin (-3), FV.top, FV.fin (-3), FV.top],
       [CellState.Frozen, CellState.Far, CellState.Frozen, CellState.Far]) := by
    norm_num [show initFrozenCells [4] [[0], [2]] [3, 3] (-1)
      [FV.top, FV.top, FV.top, FV.top]
      [CellState.Far, CellState.Far, CellState.Far, CellState.Far] =
      ([FV.fin (-1 * 3), FV.top, FV.fin (-1 * 3), FV.top],
       [CellState.Frozen, CellState.Far, CellState.Frozen, CellState.Far]) from rfl]
  have h4 : marchNarrowBand [1] 1 [4] [[1], [-1]]
      ⟨[FV.fin (-3), FV.fin (-2), FV.fin (-3), FV.top],
        [CellState.Frozen, CellState.NarrowBand, CellState.Frozen, CellState.Far],
        ⟨[(FV.fin (-2), [1])], [([1], 0)]⟩⟩ =
      Except.ok ([(FV.fin (-2), [1])],
        ⟨[FV.fin (-3), FV.fin (-2), FV.fin (-3), FV.top],
          [CellState.Frozen, CellState.Frozen, CellState.Frozen, CellState.Far],
          ⟨[], []⟩⟩) := rfl
  have h5 : initFrozenCells [4] [[0], [2]] [3, 3] 1 [FV.top, FV.top, FV.top, FV.top]
      [CellState.Frozen, CellState.Frozen, CellState.Frozen, CellState.Far] =
      ([FV.fin 3, FV.top, FV.fin 3, FV.top],
       [CellState.Frozen, CellState.Frozen, CellState.Frozen, CellState.Far]) := by
    norm_num [show initFrozenCells [4] [[0], [2]] [3, 3] 1
      [FV.top, FV.top, FV.top, FV.top]
      [CellState.Frozen, CellState.Frozen, CellState.Frozen, CellState.Far] =
      ([FV.fin (1 * 3), FV.top, FV.fin (1 * 3), FV.top],
       [CellState.Frozen, CellState.Frozen, CellState.Frozen, CellState.Far]) from rfl]
  have h7 : marchNarrowBand [1] 1 [4] [[1], [-1]]
      ⟨[FV.fin 3, FV.top, FV.fin 3, FV.fin 4],
        [CellState.Frozen, CellState.Frozen, CellState.Frozen, CellState.NarrowBand],
        ⟨[(FV.fin 4, [3])], [([3], 0)]⟩⟩ =
      Except.ok ([(FV.fin 4, [3])],
        ⟨[FV.fin 3, FV.top, FV.fin 3, FV.fin 4],
          [CellState.Frozen, CellState.Frozen, CellState.Frozen, CellState.Frozen],
          ⟨[], []⟩⟩) := rfl
  have hmerge0 : (List.range (linearSize [4])).foldl
      (fun buf i =>
        if FV.lt ([FV.fin (-3), FV.fin (-2), FV.fin (-3), FV.top].getD i FV.top) FV.top
        then buf.set i
          (FV.scale (-1) ([FV.fin (-3), FV.fin (-2), FV.fin (-3), FV.top].getD i FV.top))
        else buf)
      [FV.top, FV.top, FV.top, FV.top] =
      [FV.fin 3, FV.fin 2, FV.fin 3, FV.top] := by
    rw [show (List.range (linearSize [4])).foldl
      (fun buf i =>
        if FV.lt ([FV.fin (-3), FV.fin (-2), FV.fin (-3), FV.top].getD i FV.top) FV.top
        then buf.set i
          (FV.scale (-1) ([FV.fin (-3), FV.fin (-2), FV.fin (-3), FV.top].getD i FV.top))
        else buf)
      [FV.top, FV.top, FV.top, FV.top] =
      [FV.fin (-1 * -3), FV.fin (-1 * -2), FV.fin (-1 * -3), FV.top] from rfl]
    norm_num
  unfold signedDistance
  rw [hval]
  simp only [bind_ok, pure_eq_ok, hnorm,
    show List.map (fun d => Option.getD d 0) [some (3:ℝ), some 3] = [3, 3] from rfl,
    show neighborhoodOffsets (List.length [4]) = [[1], [-1]] from rfl,
    show List.replicate (linearSize [4]) FV.top = [FV.top, FV.top, FV.top, FV.top]
      from rfl,
    show List.replicate (linearSize [4]) CellState.Far =
      [CellState.Far, CellState.Far, CellState.Far, CellState.Far] from rfl,
    h2, negRun_initInside, h4, h5, negRun_initOutsideS, h7, hmerge0]
  rfl



theorem cexRun_solve2 : eikonalSolve [1] 1 [4] [FV.fin 0, FV.top, FV.top, FV.fin 5]
    [CellState.Frozen, CellState.Far, CellState.Far, CellState.Frozen]
    [2] [[1], [-1]] = FV.fin 6 := by
  have hc : solveCoeffs [1] 1 [4] [FV.fin 0, FV.top, FV.top, FV.fin 5]
      [CellState.Frozen, CellState.Far, CellState.Far, CellState.Frozen]
      [2] [[1], [-1]] = ((24 : ℝ), -10, 1) := by
    norm_num [show solveCoeffs [1] 1 [4] [FV.fin 0, FV.top, FV.top, FV.fin 5]
      [CellState.Frozen, CellState.Far, CellState.Far, CellState.Frozen]
      [2] [[1], [-1]] =
      (-(1/(1*1)) + squared ((FV.fin (5:ℝ)).toReal) * (1/(1*1)),
       0 + (-2) * ((FV.fin (5:ℝ)).toReal) * (1/(1*1)),
       0 + (1/(1*1))) from rfl, squared, FV.toReal]
  show (solveQuadratic_ (solveCoeffs [1] 1 [4] [FV.fin 0, FV.top, FV.top, FV.fin 5]
      [CellState.Frozen, CellState.Far, CellState.Far, CellState.Frozen]
      [2] [[1], [-1]])).1 = FV.fin 6
  rw [hc, solveQuadratic_main_neg 24 (-10) 1 (by norm_num) (by norm_num) (by norm_num)
    (by norm_num)]
  norm_num [show (-10:ℝ)*(-10) - 4*1*24 = 4 by norm_num, sqrt_four, max_def]

theorem cexRun_min1 : minFrozenNeighborDistance [4] [FV.fin 0, FV.top, FV.fin 6, FV.fin 5]
    [CellState.Frozen, CellState.Far, CellState.Frozen, CellState.Frozen]
    [1] [[1], [-1]] 0 = FV.fin 0 := by
  simp only [minFrozenNeighborDistance,
    show List.range 2 = [0, 1] from rfl, List.foldl_cons, List.foldl_nil,
    show ([[(1:ℤ)], [-1]]).getD (2*0+0) [] = [1] from rfl,
    show ([[(1:ℤ)], [-1]]).getD (2*0+1) [] = [-1] from rfl,
    show idxAdd [(1:ℤ)] [1] = [2] from rfl,
    show idxAdd [(1:ℤ)] [-1] = [0] from rfl,
    (by decide : insideIdx [2] [4] ∧ cellRead CellState.Far [4]
      [CellState.Frozen, CellState.Far, CellState.Frozen, CellState.Frozen] [2] =
      CellState.Frozen),
    (by decide : insideIdx [0] [4] ∧ cellRead CellState.Far [4]
      [CellState.Frozen, CellState.Far, CellState.Frozen, CellState.Frozen] [0] =
      CellState.Frozen),
    ite_true, if_true,
    show cellRead FV.top [4] [FV.fin 0, FV.top, FV.fin 6, FV.fin 5] [2] =
      FV.fin 6 from rfl,
    show cellRead FV.top [4] [FV.fin 0, FV.top, FV.fin 6, FV.fin 5] [0] =
      FV.fin 0 from rfl,
    FV.minStd_top_fin]
  norm_num [FV.minStd_fin_fin]

theorem cexRun_solve1 : eikonalSolve [1] 1 [4] [FV.fin 0, FV.top, FV.fin 6, FV.fin 5]
    [CellState.Frozen, CellState.Far, CellState.Frozen, CellState.Frozen]
    [1] [[1], [-1]] = FV.fin 1 := by
  have hc : solveCoeffs [1] 1 [4] [FV.fin 0, FV.top, FV.fin 6, FV.fin 5]
      [CellState.Frozen, CellState.Far, CellState.Frozen, CellState.Frozen]
      [1] [[1], [-1]] = ((-1 : ℝ), 0, 1) := by
    simp only [solveCoeffs, show List.range (List.length [4]) = [0] from rfl,
      List.foldl_cons, List.foldl_nil, cexRun_min1, FV.lt_fin_top, ite_true, if_true]
    norm_num [inverseSquaredList, inverseSquared, squared, FV.toReal]
  show (solveQuadratic_ (solveCoeffs [1] 1 [4] [FV.fin 0, FV.top, FV.fin 6, FV.fin 5]
      [CellState.Frozen, CellState.Far, CellState.Frozen, CellState.Frozen]
      [1] [[1], [-1]])).1 = FV.fin 1
  rw [hc, solveQuadratic_sqrt_branch (-1) 0 1 (by norm_num) (by norm_num) (by norm_num)]
  norm_num



theorem cexRun_init : initNarrowBand [1] 1 [4] [[1], [-1]] [[0], [3]] [[-1], [-1]]
    outsidePred [FV.fin 0, FV.top, FV.top, FV.fin 5]
    [CellState.Frozen, CellState.Far, CellState.Far, CellState.Frozen] =
    Except.ok ⟨[FV.fin 0, FV.top, FV.fin 6, FV.fin 5],
      [CellState.Frozen, CellState.Far, CellState.NarrowBand, CellState.Frozen],
      ⟨[(FV.fin 6, [2])], [([2], 0)]⟩⟩ := by
  have hp1 : ¬ outsidePred [-1] [1] := by norm_num [outsidePred]
  have hp2 : outsidePred [-1] [-1] := by norm_num [outsidePred]
  simp only [initNarrowBand, updateNeighbors, visitNeighbor,
    show List.zip [[(0:ℤ)], [3]] [[(-1:ℝ)], [-1]] = [([0], [-1]), ([3], [-1])] from rfl,
    List.foldl_cons, List.foldl_nil, bind_ok, pure_eq_ok,
    show idxAdd [(0:ℤ)] [1] = [1] from rfl,
    show idxAdd [(0:ℤ)] [-1] = [-1] from rfl,
    show idxAdd [(3:ℤ)] [1] = [4] from rfl,
    show idxAdd [(3:ℤ)] [-1] = [2] from rfl,
    hp1, hp2, ite_true, ite_false, if_true, if_false,
    (by decide : insideIdx [2] [4]),
    (by decide : ¬ insideIdx [-1] [4]),
    (by decide : ¬ insideIdx [4] [4]),
    show cellRead CellState.Far [4]
      [CellState.Frozen, CellState.Far, CellState.Far, CellState.Frozen] [2] =
      CellState.Far from rfl,
    cexRun_solve2,
    show NarrowBandStore.insert FV.lt ⟨[], []⟩ (FV.fin 6, [2]) =
      HRes.ok () ⟨[(FV.fin 6, [2])], [([2], 0)]⟩ from rfl,
    show cellWrite [4] [FV.fin 0, FV.top, FV.top, FV.fin 5] [2] (FV.fin 6) =
      [FV.fin 0, FV.top, FV.fin 6, FV.fin 5] from rfl,
    show cellWrite [4]
      [CellState.Frozen, CellState.Far, CellState.Far, CellState.Frozen] [2]
      CellState.NarrowBand =
      [CellState.Frozen, CellState.Far, CellState.NarrowBand, CellState.Frozen]
      from rfl]
  rfl

theorem cexRun_step1 : marchStep [1] 1 [4] [[1], [-1]]
    ⟨[FV.fin 0, FV.top, FV.fin 6, FV.fin 5],
      [CellState.Frozen, CellState.Far, CellState.NarrowBand, CellState.Frozen],
      ⟨[(FV.fin 6, [2])], [([2], 0)]⟩⟩ =
    Except.ok (some ((FV.fin 6, [2]),
      ⟨[FV.fin 0, FV.fin 1, FV.fin 6, FV.fin 5],
        [CellState.Frozen, CellState.NarrowBand, CellState.Frozen, CellState.Frozen],
        ⟨[(FV.fin 1, [1])], [([1], 0)]⟩⟩)) := by
  simp only [marchStep, updateNeighbors, visitNeighbor,
    show (⟨[(FV.fin 6, [2])], [([2], 0)]⟩ :
      NarrowBandStore FV).values.isEmpty = false from rfl,
    Bool.false_eq_true, if_false, ite_false,
    show NarrowBandStore.pop FV.lt ⟨[(FV.fin 6, [2])], [([2], 0)]⟩ =
      HRes.ok (FV.fin 6, [2]) ⟨[], []⟩ from rfl,
    show cellWrite [4] [FV.fin 0, FV.top, FV.fin 6, FV.fin 5] [2] (FV.fin 6) =
      [FV.fin 0, FV.top, FV.fin 6, FV.fin 5] from rfl,
    show cellWrite [4]
      [CellState.Frozen, CellState.Far, CellState.NarrowBand, CellState.Frozen] [2]
      CellState.Frozen =
      [CellState.Frozen, CellState.Far, CellState.Frozen, CellState.Frozen] from rfl,
    List.foldl_cons, List.foldl_nil, bind_ok, pure_eq_ok,
    show idxAdd [(2:ℤ)] [1] = [3] from rfl,
    show idxAdd [(2:ℤ)] [-1] = [1] from rfl,
    ite_true, if_true,
    (by decide : insideIdx [1] [4]), (by decide : insideIdx [3] [4]),
    show cellRead CellState.Far [4]
      [CellState.Frozen, CellState.Far, CellState.Frozen, CellState.Frozen] [3] =
      CellState.Frozen from rfl,
    show cellRead CellState.Far [4]
      [CellState.Frozen, CellState.Far, CellState.Frozen, CellState.Frozen] [1] =
      CellState.Far from rfl,
    cexRun_solve1,
    show NarrowBandStore.insert FV.lt ⟨[], []⟩ (FV.fin 1, [1]) =
      HRes.ok () ⟨[(FV.fin 1, [1])], [([1], 0)]⟩ from rfl,
    show cellWrite [4] [FV.fin 0, FV.top, FV.fin 6, FV.fin 5] [1] (FV.fin 1) =
      [FV.fin 0, FV.fin 1, FV.fin 6, FV.fin 5] from rfl,
    show cellWrite [4]
      [CellState.Frozen, CellState.Far, CellState.Frozen, CellState.Frozen] [1]
      CellState.NarrowBand =
      [CellState.Frozen, CellState.NarrowBand, CellState.Frozen, CellState.Frozen]
      from rfl]
  rfl

theorem cexRun_march : marchNarrowBand [1] 1 [4] [[1], [-1]]
    ⟨[FV.fin 0, FV.top, FV.fin 6, FV.fin 5],
      [CellState.Frozen, CellState.Far, CellState.NarrowBand, CellState.Frozen],
      ⟨[(FV.fin 6, [2])], [([2], 0)]⟩⟩ =
    Except.ok ([(FV.fin 6, [2]), (FV.fin 1, [1])],
      ⟨[FV.fin 0, FV.fin 1, FV.fin 6, FV.fin 5],
        [CellState.Frozen, CellState.Frozen, CellState.Frozen, CellState.Frozen],
        ⟨[], []⟩⟩) := by
  have hrest : marchGo [1] 1 [4] [[1], [-1]] 4
      ⟨[FV.fin 0, FV.fin 1, FV.fin 6, FV.fin 5],
        [CellState.Frozen, CellState.NarrowBand, CellState.Frozen, CellState.Frozen],
        ⟨[(FV.fin 1, [1])], [([1], 0)]⟩⟩ =
      Except.ok ([(FV.fin 1, [1])],
        ⟨[FV.fin 0, FV.fin 1, FV.fin 6, FV.fin 5],
          [CellState.Frozen, CellState.Frozen, CellState.Frozen, CellState.Frozen],
          ⟨[], []⟩⟩) := rfl
  show marchGo [1] 1 [4] [[1], [-1]] (linearSize [4] + 1)
      ⟨[FV.fin 0, FV.top, FV.fin 6, FV.fin 5],
        [CellState.Frozen, CellState.Far, CellState.NarrowBand, CellState.Frozen],
        ⟨[(FV.fin 6, [2])], [([2], 0)]⟩⟩ = _
  rw [show linearSize [4] + 1 = 4 + 1 from rfl]
  rw [marchGo]
  rw [cexRun_step1]
  simp only [bind_ok, pure_eq_ok, hrest]

/-- C8 (code bug): on the valid input size [4], dx [1], speed 1, seeds [0] and
[2] with distances 3 and normals [-1] and [1], unsignedDistance returns
normally and the returned buffer holds the finite negative value -2 at cell 1:
the inside sweep froze that cell at a negative distance and the outside sweep
and the final seed overwrite leave it untouched. -/
theorem unsigned_distance_returns_negative_value :
    unsignedDistance [4] [1] 1 [[0], [2]] [some 3, some 3] [[-1], [1]] =
      Except.ok [FV.fin 3, FV.fin (-2), FV.fin 3, FV.fin 4] ∧
    [FV.fin 3, FV.fin (-2), FV.fin 3, FV.fin 4].getD 1 FV.top = FV.fin (-2) ∧
    ((-2 : ℝ) < 0) :=
  ⟨negRun_eval, rfl, by norm_num⟩

/-- Counterexample to C6: one sweep, composed exactly as in the drivers
(initializeFrozenCells with multiplier +1, initializeNarrowBand with the
outside predicate, marchNarrowBand), on size [4], dx [1], speed 1, with seeds
[0] (distance 0) and [3] (distance 5), both normals [-1]: the march pops the
distance 6 (cell [2]) and afterwards pops the distance 1 (cell [1]), so the
sequence of popped distances is not non-decreasing. -/
theorem march_pops_not_monotone :
    initFrozenCells [4] [[0], [3]] [0, 5] 1
        (List.replicate (linearSize [4]) FV.top)
        (List.replicate (linearSize [4]) CellState.Far) =
      ([FV.fin 0, FV.top, FV.top, FV.fin 5],
        [CellState.Frozen, CellState.Far, CellState.Far, CellState.Frozen]) ∧
    initNarrowBand [1] 1 [4] (neighborhoodOffsets (List.length [4])) [[0], [3]]
        [[-1], [-1]] outsidePred [FV.fin 0, FV.top, FV.top, FV.fin 5]
        [CellState.Frozen, CellState.Far, CellState.Far, CellState.Frozen] =
      Except.ok ⟨[FV.fin 0, FV.top, FV.fin 6, FV.fin 5],
        [CellState.Frozen, CellState.Far, CellState.NarrowBand, CellState.Frozen],
        ⟨[(FV.fin 6, [2])], [([2], 0)]⟩⟩ ∧
    marchNarrowBand [1] 1 [4] (neighborhoodOffsets (List.length [4]))
        ⟨[FV.fin 0, FV.top, FV.fin 6, FV.fin 5],
          [CellState.Frozen, CellState.Far, CellState.NarrowBand, CellState.Frozen],
          ⟨[(FV.fin 6, [2])], [([2], 0)]⟩⟩ =
      Except.ok ([(FV.fin 6, [2]), (FV.fin 1, [1])],
        ⟨[FV.fin 0, FV.fin 1, FV.fin 6, FV.fin 5],
          [CellState.Frozen, CellState.Frozen, CellState.Frozen, CellState.Frozen],
          ⟨[], []⟩⟩) ∧
    List.map Prod.fst [(FV.fin 6, [2]), (FV.fin 1, [1])] = [FV.fin 6, FV.fin 1] ∧
    ¬ FV.le (FV.fin 6) (FV.fin 1) := by
  refine ⟨?_, ?_, ?_, rfl, ?_⟩
  · norm_num [show initFrozenCells [4] [[0], [3]] [0, 5] 1
      (List.replicate (linearSize [4]) FV.top)
      (List.replicate (linearSize [4]) CellState.Far) =
      ([FV.fin (1 * 0), FV.top, FV.top, FV.fin (1 * 5)],
        [CellState.Frozen, CellState.Far, CellState.Far, CellState.Frozen]) from rfl]
  · rw [show neighborhoodOffsets (List.length [4]) = [[1], [-1]] from rfl]
    exact cexRun_init
  · rw [show neighborhoodOffsets (List.length [4]) = [[1], [-1]] from rfl]
    exact cexRun_march
  · norm_num [FV.le]

end FMM

namespace FMM

/-- Case analysis for a failing Except bind. -/
theorem bind_error_cases {ε α β : Type} {x : Except ε α} {f : α → Except ε β} {e : ε}
    (h : (x >>= f) = .error e) : x = .error e ∨ ∃ a, x = .ok a ∧ f a = .error e := by
  cases x with
  | error e2 =>
    rw [bind_error] at h
    injection h with h1
    exact Or.inl (by rw [h1])
  | ok a =>
    right
    rw [bind_ok] at h
    exact ⟨a, rfl, h⟩

/-- Heap-contract failure kinds (internal bugs, per the spec). -/
def isHeapErr (e : Err) : Prop :=
  e = .heapEmpty ∨ e = .heapDuplicate ∨ e = .heapNotFound ∨
    e = .heapNotIncreasing ∨ e = .heapNotDecreasing

/-- Failures the main loop can produce after validation has passed. -/
def isRuntimeErr (e : Err) : Prop :=
  isHeapErr e ∨ e = .emptyNarrowBand ∨ e = .outOfFuel

theorem insert_error_kind {D : Type} [Inhabited D] (dlt : D → D → Prop)
    [DecidableRel dlt] {s : NarrowBandStore D} {v : D × Idx} {e : Err}
    {s2 : NarrowBandStore D} (h : NarrowBandStore.insert dlt s v = .err e s2) :
    isHeapErr e := by
  unfold NarrowBandStore.insert at h
  split at h
  · injection h with h1 h2
    exact Or.inr (Or.inl h1.symm)
  · cases h

theorem decrease_error_kind {D : Type} [Inhabited D] (dlt dle : D → D → Prop)
    [DecidableRel dlt] [DecidableRel dle] {s : NarrowBandStore D} {idx : Idx} {d : D}
    {e : Err} {s2 : NarrowBandStore D}
    (h : NarrowBandStore.decrease_distance dlt dle s idx d = .err e s2) :
    isHeapErr e := by
  unfold NarrowBandStore.decrease_distance at h
  split at h
  · injection h with h1 h2
    exact Or.inr (Or.inr (Or.inl h1.symm))
  · dsimp only at h
    split at h
    · injection h with h1 h2
      exact Or.inr (Or.inr (Or.inr (Or.inr h1.symm)))
    · cases h

theorem pop_error_kind {D : Type} [Inhabited D] (dlt : D → D → Prop)
    [DecidableRel dlt] {s : NarrowBandStore D} {e : Err}
    {s2 : NarrowBandStore D} (h : NarrowBandStore.pop dlt s = .err e s2) :
    isHeapErr e := by
  unfold NarrowBandStore.pop at h
  split at h
  · injection h with h1 h2
    exact Or.inl h1.symm
  · dsimp only at h
    split at h <;> cases h

theorem visitNeighbor_error_kind (dx : List ℝ) (speed : ℝ) (size : Size)
    (offs : List Idx) (normal : List ℝ) (pred : List ℝ → Idx → Prop)
    [∀ n o, Decidable (pred n o)] (index : Idx) (acc : Except Err Config)
    (o : Idx) {e : Err}
    (h : visitNeighbor dx speed size offs normal pred index acc o = .error e) :
    acc = .error e ∨ isHeapErr e := by
  unfold visitNeighbor at h
  cases acc with
  | error e2 =>
    rw [bind_error] at h
    exact Or.inl h
  | ok cfg =>
    rw [bind_ok] at h
    dsimp only at h
    right
    split at h
    · split at h
      · split at h
        · split at h
          · cases h
          · rename_i heq
            injection h with h1
            subst h1
            exact insert_error_kind FV.lt heq
        · split at h
          · split at h
            · cases h
            · rename_i heq
              injection h with h1
              subst h1
              exact decrease_error_kind FV.lt FV.le heq
          · cases h
        · cases h
      · cases h
    · cases h

theorem updateNeighbors_error_kind (dx : List ℝ) (speed : ℝ) (size : Size)
    (offs : List Idx) (normal : List ℝ) (pred : List ℝ → Idx → Prop)
    [∀ n o, Decidable (pred n o)] (index : Idx) (c : Config) {e : Err}
    (h : updateNeighbors dx speed size offs normal pred index c = .error e) :
    isHeapErr e := by
  unfold updateNeighbors at h
  have main : ∀ (l : List Idx) (acc : Except Err Config),
      List.foldl (visitNeighbor dx speed size offs normal pred index) acc l =
        .error e → acc = .error e ∨ isHeapErr e := by
    intro l
    induction l with
    | nil => intro acc hacc; exact Or.inl hacc
    | cons o rest ih =>
      intro acc hacc
      rw [List.foldl_cons] at hacc
      rcases ih _ hacc with hv | hh
      · exact visitNeighbor_error_kind dx speed size offs normal pred index acc o hv
      · exact Or.inr hh
  rcases main offs (Except.ok c) h with hv | hh
  · cases hv
  · exact hh

end FMM

namespace FMM

theorem initNarrowBand_error_kind (dx : List ℝ) (speed : ℝ) (size : Size)
    (offs : List Idx) (inds : List Idx) (normals : List (List ℝ))
    (pred : List ℝ → Idx → Prop) [∀ n o, Decidable (pred n o)]
    (dist : List FV) (state : List CellState) {e : Err}
    (h : initNarrowBand dx speed size offs inds normals pred dist state = .error e) :
    isRuntimeErr e := by
  unfold initNarrowBand at h
  rcases bind_error_cases h with hf | ⟨c, hc, hrest⟩
  · have main : ∀ (l : List (Idx × List ℝ)) (acc : Except Err Config),
        List.foldl (fun acc p =>
          acc >>= fun cfg =>
            updateNeighbors dx speed size offs p.2 pred p.1 cfg) acc l =
          .error e → acc = .error e ∨ isHeapErr e := by
      intro l
      induction l with
      | nil => intro acc hacc; exact Or.inl hacc
      | cons p rest ih =>
        intro acc hacc
        rw [List.foldl_cons] at hacc
        rcases ih _ hacc with hv | hh
        · rcases bind_error_cases hv with hacc2 | ⟨cfg, hcfg, hupd⟩
          · exact Or.inl hacc2
          · exact Or.inr (updateNeighbors_error_kind dx speed size offs p.2 pred
              p.1 cfg hupd)
        · exact Or.inr hh
    rcases main (inds.zip normals) (Except.ok ⟨dist, state, ⟨[], []⟩⟩) hf with hv | hh
    · cases hv
    · exact Or.inl hh
  · split at hrest
    · injection hrest with h1
      exact Or.inr (Or.inl h1.symm)
    · cases hrest

theorem marchStep_error_kind (dx : List ℝ) (speed : ℝ) (size : Size)
    (offs : List Idx) (c : Config) {e : Err}
    (h : marchStep dx speed size offs c = .error e) : isHeapErr e := by
  unfold marchStep at h
  split at h
  · cases h
  · split at h
    · rename_i heq
      injection h with h1
      subst h1
      exact pop_error_kind FV.lt heq
    · dsimp only at h
      cases hupd : updateNeighbors dx speed size offs
          (List.replicate size.length 0) (fun _ _ => True) _ _ with
      | error e2 =>
        rw [hupd] at h
        injection h with h1
        subst h1
        exact updateNeighbors_error_kind dx speed size offs _ _ _ _ hupd
      | ok cfg =>
        rw [hupd] at h
        cases h

theorem marchGo_error_kind (dx : List ℝ) (speed : ℝ) (size : Size)
    (offs : List Idx) : ∀ (fuel : ℕ) (c : Config) {e : Err},
    marchGo dx speed size offs fuel c = .error e → isRuntimeErr e := by
  intro fuel
  induction fuel with
  | zero =>
    intro c e h
    unfold marchGo at h
    split at h
    · cases h
    · injection h with h1
      exact Or.inr (Or.inr h1.symm)
  | succ fuel ih =>
    intro c e h
    unfold marchGo at h
    rcases bind_error_cases h with hstep | ⟨step, hstep, hrest⟩
    · exact Or.inl (marchStep_error_kind dx speed size offs c hstep)
    · cases step with
      | none => cases hrest
      | some vc =>
        dsimp only at hrest
        rcases bind_error_cases hrest with hgo | ⟨r, hr, hpure⟩
        · exact ih vc.2 hgo
        · cases hpure

theorem unsignedDistance_error_kind (size : Size) (dx : List ℝ) (speed : ℝ)
    (inds : List Idx) (dists : List (Option ℝ)) (normals : List (List ℝ)) {e : Err}
    (hv : validateCommon size dx speed inds dists normals = none)
    (h : unsignedDistance size dx speed inds dists normals = .error e) :
    isRuntimeErr e := by
  unfold unsignedDistance at h
  rw [hv] at h
  dsimp only at h
  rcases bind_error_cases h with h1 | ⟨c1, hc1, h⟩
  · exact initNarrowBand_error_kind _ _ _ _ _ _ _ _ _ h1
  · rcases bind_error_cases h with h2 | ⟨r1, hr1, h⟩
    · exact marchGo_error_kind _ _ _ _ _ _ h2
    · rcases bind_error_cases h with h3 | ⟨c2, hc2, h⟩
      · exact initNarrowBand_error_kind _ _ _ _ _ _ _ _ _ h3
      · rcases bind_error_cases h with h4 | ⟨r2, hr2, h⟩
        · exact marchGo_error_kind _ _ _ _ _ _ h4
        · cases h

theorem signedDistance_error_kind (size : Size) (dx : List ℝ) (speed : ℝ)
    (inds : List Idx) (dists : List (Option ℝ)) (normals : List (List ℝ)) {e : Err}
    (hv : validateCommon size dx speed inds dists normals = none)
    (hn : throwIfInvalidNormal normals = none)
    (h : signedDistance size dx speed inds dists normals = .error e) :
    isRuntimeErr e := by
  unfold signedDistance at h
  rw [hv, hn] at h
  dsimp only at h
  rcases bind_error_cases h with h1 | ⟨c1, hc1, h⟩
  · exact initNarrowBand_error_kind _ _ _ _ _ _ _ _ _ h1
  · rcases bind_error_cases h with h2 | ⟨r1, hr1, h⟩
    · exact marchGo_error_kind _ _ _ _ _ _ h2
    · rcases bind_error_cases h with h3 | ⟨c2, hc2, h⟩
      · exact initNarrowBand_error_kind _ _ _ _ _ _ _ _ _ h3
      · rcases bind_error_cases h with h4 | ⟨r2, hr2, h⟩
        · exact marchGo_error_kind _ _ _ _ _ _ h4
        · cases h

end FMM

namespace FMM

/-- Spec-side sequential validation of the amended claim C4: the reported
error is determined by the first failing check, in source order. -/
noncomputable def firstValidationError (size : Size) (dx : List ℝ) (speed : ℝ)
    (inds : List Idx) (dists : List (Option ℝ)) (normals : List (List ℝ)) :
    Option Err :=
  if ∃ x ∈ size, x < 1 then some .invalidSize
  else if ∃ x ∈ dx, x ≤ 0 then some .invalidSpacing
  else if speed ≤ 0 then some .invalidSpeed
  else if ¬ (inds.length = dists.length ∧ inds.length = normals.length) then
    some .sizeMismatch
  else if ∃ i ∈ inds, ¬ insideIdx i size then some .invalidIndex
  else if ∃ d ∈ dists, d = none then some .invalidDistance
  else none

/-- Spec-side sequential validation for signedDistance: the common checks
first, then the normal-magnitude check. -/
noncomputable def firstValidationErrorSigned (size : Size) (dx : List ℝ) (speed : ℝ)
    (inds : List Idx) (dists : List (Option ℝ)) (normals : List (List ℝ)) :
    Option Err :=
  match firstValidationError size dx speed inds dists normals with
  | some e => some e
  | none =>
    if ∃ n ∈ normals, squaredMagnitude n < 0.25 then some .invalidNormal else none

/-- The validation-failure kinds of claim C4. -/
def isValidationKind (e : Err) : Prop :=
  e = .invalidSize ∨ e = .invalidSpacing ∨ e = .invalidSpeed ∨ e = .sizeMismatch ∨
    e = .invalidIndex ∨ e = .invalidDistance ∨ e = .invalidNormal

theorem validationKind_not_runtime {e : Err} (h1 : isValidationKind e)
    (h2 : isRuntimeErr e) : False := by
  rcases h1 with rfl | rfl | rfl | rfl | rfl | rfl | rfl <;>
    simp [isRuntimeErr, isHeapErr] at h2

theorem orElse_someV {α : Type} (a : α) (f : Unit → Option α) :
    (some a).orElse f = some a := rfl

theorem orElse_noneV {α : Type} (f : Unit → Option α) :
    (none : Option α).orElse f = f () := rfl

theorem validateCommon_eq_first (size : Size) (dx : List ℝ) (speed : ℝ)
    (inds : List Idx) (dists : List (Option ℝ)) (normals : List (List ℝ)) :
    validateCommon size dx speed inds dists normals =
      firstValidationError size dx speed inds dists normals := by
  unfold validateCommon firstValidationError throwIfInvalidSize
    throwIfInvalidSpacing throwIfInvalidSpeed throwIfSizeNotEqual
    throwIfInvalidIndex throwIfInvalidDistance
  by_cases h1 : ∃ x ∈ size, x < 1
  · rw [if_pos h1, orElse_someV, if_pos h1]
  rw [if_neg h1, orElse_noneV, if_neg h1]
  by_cases h2 : ∃ x ∈ dx, x ≤ 0
  · rw [if_pos h2, orElse_someV, if_pos h2]
  rw [if_neg h2, orElse_noneV, if_neg h2]
  by_cases h3 : speed ≤ 0
  · rw [if_pos h3, orElse_someV, if_pos h3]
  rw [if_neg h3, orElse_noneV, if_neg h3]
  by_cases h4 : inds.length = dists.length
  · rw [if_neg (not_not_intro h4)]
    by_cases h5 : inds.length = normals.length
    · rw [if_neg (not_not_intro h5), orElse_noneV,
        if_neg (not_not_intro (And.intro h4 h5))]
      by_cases h6 : ∃ i ∈ inds, ¬ insideIdx i size
      · rw [if_pos h6, orElse_someV, if_pos h6]
      rw [if_neg h6, orElse_noneV, if_neg h6]
    · rw [if_pos h5, orElse_someV,
        if_pos (fun hc => h5 hc.2)]
  · rw [if_pos h4, orElse_someV,
      if_pos (fun hc => h4 hc.1)]

theorem validateCommon_some_unsigned (size : Size) (dx : List ℝ) (speed : ℝ)
    (inds : List Idx) (dists : List (Option ℝ)) (normals : List (List ℝ)) {e : Err}
    (hv : validateCommon size dx speed inds dists normals = some e) :
    unsignedDistance size dx speed inds dists normals = .error e := by
  unfold unsignedDistance
  rw [hv]
  rfl

theorem validateCommon_some_signed (size : Size) (dx : List ℝ) (speed : ℝ)
    (inds : List Idx) (dists : List (Option ℝ)) (normals : List (List ℝ)) {e : Err}
    (hv : validateCommon size dx speed inds dists normals = some e) :
    signedDistance size dx speed inds dists normals = .error e := by
  unfold signedDistance
  rw [hv]
  rfl

theorem normal_some_signed (size : Size) (dx : List ℝ) (speed : ℝ)
    (inds : List Idx) (dists : List (Option ℝ)) (normals : List (List ℝ)) {e : Err}
    (hv : validateCommon size dx speed inds dists normals = none)
    (hn : throwIfInvalidNormal normals = some e) :
    signedDistance size dx speed inds dists normals = .error e := by
  unfold signedDistance
  rw [hv, hn]
  rfl

theorem throwIfInvalidNormal_some_iff (normals : List (List ℝ)) (e : Err) :
    throwIfInvalidNormal normals = some e ↔
      e = .invalidNormal ∧ ∃ n ∈ normals, squaredMagnitude n < 0.25 := by
  unfold throwIfInvalidNormal
  by_cases hc : ∃ n ∈ normals, squaredMagnitude n < 0.25
  · rw [if_pos hc]
    constructor
    · intro h
      injection h with h
      exact ⟨h.symm, hc⟩
    · rintro ⟨rfl, _⟩
      rfl
  · rw [if_neg hc]
    constructor
    · intro h
      cases h
    · rintro ⟨_, hx⟩
      exact absurd hx hc

theorem firstValidationError_not_normal (size : Size) (dx : List ℝ) (speed : ℝ)
    (inds : List Idx) (dists : List (Option ℝ)) (normals : List (List ℝ)) {e : Err}
    (h : firstValidationError size dx speed inds dists normals = some e) :
    e ≠ .invalidNormal := by
  unfold firstValidationError at h
  split_ifs at h <;> cases h <;> exact fun hc => Err.noConfusion hc

/-- Claim C4 (amended): validation is up-front and sequential.  For every
validation-failure kind e, unsignedDistance fails with e exactly when e is the
FIRST failing check in source order (size, spacing, speed, size mismatch, seed
index, seed distance); signedDistance fails with e exactly when e is the first
failing check of the common sequence followed by the normal-magnitude check;
and unsignedDistance never fails with invalidNormal.  The per-check iffs of
the original claim fail when several checks' conditions hold at once. -/
theorem validation_first_failing_check (size : Size) (dx : List ℝ) (speed : ℝ)
    (inds : List Idx) (dists : List (Option ℝ)) (normals : List (List ℝ))
    (e : Err) (he : isValidationKind e) :
    (unsignedDistance size dx speed inds dists normals = .error e ↔
      firstValidationError size dx speed inds dists normals = some e) ∧
    (signedDistance size dx speed inds dists normals = .error e ↔
      firstValidationErrorSigned size dx speed inds dists normals = some e) ∧
    unsignedDistance size dx speed inds dists normals ≠ .error .invalidNormal := by
  refine ⟨⟨?_, ?_⟩, ⟨?_, ?_⟩, ?_⟩
  · intro h
    cases hv : validateCommon size dx speed inds dists normals with
    | some f =>
      have h2 := validateCommon_some_unsigned size dx speed inds dists normals hv
      rw [h2] at h
      injection h with h
      rw [← validateCommon_eq_first, hv, h]
    | none =>
      exact absurd (unsignedDistance_error_kind size dx speed inds dists normals hv h)
        (fun hr => validationKind_not_runtime he hr)
  · intro h
    rw [← validateCommon_eq_first] at h
    exact validateCommon_some_unsigned size dx speed inds dists normals h
  · intro h
    cases hv : validateCommon size dx speed inds dists normals with
    | some f =>
      have h2 := validateCommon_some_signed size dx speed inds dists normals hv
      rw [h2] at h
      injection h with h
      unfold firstValidationErrorSigned
      rw [← validateCommon_eq_first, hv, h]
    | none =>
      cases hn : throwIfInvalidNormal normals with
      | some f =>
        have h2 := normal_some_signed size dx speed inds dists normals hv hn
        rw [h2] at h
        injection h with h
        rcases (throwIfInvalidNormal_some_iff normals f).mp hn with ⟨hf, hc⟩
        unfold firstValidationErrorSigned
        rw [← validateCommon_eq_first, hv]
        dsimp only
        rw [if_pos hc, ← h, hf]
      | none =>
        exact absurd (signedDistance_error_kind size dx speed inds dists normals hv hn h)
          (fun hr => validationKind_not_runtime he hr)
  · intro h
    unfold firstValidationErrorSigned at h
    rw [← validateCommon_eq_first] at h
    cases hv : validateCommon size dx speed inds dists normals with
    | some f =>
      rw [hv] at h
      dsimp only at h
      injection h with h
      rw [← h]
      exact validateCommon_some_signed size dx speed inds dists normals hv
    | none =>
      rw [hv] at h
      dsimp only at h
      by_cases hc : ∃ n ∈ normals, squaredMagnitude n < 0.25
      · rw [if_pos hc] at h
        injection h with h
        rw [← h]
        exact normal_some_signed size dx speed inds dists normals hv
          ((throwIfInvalidNormal_some_iff normals .invalidNormal).mpr ⟨rfl, hc⟩)
      · rw [if_neg hc] at h
        cases h
  · intro h
    cases hv : validateCommon size dx speed inds dists normals with
    | some f =>
      have h2 := validateCommon_some_unsigned size dx speed inds dists normals hv
      rw [h2] at h
      injection h with h
      exact firstValidationError_not_normal size dx speed inds dists normals
        (by rw [← validateCommon_eq_first]; exact hv) h
    | none =>
      have hr := unsignedDistance_error_kind size dx speed inds dists normals hv h
      exact validationKind_not_runtime
        (Or.inr (Or.inr (Or.inr (Or.inr (Or.inr (Or.inr rfl)))))) hr

theorem validation_first_failing_check_witness :
    isValidationKind Err.invalidSize ∧
    ((unsignedDistance [0] [-1] 1 [] [] [] = .error .invalidSize ↔
       firstValidationError [0] [-1] 1 [] [] [] = some .invalidSize) ∧
     (signedDistance [0] [-1] 1 [] [] [] = .error .invalidSize ↔
       firstValidationErrorSigned [0] [-1] 1 [] [] [] = some .invalidSize) ∧
     unsignedDistance [0] [-1] 1 [] [] [] ≠ .error .invalidNormal) :=
  ⟨Or.inl rfl,
    validation_first_failing_check [0] [-1] 1 [] [] [] .invalidSize (Or.inl rfl)⟩

/-- Claim C4 as stated is refuted: with size [0] and spacing [-1] the spacing
check's condition (some dx component is nonpositive) holds, yet the call fails
with invalidSize, because the size check runs first.  So "fails with
InvalidSpacing iff some dx component is <= 0" is false. -/
theorem validation_iff_fails :
    unsignedDistance [0] [-1] 1 [] [] [] = .error .invalidSize ∧
    (∃ x ∈ [(-1 : ℝ)], x ≤ 0) ∧
    ¬ (unsignedDistance [0] [-1] 1 [] [] [] = .error .invalidSpacing ↔
       ∃ x ∈ [(-1 : ℝ)], x ≤ 0) := by
  have h1 : unsignedDistance [0] [-1] 1 [] [] [] = .error .invalidSize :=
    validateCommon_some_unsigned [0] [-1] 1 [] [] [] rfl
  have h2 : ∃ x ∈ [(-1 : ℝ)], x ≤ 0 := ⟨-1, by simp, by norm_num⟩
  refine ⟨h1, h2, fun hiff => ?_⟩
  have h3 := hiff.mpr h2
  rw [h1] at h3
  injection h3 with h3
  exact Err.noConfusion h3

/-! ### Heap invariants (claim C3)

The two NarrowBandStore invariants: (I1) the values array is min-heap
ordered, (I2) the index-to-position map has exactly one entry per live
element and maps each stored grid index to its array position. -/

/-- getD after set at the same position. -/
theorem getDset_eq {α : Type} (l : List α) (i : ℕ) (a d : α) (h : i < l.length) :
    (l.set i a).getD i d = a := by
  induction l generalizing i with
  | nil => simp at h
  | cons x xs ih =>
    cases i with
    | zero => rfl
    | succ j =>
      rw [List.set_cons_succ, List.getD_cons_succ]
      exact ih j (by simpa using h)

/-- getD after set at another position. -/
theorem getDset_ne {α : Type} (l : List α) (i j : ℕ) (a d : α) (h : i ≠ j) :
    (l.set i a).getD j d = l.getD j d := by
  induction l generalizing i j with
  | nil => simp [List.set]
  | cons x xs ih =>
    cases i with
    | zero =>
      cases j with
      | zero => exact absurd rfl h
      | succ j2 => rfl
    | succ i2 =>
      cases j with
      | zero => rfl
      | succ j2 =>
        rw [List.set_cons_succ, List.getD_cons_succ, List.getD_cons_succ]
        exact ih i2 j2 (fun hc => h (by rw [hc]))

/-- getD of dropLast below the last position. -/
theorem getD_dropLast {α : Type} (l : List α) (i : ℕ) (d : α)
    (h : i < l.length - 1) : l.dropLast.getD i d = l.getD i d := by
  induction l generalizing i with
  | nil => simp at h
  | cons x xs ih =>
    cases xs with
    | nil => simp at h
    | cons y ys =>
      cases i with
      | zero => rfl
      | succ j =>
        rw [List.dropLast_cons₂, List.getD_cons_succ, List.getD_cons_succ]
        exact ih j (by simpa using h)

namespace IdxMap

theorem lookup_eq_none_of_not_mem (m : List (Idx × ℕ)) (k : Idx)
    (h : k ∉ m.map Prod.fst) : lookup m k = none := by
  induction m with
  | nil => rfl
  | cons e es ih =>
    rw [lookup]
    rw [List.map_cons, List.mem_cons] at h
    rw [if_neg (fun hc => h (Or.inl hc.symm))]
    exact ih (fun hc => h (Or.inr hc))

theorem not_mem_of_lookup_none (m : List (Idx × ℕ)) (k : Idx)
    (h : lookup m k = none) : k ∉ m.map Prod.fst := by
  induction m with
  | nil => simp
  | cons e es ih =>
    rw [lookup] at h
    by_cases hk : e.1 = k
    · rw [if_pos hk] at h
      cases h
    · rw [if_neg hk] at h
      rw [List.map_cons, List.mem_cons]
      rintro (hc | hc)
      · exact hk hc.symm
      · exact ih h hc

theorem lookup_update_self (m : List (Idx × ℕ)) (k : Idx) (v : ℕ)
    (h : (lookup m k).isSome) : lookup (update m k v) k = some v := by
  induction m with
  | nil => cases h
  | cons e es ih =>
    rw [update]
    by_cases hk : e.1 = k
    · rw [if_pos hk, lookup, if_pos rfl]
    · rw [if_neg hk, lookup, if_neg hk]
      rw [lookup, if_neg hk] at h
      exact ih h

theorem lookup_update_ne (m : List (Idx × ℕ)) (k k2 : Idx) (v : ℕ)
    (h : k2 ≠ k) : lookup (update m k v) k2 = lookup m k2 := by
  induction m with
  | nil => rfl
  | cons e es ih =>
    rw [update]
    by_cases hk : e.1 = k
    · rw [if_pos hk, lookup, lookup,
        if_neg (fun hc => h ((hk.symm.trans hc).symm)),
        if_neg (fun hc : (k, v).1 = k2 => h hc.symm)]
    · rw [if_neg hk, lookup, lookup]
      by_cases hk2 : e.1 = k2
      · rw [if_pos hk2, if_pos hk2]
      · rw [if_neg hk2, if_neg hk2]
        exact ih

theorem update_map_fst (m : List (Idx × ℕ)) (k : Idx) (v : ℕ) :
    (update m k v).map Prod.fst = m.map Prod.fst := by
  induction m with
  | nil => rfl
  | cons e es ih =>
    rw [update]
    by_cases hk : e.1 = k
    · rw [if_pos hk, List.map_cons, List.map_cons, hk]
    · rw [if_neg hk, List.map_cons, List.map_cons, ih]

theorem update_length (m : List (Idx × ℕ)) (k : Idx) (v : ℕ) :
    (update m k v).length = m.length := by
  induction m with
  | nil => rfl
  | cons e es ih =>
    rw [update]
    by_cases hk : e.1 = k
    · rw [if_pos hk, List.length_cons, List.length_cons]
    · rw [if_neg hk, List.length_cons, List.length_cons, ih]

theorem erase_sublist (m : List (Idx × ℕ)) (k : Idx) : (erase m k).Sublist m := by
  induction m with
  | nil => exact List.Sublist.refl _
  | cons e es ih =>
    rw [erase]
    by_cases hk : e.1 = k
    · rw [if_pos hk]
      exact List.sublist_cons_self e es
    · rw [if_neg hk]
      exact List.Sublist.cons₂ e ih

theorem erase_length (m : List (Idx × ℕ)) (k : Idx)
    (h : (lookup m k).isSome) : (erase m k).length + 1 = m.length := by
  induction m with
  | nil => cases h
  | cons e es ih =>
    rw [erase]
    by_cases hk : e.1 = k
    · rw [if_pos hk, List.length_cons]
    · rw [if_neg hk, List.length_cons, List.length_cons]
      rw [lookup, if_neg hk] at h
      rw [ih h]

theorem lookup_erase_ne (m : List (Idx × ℕ)) (k k2 : Idx) (h : k2 ≠ k) :
    lookup (erase m k) k2 = lookup m k2 := by
  induction m with
  | nil => rfl
  | cons e es ih =>
    rw [erase]
    by_cases hk : e.1 = k
    · rw [lookup, if_pos hk, if_neg (fun hc => h (hk.symm.trans hc).symm)]
    · rw [if_neg hk, lookup, lookup]
      by_cases hk2 : e.1 = k2
      · rw [if_pos hk2, if_pos hk2]
      · rw [if_neg hk2, if_neg hk2]
        exact ih

theorem lookup_append_some (m m2 : List (Idx × ℕ)) (k : Idx) (v : ℕ)
    (h : lookup m k = some v) : lookup (m ++ m2) k = some v := by
  induction m with
  | nil => cases h
  | cons e es ih =>
    rw [List.cons_append, lookup]
    rw [lookup] at h
    by_cases hk : e.1 = k
    · rw [if_pos hk]
      rw [if_pos hk] at h
      exact h
    · rw [if_neg hk]
      rw [if_neg hk] at h
      exact ih h

theorem lookup_append_none (m m2 : List (Idx × ℕ)) (k : Idx)
    (h : lookup m k = none) : lookup (m ++ m2) k = lookup m2 k := by
  induction m with
  | nil => rfl
  | cons e es ih =>
    rw [List.cons_append, lookup]
    rw [lookup] at h
    by_cases hk : e.1 = k
    · rw [if_pos hk] at h
      cases h
    · rw [if_neg hk]
      rw [if_neg hk] at h
      exact ih h

end IdxMap

/-- Parent position in the flat binary heap layout. -/
def parentIdx (c : ℕ) : ℕ := (c - 1) / 2

/-- The distance stored at a heap position. -/
def keyAt {D : Type} [Inhabited D] (s : NarrowBandStore D) (i : ℕ) : D :=
  (s.values.getD i default).1

/-- The grid index stored at a heap position. -/
def idxAt {D : Type} [Inhabited D] (s : NarrowBandStore D) (i : ℕ) : Idx :=
  (s.values.getD i default).2

/-- Invariant I1: the values array is min-heap ordered on distances. -/
def HeapInv {D : Type} [Inhabited D] [LinearOrder D] (s : NarrowBandStore D) : Prop :=
  ∀ c, c < s.values.length → 0 < c → keyAt s (parentIdx c) ≤ keyAt s c

/-- Invariant I2: one mapping entry per live heap element, each stored grid
index mapped to its current array position. -/
def MapInv {D : Type} [Inhabited D] (s : NarrowBandStore D) : Prop :=
  (s.index_to_pos.map Prod.fst).Nodup ∧
  s.index_to_pos.length = s.values.length ∧
  ∀ p, p < s.values.length → IdxMap.lookup s.index_to_pos (idxAt s p) = some p

theorem mapInv_idx_inj {D : Type} [Inhabited D] {s : NarrowBandStore D}
    (h : MapInv s) {p q : ℕ} (hp : p < s.values.length) (hq : q < s.values.length)
    (he : idxAt s p = idxAt s q) : p = q := by
  have h1 := h.2.2 p hp
  have h2 := h.2.2 q hq
  rw [he] at h1
  rw [h1] at h2
  injection h2

/-- I2 implies every grid index occurs at most once in the heap. -/
theorem mapInv_idx_nodup {D : Type} [Inhabited D] {s : NarrowBandStore D}
    (h : MapInv s) : (s.values.map Prod.snd).Nodup := by
  rw [List.Nodup, List.pairwise_iff_getElem]
  intro i j hi hj hij
  rw [List.length_map] at hi hj
  rw [List.getElem_map, List.getElem_map]
  intro heq
  have hii : idxAt s i = idxAt s j := by
    rw [idxAt, idxAt, List.getD_eq_getElem _ _ hi, List.getD_eq_getElem _ _ hj]
    exact heq
  exact absurd (mapInv_idx_inj h hi hj hii) (Nat.ne_of_lt hij)

namespace NarrowBandStore

theorem swap_length {D : Type} [Inhabited D] (s : NarrowBandStore D) (p0 p1 : ℕ) :
    (swap_ s p0 p1).values.length = s.values.length := by
  rw [swap_]
  dsimp only
  rw [List.length_set, List.length_set]

theorem swap_getD {D : Type} [Inhabited D] (s : NarrowBandStore D) (p0 p1 i : ℕ)
    (h0 : p0 < s.values.length) (h1 : p1 < s.values.length) :
    (swap_ s p0 p1).values.getD i default =
      if i = p1 then s.values.getD p0 default
      else if i = p0 then s.values.getD p1 default
      else s.values.getD i default := by
  rw [swap_]
  dsimp only
  by_cases e1 : i = p1
  · rw [if_pos e1, e1, getDset_eq _ _ _ _ (by rw [List.length_set]; exact h1)]
  · rw [if_neg e1, getDset_ne _ _ _ _ _ (fun hc => e1 hc.symm)]
    by_cases e0 : i = p0
    · rw [if_pos e0, e0, getDset_eq _ _ _ _ h0]
    · rw [if_neg e0, getDset_ne _ _ _ _ _ (fun hc => e0 hc.symm)]

theorem swap_keyAt {D : Type} [Inhabited D] (s : NarrowBandStore D) (p0 p1 i : ℕ)
    (h0 : p0 < s.values.length) (h1 : p1 < s.values.length) :
    keyAt (swap_ s p0 p1) i =
      if i = p1 then keyAt s p0 else if i = p0 then keyAt s p1 else keyAt s i := by
  rw [keyAt, swap_getD s p0 p1 i h0 h1]
  by_cases e1 : i = p1
  · rw [if_pos e1, if_pos e1, keyAt]
  · rw [if_neg e1, if_neg e1]
    by_cases e0 : i = p0
    · rw [if_pos e0, if_pos e0, keyAt]
    · rw [if_neg e0, if_neg e0, keyAt]

theorem swap_idxAt {D : Type} [Inhabited D] (s : NarrowBandStore D) (p0 p1 i : ℕ)
    (h0 : p0 < s.values.length) (h1 : p1 < s.values.length) :
    idxAt (swap_ s p0 p1) i =
      if i = p1 then idxAt s p0 else if i = p0 then idxAt s p1 else idxAt s i := by
  rw [idxAt, swap_getD s p0 p1 i h0 h1]
  by_cases e1 : i = p1
  · rw [if_pos e1, if_pos e1, idxAt]
  · rw [if_neg e1, if_neg e1]
    by_cases e0 : i = p0
    · rw [if_pos e0, if_pos e0, idxAt]
    · rw [if_neg e0, if_neg e0, idxAt]

theorem swap_mapInv {D : Type} [Inhabited D] {s : NarrowBandStore D} {p0 p1 : ℕ}
    (hM : MapInv s) (h0 : p0 < s.values.length) (h1 : p1 < s.values.length)
    (hne : p0 ≠ p1) : MapInv (swap_ s p0 p1) := by
  have hk01 : idxAt s p0 ≠ idxAt s p1 :=
    fun hc => hne (mapInv_idx_inj hM h0 h1 hc)
  have hmfst : (swap_ s p0 p1).index_to_pos.map Prod.fst =
      s.index_to_pos.map Prod.fst := by
    rw [swap_]
    dsimp only
    rw [IdxMap.update_map_fst, IdxMap.update_map_fst]
  refine ⟨by rw [hmfst]; exact hM.1, ?_, ?_⟩
  · rw [swap_length, swap_]
    dsimp only
    rw [IdxMap.update_length, IdxMap.update_length]
    exact hM.2.1
  · intro p hp
    rw [swap_length] at hp
    have hmap : (swap_ s p0 p1).index_to_pos =
        IdxMap.update
          (IdxMap.update s.index_to_pos (idxAt s p0) p1)
          (idxAt s p1) p0 := rfl
    rw [swap_idxAt s p0 p1 p h0 h1, hmap]
    by_cases e1 : p = p1
    · rw [if_pos e1]
      rw [IdxMap.lookup_update_ne _ _ _ _ hk01]
      rw [e1]
      exact IdxMap.lookup_update_self _ _ _ (by rw [hM.2.2 p0 h0]; rfl)
    · rw [if_neg e1]
      by_cases e0 : p = p0
      · rw [if_pos e0, e0]
        exact IdxMap.lookup_update_self _ _ _
          (by
            rw [IdxMap.lookup_update_ne _ _ _ _ hk01.symm, hM.2.2 p1 h1]
            rfl)
      · rw [if_neg e0]
        have hne1 : idxAt s p ≠ idxAt s p1 :=
          fun hc => e1 (mapInv_idx_inj hM hp h1 hc)
        have hne0 : idxAt s p ≠ idxAt s p0 :=
          fun hc => e0 (mapInv_idx_inj hM hp h0 hc)
        rw [IdxMap.lookup_update_ne _ _ _ _ hne1,
          IdxMap.lookup_update_ne _ _ _ _ hne0]
        exact hM.2.2 p hp

end NarrowBandStore

theorem parentIdx_lt {c : ℕ} (h : 0 < c) : parentIdx c < c := by
  rw [parentIdx]
  omega

theorem parentIdx_children {c p : ℕ} (h : parentIdx c = p) (h0 : 0 < c) :
    c = 2 * p + 1 ∨ c = 2 * p + 2 := by
  rw [parentIdx] at h
  omega

/-- The edge invariant maintained while sifting up: the heap order holds at
every edge whose lower endpoint is not the hole, and the hole's children
dominate the hole's parent. -/
def UpInv {D : Type} [Inhabited D] [LinearOrder D] (s : NarrowBandStore D)
    (p : ℕ) : Prop :=
  (∀ c, c < s.values.length → 0 < c → c ≠ p →
    keyAt s (parentIdx c) ≤ keyAt s c) ∧
  (0 < p → ∀ c, c < s.values.length → parentIdx c = p →
    keyAt s (parentIdx p) ≤ keyAt s c)

namespace NarrowBandStore

theorem siftUpGo_invs {D : Type} [Inhabited D] [LinearOrder D] :
    ∀ (fuel : ℕ) (s : NarrowBandStore D) (pos : ℕ),
      pos < s.values.length → pos < fuel → MapInv s → UpInv s pos →
      HeapInv (siftUpGo (fun a b : D => a < b) fuel s pos) ∧
      MapInv (siftUpGo (fun a b : D => a < b) fuel s pos) ∧
      (siftUpGo (fun a b : D => a < b) fuel s pos).values.length =
        s.values.length := by
  intro fuel
  induction fuel with
  | zero =>
    intro s pos hpos hfuel hM hU
    exact absurd hfuel (Nat.not_lt_zero pos)
  | succ fuel ih =>
    intro s pos hpos hfuel hM hU
    rw [siftUpGo]
    by_cases hp0 : pos = 0
    · rw [if_pos hp0]
      refine ⟨?_, hM, rfl⟩
      intro c hc h0
      exact hU.1 c hc h0 (fun hc2 => by rw [hc2, hp0] at h0; exact Nat.lt_irrefl 0 h0)
    · rw [if_neg hp0]
      dsimp only
      have hppos : 0 < pos := Nat.pos_of_ne_zero hp0
      have hparlt : parentIdx pos < pos := parentIdx_lt hppos
      have hparlen : (pos - 1) / 2 < s.values.length := lt_trans hparlt hpos
      by_cases hlt :
        (s.values.getD pos default).1 < (s.values.getD ((pos - 1) / 2) default).1
      · rw [if_pos hlt]
        have hswM : MapInv (swap_ s pos ((pos - 1) / 2)) :=
          swap_mapInv hM hpos hparlen (ne_of_gt hparlt)
        have hswlen : (swap_ s pos ((pos - 1) / 2)).values.length =
            s.values.length := swap_length s pos ((pos - 1) / 2)
        have hkey : ∀ i, keyAt (swap_ s pos ((pos - 1) / 2)) i =
            if i = (pos - 1) / 2 then keyAt s pos
            else if i = pos then keyAt s ((pos - 1) / 2) else keyAt s i :=
          fun i => swap_keyAt s pos ((pos - 1) / 2) i hpos hparlen
        have hswU : UpInv (swap_ s pos ((pos - 1) / 2)) ((pos - 1) / 2) := by
          constructor
          · intro c hc hc0 hcp
            rw [hswlen] at hc
            rw [hkey c, hkey (parentIdx c)]
            by_cases hcpos : c = pos
            · rw [if_neg hcp, if_pos hcpos,
                if_pos (show parentIdx c = (pos - 1) / 2 by rw [hcpos]; rfl)]
              exact le_of_lt hlt
            · rw [if_neg hcp, if_neg hcpos]
              by_cases hpar : parentIdx c = (pos - 1) / 2
              · rw [if_pos hpar]
                have h2 : keyAt s (parentIdx c) ≤ keyAt s c :=
                  hU.1 c hc hc0 hcpos
                rw [hpar] at h2
                exact le_trans (le_of_lt hlt) h2
              · rw [if_neg hpar]
                by_cases hpar2 : parentIdx c = pos
                · rw [if_pos hpar2]
                  have h2 := hU.2 hppos c hc hpar2
                  exact h2
                · rw [if_neg hpar2]
                  exact hU.1 c hc hc0 hcpos
          · intro hq c hc hpar
            rw [hswlen] at hc
            have hc0 : 0 < c := by
              rcases Nat.eq_zero_or_pos c with h | h
              · exfalso
                rw [h] at hpar
                have h2 : parentIdx 0 = 0 := rfl
                rw [h2] at hpar
                omega
              · exact h
            have hgpar : parentIdx ((pos - 1) / 2) < (pos - 1) / 2 := parentIdx_lt hq
            rw [hkey c, hkey (parentIdx ((pos - 1) / 2))]
            rw [if_neg (ne_of_lt hgpar),
              if_neg (ne_of_lt (lt_trans hgpar hparlt))]
            have hbase : keyAt s (parentIdx ((pos - 1) / 2)) ≤
                keyAt s ((pos - 1) / 2) :=
              hU.1 ((pos - 1) / 2) hparlen hq (ne_of_lt hparlt)
            by_cases hcpos : c = pos
            · rw [if_neg (fun hc2 : c = (pos - 1) / 2 =>
                  ne_of_gt hparlt (hcpos.symm.trans hc2)),
                if_pos hcpos]
              exact hbase
            · have hcq : c ≠ (pos - 1) / 2 := by
                intro hc2
                rw [hc2] at hpar
                exact ne_of_lt (parentIdx_lt hq) hpar
              rw [if_neg hcq, if_neg hcpos]
              have h2 : keyAt s (parentIdx c) ≤ keyAt s c := hU.1 c hc hc0 hcpos
              rw [hpar] at h2
              exact le_trans hbase h2
        have := ih (swap_ s pos ((pos - 1) / 2)) ((pos - 1) / 2)
          (by rw [hswlen]; exact hparlen) (by omega) hswM hswU
        refine ⟨this.1, this.2.1, ?_⟩
        rw [this.2.2, hswlen]
      · rw [if_neg hlt]
        refine ⟨?_, hM, rfl⟩
        intro c hc h0
        by_cases hcpos : c = pos
        · rw [hcpos]
          exact le_of_not_lt hlt
        · exact hU.1 c hc h0 hcpos

end NarrowBandStore

/-- The edge invariant maintained while sifting down: the heap order holds at
every edge whose upper endpoint is not the hole, and the hole's children
dominate the hole's parent. -/
def DownInv {D : Type} [Inhabited D] [LinearOrder D] (s : NarrowBandStore D)
    (p : ℕ) : Prop :=
  (∀ c, c < s.values.length → 0 < c → parentIdx c ≠ p →
    keyAt s (parentIdx c) ≤ keyAt s c) ∧
  (0 < p → ∀ c, c < s.values.length → parentIdx c = p →
    keyAt s (parentIdx p) ≤ keyAt s c)

theorem downInv_terminal {D : Type} [Inhabited D] [LinearOrder D]
    {s : NarrowBandStore D} {pos : ℕ} (hD : DownInv s pos)
    (hch : ∀ c, c < s.values.length → 0 < c → parentIdx c = pos →
      keyAt s pos ≤ keyAt s c) : HeapInv s := by
  intro c hc hc0
  by_cases hpp : parentIdx c = pos
  · rw [hpp]
    exact hch c hc hc0 hpp
  · exact hD.1 c hc hc0 hpp

namespace NarrowBandStore

theorem downSwapInv {D : Type} [Inhabited D] [LinearOrder D]
    {s : NarrowBandStore D} {pos m : ℕ} (hD : DownInv s pos)
    (hpos : pos < s.values.length) (hm : m < s.values.length)
    (hparm : parentIdx m = pos) (hm0 : 0 < m)
    (hmp : keyAt s m < keyAt s pos)
    (hchild : ∀ c, c < s.values.length → 0 < c → parentIdx c = pos → c ≠ m →
      keyAt s m ≤ keyAt s c) :
    DownInv (swap_ s m pos) m := by
  have hposm : pos < m := by
    have h2 := parentIdx_lt hm0
    rw [hparm] at h2
    exact h2
  have hkey : ∀ i, keyAt (swap_ s m pos) i =
      if i = pos then keyAt s m else if i = m then keyAt s pos else keyAt s i :=
    fun i => swap_keyAt s m pos i hm hpos
  have hswlen := swap_length s m pos
  constructor
  · intro c hc hc0 hcm
    rw [hswlen] at hc
    rw [hkey c, hkey (parentIdx c)]
    by_cases hcpos : c = pos
    · rw [if_pos hcpos]
      by_cases hpp : parentIdx c = pos
      · rw [if_pos hpp]
      · rw [if_neg hpp, if_neg hcm]
        have hpos0 : 0 < pos := by
          rcases Nat.eq_zero_or_pos pos with h0 | h0
          · exfalso
            apply hpp
            rw [hcpos, h0]
            rfl
          · exact h0
        have h3 := hD.2 hpos0 m hm hparm
        rw [hcpos]
        exact h3
    · rw [if_neg hcpos]
      by_cases hcm2 : c = m
      · rw [if_pos hcm2, if_pos (show parentIdx c = pos by rw [hcm2]; exact hparm)]
        exact le_of_lt hmp
      · rw [if_neg hcm2]
        by_cases hpp : parentIdx c = pos
        · rw [if_pos hpp]
          exact hchild c hc hc0 hpp hcm2
        · rw [if_neg hpp, if_neg hcm]
          exact hD.1 c hc hc0 hpp
  · intro _ c hc hpar
    rw [hswlen] at hc
    have hc0 : 0 < c := by
      rcases Nat.eq_zero_or_pos c with h0 | h0
      · exfalso
        rw [h0] at hpar
        have h2 : parentIdx 0 = 0 := rfl
        rw [h2] at hpar
        omega
      · exact h0
    have hmc : m < c := by
      have h2 := parentIdx_lt hc0
      rw [hpar] at h2
      exact h2
    have hcnm : c ≠ m := ne_of_gt hmc
    have hcnpos : c ≠ pos := by omega
    rw [hkey c, hkey (parentIdx m), if_neg hcnpos, if_neg hcnm, if_pos hparm]
    have h3 := hD.1 c hc hc0 (by rw [hpar]; exact ne_of_gt hposm)
    rw [hpar] at h3
    exact h3

theorem siftDownGo_invs {D : Type} [Inhabited D] [LinearOrder D] :
    ∀ (fuel : ℕ) (s : NarrowBandStore D) (pos : ℕ),
      s.values.length ≤ fuel + pos → MapInv s → DownInv s pos →
      HeapInv (siftDownGo (fun a b : D => a < b) fuel s pos) ∧
      MapInv (siftDownGo (fun a b : D => a < b) fuel s pos) ∧
      (siftDownGo (fun a b : D => a < b) fuel s pos).values.length =
        s.values.length := by
  intro fuel
  induction fuel with
  | zero =>
    intro s pos hfuel hM hD
    rw [siftDownGo]
    refine ⟨downInv_terminal hD ?_, hM, rfl⟩
    intro c hc hc0 hpar
    exfalso
    rcases parentIdx_children hpar hc0 with h2 | h2 <;> omega
  | succ fuel ih =>
    intro s pos hfuel hM hD
    rw [siftDownGo]
    dsimp only
    by_cases hL : 2 * pos + 1 > s.values.length - 1
    · rw [if_pos hL]
      refine ⟨downInv_terminal hD ?_, hM, rfl⟩
      intro c hc hc0 hpar
      exfalso
      rcases parentIdx_children hpar hc0 with h2 | h2 <;> omega
    · rw [if_neg hL]
      have hposlen : pos < s.values.length := by omega
      have hleftlen : 2 * pos + 1 < s.values.length := by omega
      by_cases h1 : (s.values.getD (2 * pos + 1) default).1 <
          (s.values.getD pos default).1
      · rw [if_pos h1]
        dsimp only
        by_cases h2 : 2 * pos + 2 ≤ s.values.length - 1 ∧
            (s.values.getD (2 * pos + 2) default).1 <
              (s.values.getD (2 * pos + 1) default).1
        · rw [if_pos h2, if_pos (show 2 * pos + 2 ≠ pos by omega)]
          have hmlen : 2 * pos + 2 < s.values.length := by omega
          have hchild : ∀ c, c < s.values.length → 0 < c → parentIdx c = pos →
              c ≠ 2 * pos + 2 → keyAt s (2 * pos + 2) ≤ keyAt s c := by
            intro c hc hc0 hpar hne
            rcases parentIdx_children hpar hc0 with h3 | h3
            · rw [h3]
              exact le_of_lt h2.2
            · exact absurd h3 hne
          have hrec := ih (swap_ s (2 * pos + 2) pos) (2 * pos + 2)
            (by rw [swap_length]; omega)
            (swap_mapInv hM hmlen hposlen (by omega))
            (downSwapInv hD hposlen hmlen (by rw [parentIdx]; omega) (by omega)
              (lt_trans h2.2 h1) hchild)
          exact ⟨hrec.1, hrec.2.1, by rw [hrec.2.2, swap_length]⟩
        · rw [if_neg h2, if_pos (show 2 * pos + 1 ≠ pos by omega)]
          have hchild : ∀ c, c < s.values.length → 0 < c → parentIdx c = pos →
              c ≠ 2 * pos + 1 → keyAt s (2 * pos + 1) ≤ keyAt s c := by
            intro c hc hc0 hpar hne
            rcases parentIdx_children hpar hc0 with h3 | h3
            · exact absurd h3 hne
            · rw [h3]
              exact le_of_not_lt (fun hlt => h2 ⟨by omega, hlt⟩)
          have hrec := ih (swap_ s (2 * pos + 1) pos) (2 * pos + 1)
            (by rw [swap_length]; omega)
            (swap_mapInv hM hleftlen hposlen (by omega))
            (downSwapInv hD hposlen hleftlen (by rw [parentIdx]; omega) (by omega)
              h1 hchild)
          exact ⟨hrec.1, hrec.2.1, by rw [hrec.2.2, swap_length]⟩
      · rw [if_neg h1]
        dsimp only
        by_cases h2 : 2 * pos + 2 ≤ s.values.length - 1 ∧
            (s.values.getD (2 * pos + 2) default).1 <
              (s.values.getD pos default).1
        · rw [if_pos h2, if_pos (show 2 * pos + 2 ≠ pos by omega)]
          have hmlen : 2 * pos + 2 < s.values.length := by omega
          have hchild : ∀ c, c < s.values.length → 0 < c → parentIdx c = pos →
              c ≠ 2 * pos + 2 → keyAt s (2 * pos + 2) ≤ keyAt s c := by
            intro c hc hc0 hpar hne
            rcases parentIdx_children hpar hc0 with h3 | h3
            · rw [h3]
              exact le_trans (le_of_lt h2.2) (le_of_not_lt h1)
            · exact absurd h3 hne
          have hrec := ih (swap_ s (2 * pos + 2) pos) (2 * pos + 2)
            (by rw [swap_length]; omega)
            (swap_mapInv hM hmlen hposlen (by omega))
            (downSwapInv hD hposlen hmlen (by rw [parentIdx]; omega) (by omega)
              h2.2 hchild)
          exact ⟨hrec.1, hrec.2.1, by rw [hrec.2.2, swap_length]⟩
        · rw [if_neg h2, if_neg (not_not_intro (rfl : pos = pos))]
          refine ⟨downInv_terminal hD ?_, hM, rfl⟩
          intro c hc hc0 hpar
          rcases parentIdx_children hpar hc0 with h3 | h3
          · rw [h3]
            exact le_of_not_lt h1
          · rw [h3]
            exact le_of_not_lt (fun hlt => h2 ⟨by omega, hlt⟩)

end NarrowBandStore

theorem lookup_some_mem_keys {m : List (Idx × ℕ)} {k : Idx} {v : ℕ}
    (h : IdxMap.lookup m k = some v) : k ∈ m.map Prod.fst := by
  induction m with
  | nil => cases h
  | cons e es ih =>
    rw [IdxMap.lookup] at h
    by_cases hk : e.1 = k
    · rw [List.map_cons, List.mem_cons]
      exact Or.inl hk.symm
    · rw [if_neg hk] at h
      rw [List.map_cons, List.mem_cons]
      exact Or.inr (ih h)

/-- Under I2 a successful lookup returns an in-range position holding that
grid index. -/
theorem mapInv_lookup_char {D : Type} [Inhabited D] {s : NarrowBandStore D}
    (hM : MapInv s) {k : Idx} {pos : ℕ}
    (h : IdxMap.lookup s.index_to_pos k = some pos) :
    pos < s.values.length ∧ idxAt s pos = k := by
  have hS : (s.values.map Prod.snd).Nodup := mapInv_idx_nodup hM
  have hsub : (s.values.map Prod.snd) ⊆ (s.index_to_pos.map Prod.fst) := by
    intro a ha
    obtain ⟨i, hi, hia⟩ := List.mem_iff_getElem.mp ha
    rw [List.length_map] at hi
    have hidx : idxAt s i = a := by
      rw [idxAt, List.getD_eq_getElem _ _ hi]
      rw [List.getElem_map] at hia
      exact hia
    have := hM.2.2 i hi
    rw [hidx] at this
    exact lookup_some_mem_keys this
  have hlen : (s.index_to_pos.map Prod.fst).length ≤
      (s.values.map Prod.snd).length := by
    rw [List.length_map, List.length_map, hM.2.1]
  have hperm := (hS.subperm hsub).perm_of_length_le hlen
  have hkS : k ∈ s.values.map Prod.snd :=
    hperm.symm.subset (lookup_some_mem_keys h)
  obtain ⟨i, hi, hia⟩ := List.mem_iff_getElem.mp hkS
  rw [List.length_map] at hi
  have hidx : idxAt s i = k := by
    rw [idxAt, List.getD_eq_getElem _ _ hi]
    rw [List.getElem_map] at hia
    exact hia
  have h2 := hM.2.2 i hi
  rw [hidx, h] at h2
  injection h2 with h2
  rw [← h2] at hi
  refine ⟨hi, ?_⟩
  rw [h2]
  exact hidx

namespace NarrowBandStore

theorem swap_mapInv_self {D : Type} [Inhabited D] {s : NarrowBandStore D}
    {p : ℕ} (hM : MapInv s) (hp : p < s.values.length) :
    MapInv (swap_ s p p) := by
  refine ⟨?_, ?_, ?_⟩
  · rw [swap_]
    dsimp only
    rw [IdxMap.update_map_fst, IdxMap.update_map_fst]
    exact hM.1
  · rw [swap_length, swap_]
    dsimp only
    rw [IdxMap.update_length, IdxMap.update_length]
    exact hM.2.1
  · intro q hq
    rw [swap_length] at hq
    have hmap : (swap_ s p p).index_to_pos =
        IdxMap.update (IdxMap.update s.index_to_pos (idxAt s p) p)
          (idxAt s p) p := rfl
    have hidq : idxAt (swap_ s p p) q = idxAt s q := by
      rw [swap_idxAt s p p q hp hp]
      by_cases hqp : q = p
      · rw [if_pos hqp, hqp]
      · rw [if_neg hqp, if_neg hqp]
    rw [hidq, hmap]
    by_cases hqp : q = p
    · rw [hqp]
      exact IdxMap.lookup_update_self _ _ _
        (by
          rw [IdxMap.lookup_update_self _ _ _ (by rw [hM.2.2 p hp]; rfl)]
          rfl)
    · have hne : idxAt s q ≠ idxAt s p :=
        fun hc => hqp (mapInv_idx_inj hM hq hp hc)
      rw [IdxMap.lookup_update_ne _ _ _ _ hne, IdxMap.lookup_update_ne _ _ _ _ hne]
      exact hM.2.2 q hq

theorem swap_mapInv_all {D : Type} [Inhabited D] {s : NarrowBandStore D}
    {p0 p1 : ℕ} (hM : MapInv s) (h0 : p0 < s.values.length)
    (h1 : p1 < s.values.length) : MapInv (swap_ s p0 p1) := by
  by_cases h : p0 = p1
  · rw [h]
    exact swap_mapInv_self hM h1
  · exact swap_mapInv hM h0 h1 h

theorem insert_invs {D : Type} [Inhabited D] [LinearOrder D]
    {s : NarrowBandStore D} {v : D × Idx} {s' : NarrowBandStore D}
    (hH : HeapInv s) (hM : MapInv s)
    (h : insert (fun a b : D => a < b) s v = .ok () s') :
    HeapInv s' ∧ MapInv s' := by
  rw [insert] at h
  by_cases hdup : (IdxMap.lookup s.index_to_pos v.2).isSome = true
  · rw [if_pos hdup] at h
    cases h
  · rw [if_neg hdup] at h
    dsimp only at h
    injection h with h1 h2
    subst h2
    have hlnone : IdxMap.lookup s.index_to_pos v.2 = none :=
      Option.not_isSome_iff_eq_none.mp hdup
    have hnk : v.2 ∉ s.index_to_pos.map Prod.fst :=
      IdxMap.not_mem_of_lookup_none _ _ hlnone
    have hM1 : MapInv (D := D)
        ⟨s.values ++ [v], s.index_to_pos ++ [(v.2, s.values.length)]⟩ := by
      refine ⟨?_, ?_, ?_⟩
      · rw [List.map_append]
        refine List.Nodup.append hM.1 (List.nodup_singleton _) ?_
        intro a ha ha2
        rw [List.map_singleton, List.mem_singleton] at ha2
        rw [ha2] at ha
        exact hnk ha
      · rw [List.length_append, List.length_append, hM.2.1,
          List.length_singleton, List.length_singleton]
      · intro p hp
        rw [List.length_append, List.length_singleton] at hp
        by_cases hpl : p < s.values.length
        · have hidx : idxAt (D := D)
              ⟨s.values ++ [v], s.index_to_pos ++ [(v.2, s.values.length)]⟩ p =
                idxAt s p := by
            rw [idxAt, idxAt]
            dsimp only
            rw [List.getD_append _ _ _ _ hpl]
          rw [hidx]
          exact IdxMap.lookup_append_some _ _ _ _ (hM.2.2 p hpl)
        · have hpe : p = s.values.length := by omega
          have hidx : idxAt (D := D)
              ⟨s.values ++ [v], s.index_to_pos ++ [(v.2, s.values.length)]⟩ p =
                v.2 := by
            rw [idxAt]
            dsimp only
            rw [hpe, List.getD_append_right _ _ _ _ (le_refl _), Nat.sub_self]
            rfl
          rw [hidx, IdxMap.lookup_append_none _ _ _ hlnone, IdxMap.lookup,
            if_pos rfl, hpe]
    have hkey1 : ∀ i, i < s.values.length → keyAt (D := D)
        ⟨s.values ++ [v], s.index_to_pos ++ [(v.2, s.values.length)]⟩ i =
          keyAt s i := by
      intro i hi
      rw [keyAt, keyAt]
      dsimp only
      rw [List.getD_append _ _ _ _ hi]
    have hU1 : UpInv (D := D)
        ⟨s.values ++ [v], s.index_to_pos ++ [(v.2, s.values.length)]⟩
        s.values.length := by
      constructor
      · intro c hc hc0 hcn
        dsimp only at hc
        rw [List.length_append, List.length_singleton] at hc
        have hclen : c < s.values.length := by omega
        have hplen : parentIdx c < s.values.length :=
          lt_trans (parentIdx_lt hc0) hclen
        rw [hkey1 c hclen, hkey1 (parentIdx c) hplen]
        exact hH c hclen hc0
      · intro hl0 c hc hpar
        exfalso
        dsimp only at hc
        rw [List.length_append, List.length_singleton] at hc
        have hc0 : 0 < c := by
          rcases Nat.eq_zero_or_pos c with h0 | h0
          · rw [h0] at hpar
            have h3 : parentIdx 0 = 0 := rfl
            rw [h3] at hpar
            omega
          · exact h0
        rcases parentIdx_children hpar hc0 with h3 | h3 <;> omega
    rw [sift_up_]
    have hres := NarrowBandStore.siftUpGo_invs (s.values.length + 1)
      ⟨s.values ++ [v], s.index_to_pos ++ [(v.2, s.values.length)]⟩
      s.values.length
      (by dsimp only; rw [List.length_append, List.length_singleton]; omega)
      (by omega) hM1 hU1
    exact ⟨hres.1, hres.2.1⟩

theorem pop_invs {D : Type} [Inhabited D] [LinearOrder D]
    {s : NarrowBandStore D} {v : D × Idx} {s' : NarrowBandStore D}
    (hH : HeapInv s) (hM : MapInv s)
    (h : pop (fun a b : D => a < b) s = .ok v s') :
    HeapInv s' ∧ MapInv s' := by
  rw [pop] at h
  by_cases hemp : s.values.isEmpty = true
  · rw [if_pos hemp] at h
    cases h
  · rw [if_neg hemp] at h
    dsimp only at h
    have hlen0 : 0 < s.values.length := by
      rcases Nat.eq_zero_or_pos s.values.length with h0 | h0
      · exact absurd (List.isEmpty_iff_length_eq_zero.mpr h0) hemp
      · exact h0
    have hM1 : MapInv (swap_ s 0 (s.values.length - 1)) :=
      swap_mapInv_all hM hlen0 (by omega)
    have hs1len : (swap_ s 0 (s.values.length - 1)).values.length =
        s.values.length := swap_length s 0 (s.values.length - 1)
    have hk : idxAt (swap_ s 0 (s.values.length - 1)) (s.values.length - 1) =
        idxAt s 0 := by
      rw [swap_idxAt s 0 (s.values.length - 1) (s.values.length - 1) hlen0
        (by omega), if_pos rfl]
    have hlook : IdxMap.lookup
        (swap_ s 0 (s.values.length - 1)).index_to_pos (idxAt s 0) =
          some (s.values.length - 1) := by
      rw [← hk]
      exact hM1.2.2 (s.values.length - 1) (by omega)
    have hM2 : MapInv (D := D)
        ⟨(swap_ s 0 (s.values.length - 1)).values.dropLast,
          IdxMap.erase (swap_ s 0 (s.values.length - 1)).index_to_pos
            (s.values.getD 0 default).2⟩ := by
      refine ⟨?_, ?_, ?_⟩
      · exact hM1.1.sublist
          (List.Sublist.map Prod.fst (IdxMap.erase_sublist _ _))
      · dsimp only
        rw [List.length_dropLast, hs1len]
        have h9 : IdxMap.lookup
            (swap_ s 0 (s.values.length - 1)).index_to_pos
            (s.values.getD 0 default).2 = some (s.values.length - 1) := hlook
        have h2 := IdxMap.erase_length
          (swap_ s 0 (s.values.length - 1)).index_to_pos
          (s.values.getD 0 default).2 (by rw [h9]; rfl)
        have h3 : (swap_ s 0 (s.values.length - 1)).index_to_pos.length =
            s.values.length := by rw [hM1.2.1, hs1len]
        omega
      · intro p hp
        dsimp only at hp ⊢
        rw [List.length_dropLast, hs1len] at hp
        have hidx : idxAt (D := D)
            ⟨(swap_ s 0 (s.values.length - 1)).values.dropLast,
              IdxMap.erase (swap_ s 0 (s.values.length - 1)).index_to_pos
                (s.values.getD 0 default).2⟩ p =
              idxAt (swap_ s 0 (s.values.length - 1)) p := by
          rw [idxAt, idxAt]
          dsimp only
          rw [getD_dropLast _ _ _ (by rw [hs1len]; exact hp)]
        rw [hidx]
        have hne : idxAt (swap_ s 0 (s.values.length - 1)) p ≠
            (s.values.getD 0 default).2 := by
          intro hc
          have hc2 : idxAt (swap_ s 0 (s.values.length - 1)) p =
              idxAt (swap_ s 0 (s.values.length - 1)) (s.values.length - 1) := by
            rw [hk]
            exact hc
          have h4 := mapInv_idx_inj hM1 (by omega) (by omega) hc2
          omega
        rw [IdxMap.lookup_erase_ne _ _ _ hne]
        exact hM1.2.2 p (by omega)
    by_cases hs2emp : ((swap_ s 0 (s.values.length - 1)).values.dropLast).isEmpty = true
    · rw [if_pos hs2emp] at h
      injection h with h1 h2
      subst h2
      refine ⟨?_, hM2⟩
      intro c hc hc0
      dsimp only at hc
      rw [List.isEmpty_iff_length_eq_zero] at hs2emp
      omega
    · rw [if_neg hs2emp] at h
      injection h with h1 h2
      subst h2
      have hkey2 : ∀ i, i < s.values.length - 1 → i ≠ 0 → keyAt (D := D)
          ⟨(swap_ s 0 (s.values.length - 1)).values.dropLast,
            IdxMap.erase (swap_ s 0 (s.values.length - 1)).index_to_pos
              (s.values.getD 0 default).2⟩ i = keyAt s i := by
        intro i hi hi0
        rw [keyAt, keyAt]
        dsimp only
        rw [getD_dropLast _ _ _ (by rw [hs1len]; omega)]
        have h2 := swap_keyAt s 0 (s.values.length - 1) i hlen0 (by omega)
        rw [keyAt, keyAt] at h2
        rw [h2, if_neg (by omega : ¬ i = s.values.length - 1),
          if_neg hi0]
        rfl
      have hD2 : DownInv (D := D)
          ⟨(swap_ s 0 (s.values.length - 1)).values.dropLast,
            IdxMap.erase (swap_ s 0 (s.values.length - 1)).index_to_pos
              (s.values.getD 0 default).2⟩ 0 := by
        constructor
        · intro c hc hc0 hpne
          dsimp only at hc
          rw [List.length_dropLast, hs1len] at hc
          have hpc : parentIdx c < c := parentIdx_lt hc0
          rw [hkey2 c (by omega) (by omega), hkey2 (parentIdx c) (by omega) hpne]
          exact hH c (by omega) hc0
        · intro h0
          exact absurd h0 (lt_irrefl 0)
      rw [sift_down_]
      have hres := NarrowBandStore.siftDownGo_invs
        (((swap_ s 0 (s.values.length - 1)).values.dropLast).length + 1)
        ⟨(swap_ s 0 (s.values.length - 1)).values.dropLast,
          IdxMap.erase (swap_ s 0 (s.values.length - 1)).index_to_pos
            (s.values.getD 0 default).2⟩ 0
        (by dsimp only; omega) hM2 hD2
      exact ⟨hres.1, hres.2.1⟩

theorem decrease_invs {D : Type} [Inhabited D] [LinearOrder D]
    {s : NarrowBandStore D} {k : Idx} {d : D} {s' : NarrowBandStore D}
    (hH : HeapInv s) (hM : MapInv s)
    (h : decrease_distance (fun a b : D => a < b) (fun a b : D => a ≤ b) s k d =
      .ok () s') :
    HeapInv s' ∧ MapInv s' := by
  rw [decrease_distance] at h
  cases hlook : IdxMap.lookup s.index_to_pos k with
  | none =>
    rw [hlook] at h
    cases h
  | some pos =>
    rw [hlook] at h
    dsimp only at h
    obtain ⟨hplen, hpidx⟩ := mapInv_lookup_char hM hlook
    by_cases hle : (s.values.getD pos default).1 ≤ d
    · rw [if_pos hle] at h
      cases h
    · rw [if_neg hle] at h
      injection h with h1 h2
      subst h2
      have hlt : d < keyAt s pos := not_le.mp hle
      have hkeyset : ∀ i, keyAt (D := D)
          ⟨s.values.set pos (d, (s.values.getD pos default).2),
            s.index_to_pos⟩ i = if i = pos then d else keyAt s i := by
        intro i
        rw [keyAt]
        dsimp only
        by_cases hip : i = pos
        · rw [if_pos hip, hip, getDset_eq _ _ _ _ hplen]
        · rw [if_neg hip, getDset_ne _ _ _ _ _ (fun hc => hip hc.symm), keyAt]
      have hidxset : ∀ i, idxAt (D := D)
          ⟨s.values.set pos (d, (s.values.getD pos default).2),
            s.index_to_pos⟩ i = idxAt s i := by
        intro i
        rw [idxAt, idxAt]
        dsimp only
        by_cases hip : i = pos
        · rw [hip, getDset_eq _ _ _ _ hplen]
        · rw [getDset_ne _ _ _ _ _ (fun hc => hip hc.symm)]
      have hM1 : MapInv (D := D)
          ⟨s.values.set pos (d, (s.values.getD pos default).2),
            s.index_to_pos⟩ := by
        refine ⟨hM.1, ?_, ?_⟩
        · dsimp only
          rw [List.length_set]
          exact hM.2.1
        · intro p hp
          dsimp only at hp
          rw [List.length_set] at hp
          rw [hidxset p]
          exact hM.2.2 p hp
      have hU1 : UpInv (D := D)
          ⟨s.values.set pos (d, (s.values.getD pos default).2),
            s.index_to_pos⟩ pos := by
        constructor
        · intro c hc hc0 hcp
          dsimp only at hc
          rw [List.length_set] at hc
          rw [hkeyset c, hkeyset (parentIdx c), if_neg hcp]
          by_cases hpar : parentIdx c = pos
          · rw [if_pos hpar]
            have h3 := hH c hc hc0
            rw [hpar] at h3
            exact le_of_lt (lt_of_lt_of_le hlt h3)
          · rw [if_neg hpar]
            exact hH c hc hc0
        · intro h0 c hc hpar
          dsimp only at hc
          rw [List.length_set] at hc
          have hc0 : 0 < c := by
            rcases Nat.eq_zero_or_pos c with hz | hz
            · exfalso
              rw [hz] at hpar
              have h3 : parentIdx 0 = 0 := rfl
              rw [h3] at hpar
              omega
            · exact hz
          have hcp : c ≠ pos := by
            have h3 := parentIdx_lt hc0
            omega
          rw [hkeyset c, hkeyset (parentIdx pos), if_neg hcp,
            if_neg (ne_of_lt (parentIdx_lt h0))]
          have h3 := hH pos hplen h0
          have h4 := hH c hc hc0
          rw [hpar] at h4
          exact le_trans h3 h4
      rw [sift_up_]
      have hres := NarrowBandStore.siftUpGo_invs (pos + 1)
        ⟨s.values.set pos (d, (s.values.getD pos default).2), s.index_to_pos⟩
        pos (by dsimp only; rw [List.length_set]; exact hplen) (by omega)
        hM1 hU1
      exact ⟨hres.1, hres.2.1⟩

theorem increase_invs {D : Type} [Inhabited D] [LinearOrder D]
    {s : NarrowBandStore D} {k : Idx} {d : D} {s' : NarrowBandStore D}
    (hH : HeapInv s) (hM : MapInv s)
    (h : increase_distance (fun a b : D => a < b) (fun a b : D => a ≤ b) s k d =
      .ok () s') :
    HeapInv s' ∧ MapInv s' := by
  rw [increase_distance] at h
  cases hlook : IdxMap.lookup s.index_to_pos k with
  | none =>
    rw [hlook] at h
    cases h
  | some pos =>
    rw [hlook] at h
    dsimp only at h
    obtain ⟨hplen, hpidx⟩ := mapInv_lookup_char hM hlook
    by_cases hle : d ≤ (s.values.getD pos default).1
    · rw [if_pos hle] at h
      cases h
    · rw [if_neg hle] at h
      injection h with h1 h2
      subst h2
      have hlt : keyAt s pos < d := not_le.mp hle
      have hkeyset : ∀ i, keyAt (D := D)
          ⟨s.values.set pos (d, (s.values.getD pos default).2),
            s.index_to_pos⟩ i = if i = pos then d else keyAt s i := by
        intro i
        rw [keyAt]
        dsimp only
        by_cases hip : i = pos
        · rw [if_pos hip, hip, getDset_eq _ _ _ _ hplen]
        · rw [if_neg hip, getDset_ne _ _ _ _ _ (fun hc => hip hc.symm), keyAt]
      have hidxset : ∀ i, idxAt (D := D)
          ⟨s.values.set pos (d, (s.values.getD pos default).2),
            s.index_to_pos⟩ i = idxAt s i := by
        intro i
        rw [idxAt, idxAt]
        dsimp only
        by_cases hip : i = pos
        · rw [hip, getDset_eq _ _ _ _ hplen]
        · rw [getDset_ne _ _ _ _ _ (fun hc => hip hc.symm)]
      have hM1 : MapInv (D := D)
          ⟨s.values.set pos (d, (s.values.getD pos default).2),
            s.index_to_pos⟩ := by
        refine ⟨hM.1, ?_, ?_⟩
        · dsimp only
          rw [List.length_set]
          exact hM.2.1
        · intro p hp
          dsimp only at hp
          rw [List.length_set] at hp
          rw [hidxset p]
          exact hM.2.2 p hp
      have hD1 : DownInv (D := D)
          ⟨s.values.set pos (d, (s.values.getD pos default).2),
            s.index_to_pos⟩ pos := by
        constructor
        · intro c hc hc0 hpne
          dsimp only at hc
          rw [List.length_set] at hc
          rw [hkeyset c, hkeyset (parentIdx c), if_neg hpne]
          by_cases hcp : c = pos
          · rw [if_pos hcp]
            have h3 := hH c hc hc0
            rw [hcp] at h3
            rw [hcp]
            exact le_of_lt (lt_of_le_of_lt h3 hlt)
          · rw [if_neg hcp]
            exact hH c hc hc0
        · intro h0 c hc hpar
          dsimp only at hc
          rw [List.length_set] at hc
          have hc0 : 0 < c := by
            rcases Nat.eq_zero_or_pos c with hz | hz
            · exfalso
              rw [hz] at hpar
              have h3 : parentIdx 0 = 0 := rfl
              rw [h3] at hpar
              omega
            · exact hz
          have hcp : c ≠ pos := by
            have h3 := parentIdx_lt hc0
            omega
          rw [hkeyset c, hkeyset (parentIdx pos), if_neg hcp,
            if_neg (ne_of_lt (parentIdx_lt h0))]
          have h3 := hH pos hplen h0
          have h4 := hH c hc hc0
          rw [hpar] at h4
          exact le_trans h3 h4
      rw [sift_down_]
      have hres := NarrowBandStore.siftDownGo_invs
        ((⟨s.values.set pos (d, (s.values.getD pos default).2),
            s.index_to_pos⟩ : NarrowBandStore D).values.length + 1)
        ⟨s.values.set pos (d, (s.values.getD pos default).2), s.index_to_pos⟩
        pos (by omega) hM1 hD1
      exact ⟨hres.1, hres.2.1⟩

end NarrowBandStore

/-- Claim C3: after every public narrow-band heap operation (insert, pop,
decrease_distance, increase_distance) that returns normally, (I1) the values
array satisfies the min-heap order on distances and (I2) the index-to-position
map has exactly one entry per live heap element mapping each stored grid index
to its current array position; in particular every grid index occurs at most
once in the heap. -/
theorem narrow_band_invariants {D : Type} [Inhabited D] [LinearOrder D]
    (s : NarrowBandStore D) (hH : HeapInv s) (hM : MapInv s) :
    (∀ v s', NarrowBandStore.insert (fun a b : D => a < b) s v = .ok () s' →
      HeapInv s' ∧ MapInv s' ∧ (s'.values.map Prod.snd).Nodup) ∧
    (∀ v s', NarrowBandStore.pop (fun a b : D => a < b) s = .ok v s' →
      HeapInv s' ∧ MapInv s' ∧ (s'.values.map Prod.snd).Nodup) ∧
    (∀ k d s', NarrowBandStore.decrease_distance (fun a b : D => a < b)
        (fun a b : D => a ≤ b) s k d = .ok () s' →
      HeapInv s' ∧ MapInv s' ∧ (s'.values.map Prod.snd).Nodup) ∧
    (∀ k d s', NarrowBandStore.increase_distance (fun a b : D => a < b)
        (fun a b : D => a ≤ b) s k d = .ok () s' →
      HeapInv s' ∧ MapInv s' ∧ (s'.values.map Prod.snd).Nodup) := by
  refine ⟨?_, ?_, ?_, ?_⟩
  · intro v s' h
    obtain ⟨h1, h2⟩ := NarrowBandStore.insert_invs hH hM h
    exact ⟨h1, h2, mapInv_idx_nodup h2⟩
  · intro v s' h
    obtain ⟨h1, h2⟩ := NarrowBandStore.pop_invs hH hM h
    exact ⟨h1, h2, mapInv_idx_nodup h2⟩
  · intro k d s' h
    obtain ⟨h1, h2⟩ := NarrowBandStore.decrease_invs hH hM h
    exact ⟨h1, h2, mapInv_idx_nodup h2⟩
  · intro k d s' h
    obtain ⟨h1, h2⟩ := NarrowBandStore.increase_invs hH hM h
    exact ⟨h1, h2, mapInv_idx_nodup h2⟩

theorem narrow_band_invariants_witness :
    HeapInv (⟨[((1 : ℚ), ([0] : Idx))], [(([0] : Idx), 0)]⟩ :
      NarrowBandStore ℚ) ∧
    MapInv (⟨[((1 : ℚ), ([0] : Idx))], [(([0] : Idx), 0)]⟩ :
      NarrowBandStore ℚ) ∧
    ((⟨[((1 : ℚ), ([0] : Idx))], [(([0] : Idx), 0)]⟩ :
      NarrowBandStore ℚ).values.map Prod.snd).Nodup :=
  (narrow_band_invariants (⟨[], []⟩ : NarrowBandStore ℚ)
      (fun c hc _ => absurd hc (Nat.not_lt_zero c))
      ⟨List.nodup_nil, rfl, fun p hp => absurd hp (Nat.not_lt_zero p)⟩).1
    ((1 : ℚ), ([0] : Idx)) _ rfl

/-- Reading a cell after writing a different linear position is unchanged. -/
theorem cellRead_write_ne {α : Type} (d : α) (size : Size) (buf : List α)
    (i j : Idx) (v : α) (h : linearIndex size i ≠ linearIndex size j) :
    cellRead d size (cellWrite size buf i v) j = cellRead d size buf j := by
  rw [cellRead, cellRead, cellWrite]
  exact getDset_ne _ _ _ _ _ h

/-- Cells whose reads differ occupy different linear positions. -/
theorem linearIndex_ne_of_read_ne {α : Type} (d : α) (size : Size)
    (buf : List α) {i j : Idx} (h : cellRead d size buf i ≠ cellRead d size buf j) :
    linearIndex size i ≠ linearIndex size j :=
  fun hl => h (by rw [cellRead, cellRead, hl])

/-- In a min-heap ordered array the root is a minimum. -/
theorem root_min {D : Type} [Inhabited D] [LinearOrder D] {s : NarrowBandStore D}
    (hH : HeapInv s) : ∀ i, i < s.values.length → keyAt s 0 ≤ keyAt s i := by
  intro i
  induction i using Nat.strong_induction_on with
  | _ i ih =>
    intro hi
    rcases Nat.eq_zero_or_pos i with h0 | h0
    · rw [h0]
    · exact le_trans
        (ih (parentIdx i) (parentIdx_lt h0) (lt_trans (parentIdx_lt h0) hi))
        (hH i hi h0)

theorem visitNeighbor_error_acc (dx : List ℝ) (speed : ℝ) (size : Size)
    (offs : List Idx) (normal : List ℝ) (pred : List ℝ → Idx → Prop)
    [∀ n o, Decidable (pred n o)] (index : Idx) (e : Err) (o : Idx) :
    visitNeighbor dx speed size offs normal pred index (.error e) o = .error e := by
  unfold visitNeighbor
  rw [bind_error]

theorem visitNeighbor_frozen (dx : List ℝ) (speed : ℝ) (size : Size)
    (offs : List Idx) (normal : List ℝ) (pred : List ℝ → Idx → Prop)
    [∀ n o, Decidable (pred n o)] (index : Idx) (o : Idx)
    {cfg cfg' : Config} {q : Idx}
    (h : visitNeighbor dx speed size offs normal pred index (.ok cfg) o = .ok cfg')
    (hq : cellRead CellState.Far size cfg.state q = CellState.Frozen) :
    cellRead CellState.Far size cfg'.state q = CellState.Frozen ∧
    cellRead FV.top size cfg'.dist q = cellRead FV.top size cfg.dist q := by
  unfold visitNeighbor at h
  rw [bind_ok] at h
  dsimp only at h
  split at h
  · split at h
    · split at h
      · rename_i heq
        split at h
        · rename_i band' hins
          injection h with h1
          subst h1
          have hne : linearIndex size (idxAdd index o) ≠ linearIndex size q := by
            refine linearIndex_ne_of_read_ne CellState.Far size cfg.state ?_
            rw [heq, hq]
            exact fun hc => CellState.noConfusion hc
          exact ⟨by
              have h2 := cellRead_write_ne CellState.Far size cfg.state
                (idxAdd index o) q CellState.NarrowBand hne
              dsimp only
              rw [h2]
              exact hq,
            by
              have h2 := cellRead_write_ne FV.top size cfg.dist
                (idxAdd index o) q
                (eikonalSolve dx speed size cfg.dist cfg.state
                  (idxAdd index o) offs) hne
              dsimp only
              rw [h2]⟩
        · cases h
      · rename_i heq
        split at h
        · split at h
          · rename_i band' hdec
            injection h with h1
            subst h1
            have hne : linearIndex size (idxAdd index o) ≠ linearIndex size q := by
              refine linearIndex_ne_of_read_ne CellState.Far size cfg.state ?_
              rw [heq, hq]
              exact fun hc => CellState.noConfusion hc
            exact ⟨hq, by
              have h2 := cellRead_write_ne FV.top size cfg.dist
                (idxAdd index o) q
                (eikonalSolve dx speed size cfg.dist cfg.state
                  (idxAdd index o) offs) hne
              dsimp only
              rw [h2]⟩
          · cases h
        · injection h with h1
          subst h1
          exact ⟨hq, rfl⟩
      · injection h with h1
        subst h1
        exact ⟨hq, rfl⟩
    · injection h with h1
      subst h1
      exact ⟨hq, rfl⟩
  · injection h with h1
    subst h1
    exact ⟨hq, rfl⟩

theorem foldl_visit_error (dx : List ℝ) (speed : ℝ) (size : Size)
    (offs : List Idx) (normal : List ℝ) (pred : List ℝ → Idx → Prop)
    [∀ n o, Decidable (pred n o)] (index : Idx) (e : Err) :
    ∀ l : List Idx, l.foldl
      (visitNeighbor dx speed size offs normal pred index) (.error e) =
        .error e := by
  intro l
  induction l with
  | nil => rfl
  | cons o rest ih =>
    rw [List.foldl_cons,
      visitNeighbor_error_acc dx speed size offs normal pred index e o]
    exact ih

theorem updateNeighbors_frozen (dx : List ℝ) (speed : ℝ) (size : Size)
    (offs : List Idx) (normal : List ℝ) (pred : List ℝ → Idx → Prop)
    [∀ n o, Decidable (pred n o)] (index : Idx) {c1 c2 : Config} {q : Idx}
    (h : updateNeighbors dx speed size offs normal pred index c1 = .ok c2)
    (hq : cellRead CellState.Far size c1.state q = CellState.Frozen) :
    cellRead CellState.Far size c2.state q = CellState.Frozen ∧
    cellRead FV.top size c2.dist q = cellRead FV.top size c1.dist q := by
  unfold updateNeighbors at h
  have main : ∀ (l : List Idx) (cfg cfg' : Config),
      l.foldl (visitNeighbor dx speed size offs normal pred index)
        (.ok cfg) = .ok cfg' →
      cellRead CellState.Far size cfg.state q = CellState.Frozen →
      cellRead CellState.Far size cfg'.state q = CellState.Frozen ∧
      cellRead FV.top size cfg'.dist q = cellRead FV.top size cfg.dist q := by
    intro l
    induction l with
    | nil =>
      intro cfg cfg' hfold hfq
      rw [List.foldl_nil] at hfold
      injection hfold with h1
      subst h1
      exact ⟨hfq, rfl⟩
    | cons o rest ih =>
      intro cfg cfg' hfold hfq
      rw [List.foldl_cons] at hfold
      cases hv : visitNeighbor dx speed size offs normal pred index (.ok cfg) o with
      | error e =>
        rw [hv, foldl_visit_error dx speed size offs normal pred index e rest]
          at hfold
        cases hfold
      | ok cfg1 =>
        rw [hv] at hfold
        obtain ⟨hs1, hd1⟩ :=
          visitNeighbor_frozen dx speed size offs normal pred index o hv hfq
        obtain ⟨hs2, hd2⟩ := ih cfg1 cfg' hfold hs1
        exact ⟨hs2, by rw [hd2, hd1]⟩
  exact main offs c1 c2 h hq

/-- Claim C6 (amended): within a marching sweep, (1) each heap pop extracts a
minimal element of the CURRENT narrow band (for linearly ordered distances and
a heap-ordered store) — the popped distances need not be globally
non-decreasing because later relaxations may insert smaller keys — and
(2) a marching step whose popped cell is not Frozen (the drivers only keep
NarrowBand cells in the band) never modifies the state or the distance-grid
value of any cell already Frozen. -/
theorem march_extraction_amended {D : Type} [Inhabited D] [LinearOrder D]
    (s : NarrowBandStore D) (hH : HeapInv s) (vD : D × Idx)
    (s2 : NarrowBandStore D) (dx : List ℝ) (speed : ℝ) (size : Size)
    (offs : List Idx) (c : Config) (v : FV × Idx) (c' : Config) :
    (NarrowBandStore.pop (fun a b : D => a < b) s = .ok vD s2 →
      ∀ w ∈ s.values, vD.1 ≤ w.1) ∧
    (marchStep dx speed size offs c = .ok (some (v, c')) →
      cellRead CellState.Far size c.state v.2 ≠ CellState.Frozen →
      ∀ q, cellRead CellState.Far size c.state q = CellState.Frozen →
        cellRead CellState.Far size c'.state q = CellState.Frozen ∧
        cellRead FV.top size c'.dist q = cellRead FV.top size c.dist q) := by
  constructor
  · intro h w hw
    rw [NarrowBandStore.pop] at h
    by_cases hemp : s.values.isEmpty = true
    · rw [if_pos hemp] at h
      cases h
    · rw [if_neg hemp] at h
      dsimp only at h
      have hv : vD = s.values.getD 0 default := by
        by_cases h2 : ((NarrowBandStore.swap_ s 0
            (s.values.length - 1)).values.dropLast).isEmpty = true
        · rw [if_pos h2] at h
          injection h with h1 h3
          exact h1.symm
        · rw [if_neg h2] at h
          injection h with h1 h3
          exact h1.symm
      obtain ⟨i, hi, hwi⟩ := List.mem_iff_getElem.mp hw
      have hki : keyAt s i = w.1 := by
        rw [keyAt, List.getD_eq_getElem _ _ hi, hwi]
      have h0 := root_min hH i hi
      rw [hki] at h0
      rw [hv]
      exact h0
  · intro h hnf q hq
    rw [marchStep] at h
    by_cases hemp : c.band.values.isEmpty = true
    · rw [if_pos hemp] at h
      injection h with h1
      cases h1
    · rw [if_neg hemp] at h
      cases hpop : NarrowBandStore.pop FV.lt c.band with
      | err e b =>
        rw [hpop] at h
        cases h
      | ok value band' =>
        rw [hpop] at h
        dsimp only at h
        cases hupd : updateNeighbors dx speed size offs
            (List.replicate size.length 0) (fun _ _ => True) value.2
            ⟨cellWrite size c.dist value.2 value.1,
              cellWrite size c.state value.2 CellState.Frozen, band'⟩ with
        | error e =>
          rw [hupd] at h
          cases h
        | ok cfg =>
          rw [hupd] at h
          injection h with h1
          injection h1 with h2
          injection h2 with hv2 hc2
          subst hv2
          subst hc2
          have hne : linearIndex size value.2 ≠ linearIndex size q := by
            refine linearIndex_ne_of_read_ne CellState.Far size c.state ?_
            rw [hq]
            exact fun hc => hnf hc
          have hs1 : cellRead CellState.Far size
              (cellWrite size c.state value.2 CellState.Frozen) q =
                CellState.Frozen := by
            rw [cellRead_write_ne _ _ _ _ _ _ hne]
            exact hq
          have hd1 : cellRead FV.top size
              (cellWrite size c.dist value.2 value.1) q =
                cellRead FV.top size c.dist q :=
            cellRead_write_ne _ _ _ _ _ _ hne
          obtain ⟨hs2, hd2⟩ := updateNeighbors_frozen dx speed size offs
            (List.replicate size.length 0) (fun _ _ => True) value.2 hupd hs1
          exact ⟨hs2, by rw [hd2, hd1]⟩

theorem march_extraction_amended_witness :
    (∀ w ∈ [((1 : ℚ), ([0] : Idx))], (1 : ℚ) ≤ w.1) ∧
    (cellRead CellState.Far [4]
        [CellState.Frozen, CellState.NarrowBand, CellState.Frozen,
          CellState.Frozen] [0] = CellState.Frozen ∧
      cellRead FV.top [4] [FV.fin 0, FV.fin 1, FV.fin 6, FV.fin 5] [0] =
        cellRead FV.top [4] [FV.fin 0, FV.top, FV.fin 6, FV.fin 5] [0]) := by
  have happ := march_extraction_amended
    (⟨[((1 : ℚ), ([0] : Idx))], [(([0] : Idx), 0)]⟩ : NarrowBandStore ℚ)
    (fun c hc h0 => absurd hc (by simp; omega))
    ((1 : ℚ), ([0] : Idx)) (⟨[], []⟩ : NarrowBandStore ℚ)
    [1] 1 [4] [[1], [-1]]
    ⟨[FV.fin 0, FV.top, FV.fin 6, FV.fin 5],
      [CellState.Frozen, CellState.Far, CellState.NarrowBand, CellState.Frozen],
      ⟨[(FV.fin 6, [2])], [([2], 0)]⟩⟩
    (FV.fin 6, [2])
    ⟨[FV.fin 0, FV.fin 1, FV.fin 6, FV.fin 5],
      [CellState.Frozen, CellState.NarrowBand, CellState.Frozen, CellState.Frozen],
      ⟨[(FV.fin 1, [1])], [([1], 0)]⟩⟩
  refine ⟨happ.1 rfl, ?_⟩
  exact happ.2 cexRun_step1 (fun hc => CellState.noConfusion hc) [0] rfl

/-! ### Seed fidelity (claim C5) -/

/-- An inside index has a linear index below the buffer size. -/
theorem linearIndex_lt_linearSize : ∀ (size : Size) (index : Idx),
    insideIdx index size → linearIndex size index < linearSize size := by
  intro size
  induction size with
  | nil =>
    intro index h
    have h0 : linearIndex [] index = 0 := by cases index <;> rfl
    rw [h0, linearSize, List.prod_nil]
    exact Nat.zero_lt_one
  | cons s ss ih =>
    intro index h
    obtain ⟨hlen, hb⟩ := h
    cases index with
    | nil => simp at hlen
    | cons i is =>
      rw [linearIndex, linearSize, List.prod_cons]
      have h1 : 0 ≤ i ∧ i < (s : ℤ) := hb (i, s)
        (by rw [List.zip_cons_cons]; exact List.mem_cons_self _ _)
      have h2 : i.toNat < s := by omega
      have hrec := ih is ⟨by simpa using hlen,
        fun p hp => hb p (by rw [List.zip_cons_cons]; exact List.mem_cons_of_mem _ hp)⟩
      rw [linearSize] at hrec
      have h3 : linearIndex ss is + 1 ≤ ss.prod := hrec
      have h4 : s * (linearIndex ss is + 1) ≤ s * ss.prod :=
        Nat.mul_le_mul_left s h3
      have h5 : s * (linearIndex ss is + 1) = s * linearIndex ss is + s := by ring
      omega

/-- The row-major linear index is injective on inside indices. -/
theorem linearIndex_inj : ∀ (size : Size) (a b : Idx),
    insideIdx a size → insideIdx b size →
    linearIndex size a = linearIndex size b → a = b := by
  intro size
  induction size with
  | nil =>
    intro a b ha hb _
    rw [List.length_eq_zero.mp ha.1, List.length_eq_zero.mp hb.1]
  | cons s ss ih =>
    intro a b ha hb heq
    obtain ⟨hal, hab⟩ := ha
    obtain ⟨hbl, hbb⟩ := hb
    cases a with
    | nil => simp at hal
    | cons i is =>
      cases b with
      | nil => simp at hbl
      | cons j js =>
        rw [linearIndex, linearIndex] at heq
        have hi := hab (i, s)
          (by rw [List.zip_cons_cons]; exact List.mem_cons_self _ _)
        have hj := hbb (j, s)
          (by rw [List.zip_cons_cons]; exact List.mem_cons_self _ _)
        have hi2 : i.toNat < s := by omega
        have hj2 : j.toNat < s := by omega
        have hAB : linearIndex ss is = linearIndex ss js := by
          rcases lt_trichotomy (linearIndex ss is) (linearIndex ss js) with h | h | h
          · exfalso
            have k1 : s * (linearIndex ss is + 1) ≤ s * linearIndex ss js :=
              Nat.mul_le_mul_left s (by omega)
            have k2 : s * (linearIndex ss is + 1) =
                s * linearIndex ss is + s := by ring
            omega
          · exact h
          · exfalso
            have k1 : s * (linearIndex ss js + 1) ≤ s * linearIndex ss is :=
              Nat.mul_le_mul_left s (by omega)
            have k2 : s * (linearIndex ss js + 1) =
                s * linearIndex ss js + s := by ring
            omega
        have hsAB : s * linearIndex ss is = s * linearIndex ss js := by
          rw [hAB]
        have hij : i = j := by omega
        have hrec := ih is js
          ⟨by simpa using hal,
            fun p hp => hab p
              (by rw [List.zip_cons_cons]; exact List.mem_cons_of_mem _ hp)⟩
          ⟨by simpa using hbl,
            fun p hp => hbb p
              (by rw [List.zip_cons_cons]; exact List.mem_cons_of_mem _ hp)⟩
          hAB
        rw [hij, hrec]

/-- Case analysis for a successful Except bind. -/
theorem bind_ok_cases {ε α β : Type} {x : Except ε α} {f : α → Except ε β} {b : β}
    (h : (x >>= f) = .ok b) : ∃ a, x = .ok a ∧ f a = .ok b := by
  cases x with
  | error e =>
    rw [bind_error] at h
    cases h
  | ok a =>
    rw [bind_ok] at h
    exact ⟨a, rfl, h⟩

theorem orElse_eq_none {α : Type} {a : Option α} {f : Unit → Option α}
    (h : a.orElse f = none) : a = none ∧ f () = none := by
  cases a with
  | none => exact ⟨rfl, h⟩
  | some x => cases h

/-- A passing validation forces equal seed array lengths and inside seeds. -/
theorem validateCommon_none_facts {size : Size} {dx : List ℝ} {speed : ℝ}
    {inds : List Idx} {dists : List (Option ℝ)} {normals : List (List ℝ)}
    (h : validateCommon size dx speed inds dists normals = none) :
    inds.length = dists.length ∧ ∀ x ∈ inds, insideIdx x size := by
  unfold validateCommon at h
  obtain ⟨h1, h⟩ := orElse_eq_none h
  obtain ⟨h2, h⟩ := orElse_eq_none h
  obtain ⟨h3, h⟩ := orElse_eq_none h
  obtain ⟨h4, h⟩ := orElse_eq_none h
  obtain ⟨h5, h6⟩ := orElse_eq_none h
  constructor
  · rw [throwIfSizeNotEqual] at h4
    by_cases hc : inds.length ≠ dists.length
    · rw [if_pos hc] at h4
      cases h4
    · exact not_not.mp hc
  · rw [throwIfInvalidIndex] at h5
    by_cases hc : ∃ x ∈ inds, ¬ insideIdx x size
    · rw [if_pos hc] at h5
      cases h5
    · intro x hx
      by_cases h7 : insideIdx x size
      · exact h7
      · exact absurd ⟨x, hx, h7⟩ hc

theorem unsigned_ok_validate {size : Size} {dx : List ℝ} {speed : ℝ}
    {inds : List Idx} {dists : List (Option ℝ)} {normals : List (List ℝ)}
    {out : List FV}
    (h : unsignedDistance size dx speed inds dists normals = .ok out) :
    validateCommon size dx speed inds dists normals = none := by
  cases hv : validateCommon size dx speed inds dists normals with
  | none => rfl
  | some e =>
    rw [validateCommon_some_unsigned size dx speed inds dists normals hv] at h
    cases h

theorem signed_ok_validate {size : Size} {dx : List ℝ} {speed : ℝ}
    {inds : List Idx} {dists : List (Option ℝ)} {normals : List (List ℝ)}
    {out : List FV}
    (h : signedDistance size dx speed inds dists normals = .ok out) :
    validateCommon size dx speed inds dists normals = none ∧
    throwIfInvalidNormal normals = none := by
  cases hv : validateCommon size dx speed inds dists normals with
  | some e =>
    rw [validateCommon_some_signed size dx speed inds dists normals hv] at h
    cases h
  | none =>
    refine ⟨rfl, ?_⟩
    cases hn : throwIfInvalidNormal normals with
    | none => rfl
    | some e =>
      rw [normal_some_signed size dx speed inds dists normals hv hn] at h
      cases h

/-- A fold of cell writes away from a linear position leaves it unchanged. -/
theorem foldl_write_untouched (size : Size) (f : ℝ → FV) :
    ∀ (ps : List (Idx × ℝ)) (buf : List FV) (L : ℕ),
      (∀ p ∈ ps, linearIndex size p.1 ≠ L) →
      (ps.foldl (fun b p => cellWrite size b p.1 (f p.2)) buf).getD L FV.top =
        buf.getD L FV.top := by
  intro ps
  induction ps with
  | nil =>
    intro buf L h
    rfl
  | cons p ps ih =>
    intro buf L h
    rw [List.foldl_cons, ih _ _ (fun q hq => h q (List.mem_cons_of_mem _ hq)),
      cellWrite]
    exact getDset_ne _ _ _ _ _ (h p (List.mem_cons_self _ _))

theorem foldl_write_length (size : Size) (f : ℝ → FV) :
    ∀ (ps : List (Idx × ℝ)) (buf : List FV),
      (ps.foldl (fun b p => cellWrite size b p.1 (f p.2)) buf).length =
        buf.length := by
  intro ps
  induction ps with
  | nil =>
    intro buf
    rfl
  | cons p ps ih =>
    intro buf
    rw [List.foldl_cons, ih, cellWrite, List.length_set]

/-- The value a fold of cell writes leaves at seed i is seed i's own write,
when all other writes land on different linear positions. -/
theorem foldl_write_getD (size : Size) (f : ℝ → FV) :
    ∀ (ps : List (Idx × ℝ)) (buf : List FV) (i : ℕ), i < ps.length →
      (∀ j, j < ps.length → j ≠ i →
        linearIndex size (ps.getD j ([], 0)).1 ≠
          linearIndex size (ps.getD i ([], 0)).1) →
      linearIndex size (ps.getD i ([], 0)).1 < buf.length →
      (ps.foldl (fun b p => cellWrite size b p.1 (f p.2)) buf).getD
        (linearIndex size (ps.getD i ([], 0)).1) FV.top =
        f (ps.getD i ([], 0)).2 := by
  intro ps
  induction ps with
  | nil =>
    intro buf i hi
    exact absurd hi (Nat.not_lt_zero i)
  | cons p ps ih =>
    intro buf i hi hdist hbound
    cases i with
    | zero =>
      rw [List.foldl_cons]
      have huntouched : ∀ q ∈ ps, linearIndex size q.1 ≠
          linearIndex size (((p :: ps).getD 0 ([], 0)).1) := by
        intro q hq
        obtain ⟨j, hj, hjq⟩ := List.mem_iff_getElem.mp hq
        have h2 := hdist (j + 1) (by rw [List.length_cons]; omega)
          (Nat.succ_ne_zero j)
        rw [List.getD_cons_succ, List.getD_eq_getElem _ _ hj, hjq] at h2
        exact h2
      rw [foldl_write_untouched size f ps _ _ huntouched, cellWrite]
      rw [List.getD_cons_zero] at hbound ⊢
      exact getDset_eq _ _ _ _ hbound
    | succ k =>
      rw [List.foldl_cons, List.getD_cons_succ]
      rw [List.getD_cons_succ] at hbound
      have hk : k < ps.length := by
        rw [List.length_cons] at hi
        omega
      refine ih (cellWrite size buf p.1 (f p.2)) k hk ?_ ?_
      · intro j hj hji
        have h2 := hdist (j + 1) (by rw [List.length_cons]; omega)
          (fun hc => hji (Nat.succ_injective hc))
        rw [List.getD_cons_succ, List.getD_cons_succ] at h2
        exact h2
      · rw [cellWrite, List.length_set]
        exact hbound

theorem visitNeighbor_dist_length (dx : List ℝ) (speed : ℝ) (size : Size)
    (offs : List Idx) (normal : List ℝ) (pred : List ℝ → Idx → Prop)
    [∀ n o, Decidable (pred n o)] (index : Idx) (o : Idx) {cfg cfg' : Config}
    (h : visitNeighbor dx speed size offs normal pred index (.ok cfg) o = .ok cfg') :
    cfg'.dist.length = cfg.dist.length := by
  unfold visitNeighbor at h
  rw [bind_ok] at h
  dsimp only at h
  split at h
  · split at h
    · split at h
      · split at h
        · injection h with h1
          subst h1
          dsimp only
          rw [cellWrite, List.length_set]
        · cases h
      · split at h
        · split at h
          · injection h with h1
            subst h1
            dsimp only
            rw [cellWrite, List.length_set]
          · cases h
        · injection h with h1
          subst h1
          rfl
      · injection h with h1
        subst h1
        rfl
    · injection h with h1
      subst h1
      rfl
  · injection h with h1
    subst h1
    rfl

theorem updateNeighbors_dist_length (dx : List ℝ) (speed : ℝ) (size : Size)
    (offs : List Idx) (normal : List ℝ) (pred : List ℝ → Idx → Prop)
    [∀ n o, Decidable (pred n o)] (index : Idx) {c1 c2 : Config}
    (h : updateNeighbors dx speed size offs normal pred index c1 = .ok c2) :
    c2.dist.length = c1.dist.length := by
  unfold updateNeighbors at h
  have main : ∀ (l : List Idx) (acc : Except Err Config) (cfg' : Config),
      l.foldl (visitNeighbor dx speed size offs normal pred index) acc =
        .ok cfg' →
      ∃ cfg0, acc = .ok cfg0 ∧ cfg'.dist.length = cfg0.dist.length := by
    intro l
    induction l with
    | nil =>
      intro acc cfg' hh
      exact ⟨cfg', hh, rfl⟩
    | cons o rest ih =>
      intro acc cfg' hh
      rw [List.foldl_cons] at hh
      obtain ⟨cfg1, hv, hlen⟩ := ih _ _ hh
      cases acc with
      | error e =>
        rw [visitNeighbor_error_acc dx speed size offs normal pred index e o]
          at hv
        cases hv
      | ok cfg0 =>
        exact ⟨cfg0, rfl, by
          rw [hlen,
            visitNeighbor_dist_length dx speed size offs normal pred index o hv]⟩
  obtain ⟨cfg0, hacc, hlen⟩ := main offs (.ok c1) c2 h
  injection hacc with h1
  rw [hlen, ← h1]

theorem initFrozenCells_fst_length (size : Size) (inds : List Idx)
    (dlist : List ℝ) (m : ℝ) (dist : List FV) (state : List CellState) :
    ((initFrozenCells size inds dlist m dist state).1).length = dist.length := by
  rw [initFrozenCells]
  have main : ∀ (ps : List (Idx × ℝ)) (bufs : List FV × List CellState),
      ((ps.foldl (fun bufs p =>
        (cellWrite size bufs.1 p.1 (FV.fin (m * p.2)),
         cellWrite size bufs.2 p.1 CellState.Frozen)) bufs).1).length =
        bufs.1.length := by
    intro ps
    induction ps with
    | nil =>
      intro bufs
      rfl
    | cons p ps ih =>
      intro bufs
      rw [List.foldl_cons, ih]
      dsimp only
      rw [cellWrite, List.length_set]
  exact main _ _

theorem initNarrowBand_dist_length (dx : List ℝ) (speed : ℝ) (size : Size)
    (offs : List Idx) (inds : List Idx) (normals : List (List ℝ))
    (pred : List ℝ → Idx → Prop) [∀ n o, Decidable (pred n o)]
    {dist : List FV} {state : List CellState} {c : Config}
    (h : initNarrowBand dx speed size offs inds normals pred dist state = .ok c) :
    c.dist.length = dist.length := by
  unfold initNarrowBand at h
  rcases bind_ok_cases h with ⟨c0, hc0, hrest⟩
  have hc0c : c0 = c := by
    by_cases he : c0.band.values.isEmpty = true
    · rw [if_pos he] at hrest
      cases hrest
    · rw [if_neg he] at hrest
      injection hrest with h1
      try exact h1
  subst hc0c
  have main : ∀ (l : List (Idx × List ℝ)) (acc : Except Err Config)
      (cfg' : Config),
      l.foldl (fun acc p => acc >>= fun cfg =>
        updateNeighbors dx speed size offs p.2 pred p.1 cfg) acc = .ok cfg' →
      ∃ cfg0, acc = .ok cfg0 ∧ cfg'.dist.length = cfg0.dist.length := by
    intro l
    induction l with
    | nil =>
      intro acc cfg' hh
      exact ⟨cfg', hh, rfl⟩
    | cons p rest ih =>
      intro acc cfg' hh
      rw [List.foldl_cons] at hh
      obtain ⟨cfg1, hb, hlen⟩ := ih _ _ hh
      obtain ⟨cfg0, hacc, hupd⟩ := bind_ok_cases hb
      exact ⟨cfg0, hacc, by
        rw [hlen, updateNeighbors_dist_length dx speed size offs p.2 pred p.1 hupd]⟩
  obtain ⟨cfg0, hacc, hlen⟩ := main (inds.zip normals)
    (.ok ⟨dist, state, ⟨[], []⟩⟩) c0 hc0
  injection hacc with h1
  rw [hlen, ← h1]

theorem marchStep_dist_length (dx : List ℝ) (speed : ℝ) (size : Size)
    (offs : List Idx) {c : Config} {v : FV × Idx} {c' : Config}
    (h : marchStep dx speed size offs c = .ok (some (v, c'))) :
    c'.dist.length = c.dist.length := by
  rw [marchStep] at h
  by_cases hemp : c.band.values.isEmpty = true
  · rw [if_pos hemp] at h
    injection h with h1
    cases h1
  · rw [if_neg hemp] at h
    cases hpop : NarrowBandStore.pop FV.lt c.band with
    | err e b =>
      rw [hpop] at h
      cases h
    | ok value band' =>
      rw [hpop] at h
      dsimp only at h
      cases hupd : updateNeighbors dx speed size offs
          (List.replicate size.length 0) (fun _ _ => True) value.2
          ⟨cellWrite size c.dist value.2 value.1,
            cellWrite size c.state value.2 CellState.Frozen, band'⟩ with
      | error e =>
        rw [hupd] at h
        cases h
      | ok cfg =>
        rw [hupd] at h
        injection h with h1
        injection h1 with h2
        injection h2 with hv2 hc2
        subst hc2
        have h3 := updateNeighbors_dist_length dx speed size offs
          (List.replicate size.length 0) (fun _ _ => True) value.2 hupd
        dsimp only at h3
        rw [h3, cellWrite, List.length_set]

theorem marchGo_dist_length (dx : List ℝ) (speed : ℝ) (size : Size)
    (offs : List Idx) : ∀ (fuel : ℕ) {c : Config}
    {r : List (FV × Idx) × Config},
    marchGo dx speed size offs fuel c = .ok r →
    r.2.dist.length = c.dist.length := by
  intro fuel
  induction fuel with
  | zero =>
    intro c r h
    rw [marchGo] at h
    by_cases hemp : c.band.values.isEmpty = true
    · rw [if_pos hemp] at h
      injection h with h1
      rw [← h1]
    · rw [if_neg hemp] at h
      cases h
  | succ fuel ih =>
    intro c r h
    rw [marchGo] at h
    rcases bind_ok_cases h with ⟨step, hstep, hrest⟩
    cases step with
    | none =>
      injection hrest with h1
      rw [← h1]
    | some vc =>
      obtain ⟨v, c'⟩ := vc
      dsimp only at hrest
      rcases bind_ok_cases hrest with ⟨r', hr', hpure⟩
      injection hpure with h1
      rw [← h1]
      dsimp only
      rw [ih hr', marchStep_dist_length dx speed size offs hstep]

theorem foldl_merge_length (g : ℕ → FV) (P : ℕ → Prop) [DecidablePred P] :
    ∀ (l : List ℕ) (buf : List FV),
      (l.foldl (fun b i => if P i then b.set i (g i) else b) buf).length =
        buf.length := by
  intro l
  induction l with
  | nil =>
    intro buf
    rfl
  | cons i rest ih =>
    intro buf
    rw [List.foldl_cons, ih]
    by_cases hp : P i
    · rw [if_pos hp, List.length_set]
    · rw [if_neg hp]

/-- The final seed-overwrite fold leaves f d at seed i's linear position. -/
theorem seed_write_getD (size : Size) (inds : List Idx)
    (dists : List (Option ℝ)) (f : ℝ → FV) (buf : List FV)
    (hnd : inds.Nodup) (hins : ∀ x ∈ inds, insideIdx x size)
    (hlen : inds.length = dists.length)
    (hbuf : buf.length = linearSize size)
    (i : ℕ) (hi : i < inds.length) (d : ℝ) (hd : dists.getD i none = some d) :
    ((inds.zip (dists.map (fun d => d.getD 0))).foldl
      (fun b p => cellWrite size b p.1 (f p.2)) buf).getD
        (linearIndex size (inds.getD i [])) FV.top = f d := by
  have hpl : (inds.zip (dists.map (fun d => d.getD 0))).length = inds.length := by
    rw [List.length_zip, List.length_map, ← hlen, Nat.min_self]
  have hips : i < (inds.zip (dists.map (fun d => d.getD 0))).length := by
    rw [hpl]
    exact hi
  have hdl : i < dists.length := by omega
  rw [List.getD_eq_getElem _ _ hdl] at hd
  have hIn : ∀ j, j < inds.length → insideIdx (inds.getD j []) size := by
    intro j hj
    rw [List.getD_eq_getElem inds [] hj]
    exact hins _ (List.getElem_mem _)
  have hps : (inds.zip (dists.map (fun d => d.getD 0))).getD i ([], 0) =
      (inds.getD i [], d) := by
    rw [List.getD_eq_getElem _ _ hips, List.getElem_zip, List.getElem_map,
      List.getD_eq_getElem inds [] hi, hd]
    rfl
  have hfst : ∀ j, j < inds.length →
      ((inds.zip (dists.map (fun d => d.getD 0))).getD j ([], 0)).1 =
        inds.getD j [] := by
    intro j hj
    rw [List.getD_eq_getElem _ _ (by rw [hpl]; exact hj), List.getElem_zip,
      List.getD_eq_getElem inds [] hj]
  have hnd2 := hnd
  rw [List.Nodup, List.pairwise_iff_getElem] at hnd2
  have hdist : ∀ j, j < (inds.zip (dists.map (fun d => d.getD 0))).length →
      j ≠ i →
      linearIndex size ((inds.zip (dists.map (fun d => d.getD 0))).getD j ([], 0)).1 ≠
        linearIndex size ((inds.zip (dists.map (fun d => d.getD 0))).getD i ([], 0)).1 := by
    intro j hj hji heq
    rw [hpl] at hj
    rw [hfst j hj, hfst i hi] at heq
    have heqi : inds.getD j [] = inds.getD i [] :=
      linearIndex_inj size _ _ (hIn j hj) (hIn i hi) heq
    rw [List.getD_eq_getElem inds [] hj, List.getD_eq_getElem inds [] hi] at heqi
    rcases Nat.lt_or_ge j i with hlt | hge
    · exact hnd2 j i hj hi hlt heqi
    · have hlt2 : i < j := by omega
      exact hnd2 i j hi hj hlt2 heqi.symm
  have hbound : linearIndex size
      ((inds.zip (dists.map (fun d => d.getD 0))).getD i ([], 0)).1 <
        buf.length := by
    rw [hfst i hi, hbuf]
    exact linearIndex_lt_linearSize size _ (hIn i hi)
  have hmain := foldl_write_getD size f _ buf i hips hdist hbound
  rw [hps] at hmain
  exact hmain

/-- Claim C5: on every successful call with pairwise-distinct seed indices,
the buffer returned by unsignedDistance holds fin |d_i| at the row-major
linear index of seed i, and the buffer returned by signedDistance holds the
original signed fin d_i there. -/
theorem seed_fidelity (size : Size) (dx : List ℝ) (speed : ℝ)
    (inds : List Idx) (dists : List (Option ℝ)) (normals : List (List ℝ))
    (hnd : inds.Nodup) (i : ℕ) (hi : i < inds.length) (d : ℝ)
    (hd : dists.getD i none = some d) :
    (∀ out, unsignedDistance size dx speed inds dists normals = .ok out →
      out.getD (linearIndex size (inds.getD i [])) FV.top = FV.fin |d|) ∧
    (∀ out, signedDistance size dx speed inds dists normals = .ok out →
      out.getD (linearIndex size (inds.getD i [])) FV.top = FV.fin d) := by
  constructor
  · intro out hok
    have hv := unsigned_ok_validate hok
    obtain ⟨hlen, hins⟩ := validateCommon_none_facts hv
    unfold unsignedDistance at hok
    rw [hv] at hok
    dsimp only at hok
    rcases bind_ok_cases hok with ⟨c1, hc1, hok⟩
    rcases bind_ok_cases hok with ⟨r1, hr1, hok⟩
    rcases bind_ok_cases hok with ⟨c2, hc2, hok⟩
    rcases bind_ok_cases hok with ⟨r2, hr2, hok⟩
    injection hok with h1
    subst h1
    rw [marchNarrowBand] at hr1 hr2
    have l1 : r2.2.dist.length = linearSize size := by
      rw [marchGo_dist_length dx speed size _ _ hr2,
        initNarrowBand_dist_length dx speed size _ inds normals outsidePred hc2,
        initFrozenCells_fst_length,
        marchGo_dist_length dx speed size _ _ hr1,
        initNarrowBand_dist_length dx speed size _ inds normals insidePred hc1,
        initFrozenCells_fst_length, List.length_replicate]
    exact seed_write_getD size inds dists (fun x => FV.fin |x|) r2.2.dist
      hnd hins hlen l1 i hi d hd
  · intro out hok
    obtain ⟨hv, hn⟩ := signed_ok_validate hok
    obtain ⟨hlen, hins⟩ := validateCommon_none_facts hv
    unfold signedDistance at hok
    rw [hv, hn] at hok
    dsimp only at hok
    rcases bind_ok_cases hok with ⟨ic1, hic1, hok⟩
    rcases bind_ok_cases hok with ⟨ir, hir, hok⟩
    rcases bind_ok_cases hok with ⟨oc1, hoc1, hok⟩
    rcases bind_ok_cases hok with ⟨orr, horr, hok⟩
    injection hok with h1
    subst h1
    have lm0 : ((List.range (linearSize size)).foldl
        (fun buf i => if FV.lt (ir.2.dist.getD i FV.top) FV.top then
          buf.set i (FV.scale (-1) (ir.2.dist.getD i FV.top)) else buf)
        (List.replicate (linearSize size) FV.top)).length = linearSize size := by
      have h := foldl_merge_length
        (fun i => FV.scale (-1) (ir.2.dist.getD i FV.top))
        (fun i => FV.lt (ir.2.dist.getD i FV.top) FV.top)
        (List.range (linearSize size))
        (List.replicate (linearSize size) FV.top)
      rw [List.length_replicate] at h
      exact h
    have lm : ((List.range (linearSize size)).foldl
        (fun buf i => if FV.lt (orr.2.dist.getD i FV.top) FV.top then
          buf.set i (orr.2.dist.getD i FV.top) else buf)
        ((List.range (linearSize size)).foldl
          (fun buf i => if FV.lt (ir.2.dist.getD i FV.top) FV.top then
            buf.set i (FV.scale (-1) (ir.2.dist.getD i FV.top)) else buf)
          (List.replicate (linearSize size) FV.top))).length = linearSize size := by
      have h := foldl_merge_length
        (fun i => orr.2.dist.getD i FV.top)
        (fun i => FV.lt (orr.2.dist.getD i FV.top) FV.top)
        (List.range (linearSize size))
        ((List.range (linearSize size)).foldl
          (fun buf i => if FV.lt (ir.2.dist.getD i FV.top) FV.top then
            buf.set i (FV.scale (-1) (ir.2.dist.getD i FV.top)) else buf)
          (List.replicate (linearSize size) FV.top))
      rw [lm0] at h
      exact h
    exact seed_write_getD size inds dists FV.fin _ hnd hins hlen lm i hi d hd

theorem seed_fidelity_witness :
    [FV.fin 3, FV.fin (-2), FV.fin 3, FV.fin 4].getD
      (linearIndex [4] ([[0], [2]].getD 0 [])) FV.top = FV.fin |(3 : ℝ)| ∧
    [FV.fin 3, FV.fin 2, FV.fin 3, FV.fin 4].getD
      (linearIndex [4] ([[0], [2]].getD 0 [])) FV.top = FV.fin (3 : ℝ) := by
  have happ := seed_fidelity [4] [1] 1 [[0], [2]] [some 3, some 3] [[-1], [1]]
    (by decide) 0 (by decide) 3 rfl
  exact ⟨happ.1 _ negRun_eval, happ.2 _ negRunS_eval⟩

end FMM
